import Mathlib

/-!
mshark: ICMP, IPv6 and DNS dissection

A shallow embedding of the decoders of `icmp.go`, `ipv6.go` and `layers/dns.go`.

Conventions of the embedding

* A Go byte slice is a `Slice`: the list of its `len` bytes together with the bytes of
  its backing array that lie between `len` and `cap`. Indexing is checked against `len`,
  a slice expression `s[lo:hi]` against `cap` and `s[lo:]` against `len`, as in Go.
* Go code that can panic or recurse returns an `Outcome`: a value, a run-time panic
  (index or slice bounds out of range), or `exhausted` when the budget of nested
  calls given to the model ran out before the code returned.
* Unsigned machine integers are natural numbers, reduced explicitly where the Go
  arithmetic can wrap.
* The text produced with `fmt.Sprintf` is represented by the values handed to the
  format string, in the order of the format string.
-/

namespace Mshark

/-- A byte of a captured frame (Go `byte`). -/
abbrev Byte := Fin 256

/-- Result of running Go code: a value, a run-time panic, or a call budget that ran out. -/
inductive Outcome (α : Type) where
  | ok (a : α)
  | panic
  | exhausted
  deriving DecidableEq, Repr

/-- Sequencing: the first panic or exhausted budget ends the run. -/
def Outcome.bind {α β : Type} : Outcome α → (α → Outcome β) → Outcome β
  | .ok a, f => f a
  | .panic, _ => .panic
  | .exhausted, _ => .exhausted

instance : Monad Outcome where
  pure := Outcome.ok
  bind := Outcome.bind

/-- A Go `[]byte`: `bytes` are the `len(s)` elements of the slice, `spare` the bytes of the
backing array after them, up to `cap(s)`. -/
structure Slice where
  bytes : List Byte
  spare : List Byte
  deriving DecidableEq, Repr

/-- Go `len(s)`. -/
def Slice.len (s : Slice) : Nat := s.bytes.length

/-- Go `cap(s)`. -/
def Slice.cap (s : Slice) : Nat := s.bytes.length + s.spare.length

/-- Go `s[i]`: panics unless `i < len(s)`. -/
def index (s : Slice) (i : Nat) : Outcome Byte :=
  match s.bytes[i]? with
  | some b => .ok b
  | none => .panic

/-- Go `s[lo:hi]`: panics unless `lo ≤ hi ≤ cap(s)`; the result has length `hi - lo` and
the rest of the backing array as spare capacity. -/
def slice (s : Slice) (lo hi : Nat) : Outcome Slice :=
  if lo ≤ hi ∧ hi ≤ s.cap then
    .ok ⟨((s.bytes ++ s.spare).drop lo).take (hi - lo), (s.bytes ++ s.spare).drop hi⟩
  else .panic

/-- Go `s[lo:]`: panics unless `lo ≤ len(s)`. -/
def sliceFrom (s : Slice) (lo : Nat) : Outcome Slice :=
  if lo ≤ s.len then .ok ⟨s.bytes.drop lo, s.spare⟩ else .panic

/-- Go `binary.BigEndian.Uint16`: `_ = b[1]; uint16(b[1]) | uint16(b[0])<<8`. -/
def Uint16 (b : Slice) : Outcome Nat := do
  let _ ← index b 1
  let b1 ← index b 1
  let b0 ← index b 0
  pure (b1.val ||| (b0.val <<< 8))

/-- Go `binary.BigEndian.Uint32`:
`_ = b[3]; uint32(b[3]) | uint32(b[2])<<8 | uint32(b[1])<<16 | uint32(b[0])<<24`. -/
def Uint32 (b : Slice) : Outcome Nat := do
  let _ ← index b 3
  let b3 ← index b 3
  let b2 ← index b 2
  let b1 ← index b 1
  let b0 ← index b 0
  pure (b3.val ||| (b2.val <<< 8) ||| (b1.val <<< 16) ||| (b0.val <<< 24))

/-- Go `netip.Addr`, kept as its bytes; the zero `Addr` has none. -/
abbrev Addr := List Byte

/-- Go `netip.AddrFromSlice`: an address from a 4-byte or 16-byte slice, else the zero
`Addr` and `false`. -/
def AddrFromSlice (s : Slice) : Addr × Bool :=
  if s.len = 4 ∨ s.len = 16 then (s.bytes, true) else ([], false)

/-- The error value built by `fmt.Errorf("minimum header size for %s is %d bytes, got %d bytes")`. -/
structure HeaderError where
  layer : String
  minimum : Nat
  got : Nat
  deriving DecidableEq, Repr

/-! ## layers/dns.go -/

def headerSizeDNS : Nat := 12

/-- The separator `"."` appended after every label. -/
def dot : Byte := 46

/-- The `for` loop of `extractDomain`. `call` is the recursive call `extractDomain(data, ·)`.
The first argument counts the iterations still allowed: an iteration that does not leave
the loop removes at least one byte from `tail`, so `len(tail) + 1` iterations are never
used up (`extractDomainLoop_budget`). -/
def extractDomainLoop (call : Slice → Outcome (List Byte × Slice)) (data : Slice) :
    Nat → List Byte → Slice → Outcome (List Byte × Slice)
  | 0, _, _ => .exhausted
  | k + 1, domainName, tail => do
    let blen ← index tail 0
    if blen.val >>> 6 = 0b11 then
      let offset := (((← Uint16 (← slice tail 0 2)) &&& ((1 <<< 14) - 1))
        + 2 ^ 16 - headerSizeDNS) % 2 ^ 16
      let (part, _) ← call (← sliceFrom data offset)
      let domainName := domainName ++ part
      let tail ← sliceFrom tail 2
      pure (domainName, tail)
    else
      let tail ← sliceFrom tail 1
      if blen.val = 0 then
        pure (domainName, tail)
      else
        let label ← slice tail 0 blen.val
        let domainName := domainName ++ label.bytes
        let domainName := domainName ++ [dot]
        let tail ← sliceFrom tail blen.val
        extractDomainLoop call data k domainName tail

/-- Go `extractDomain(data, tail)`. The first argument is the number of nested calls
allowed: `extractDomain (h + 1)` follows at most `h` compression pointers in a row and
is `exhausted` when the Go code would recurse further. -/
def extractDomain : Nat → Slice → Slice → Outcome (List Byte × Slice)
  | 0, _, _ => .exhausted
  | depth + 1, data, tail =>
    extractDomainLoop (extractDomain depth data) data (tail.len + 1) [] tail

/-- Go `DNSMessage`. -/
structure DNSMessage where
  TransactionID : Nat
  Flags : Nat
  Questions : Nat
  AnswerRRs : Nat
  AuthorityRRs : Nat
  AdditionalRRs : Nat
  payload : Slice
  deriving DecidableEq, Repr

/-- Go `(*DNSMessage).Parse`: the receiver after the call and the returned error. -/
def DNSMessage.Parse (d : DNSMessage) (data : Slice) :
    Outcome (DNSMessage × Option HeaderError) :=
  if data.len < headerSizeDNS then
    pure (d, some ⟨"DNS", headerSizeDNS, data.len⟩)
  else do
    let d := { d with TransactionID := ← Uint16 (← slice data 0 2) }
    let d := { d with Flags := ← Uint16 (← slice data 2 4) }
    let d := { d with Questions := ← Uint16 (← slice data 4 6) }
    let d := { d with AnswerRRs := ← Uint16 (← slice data 6 8) }
    let d := { d with AuthorityRRs := ← Uint16 (← slice data 8 10) }
    let d := { d with AdditionalRRs := ← Uint16 (← slice data 10 headerSizeDNS) }
    let d := { d with payload := ← sliceFrom data headerSizeDNS }
    pure (d, none)

/-- One piece of text written to the `strings.Builder` of `rrecords`: a section title or
the values formatted for one record. -/
inductive RRLine where
  | title (text : String)
  | query (domain : List Byte) (typ cls : Nat)
  | answer (domain : List Byte) (typ cls ttl rdl : Nat)
  | authority (domain : List Byte) (typ cls ttl rdl : Nat)
  | additional (domain : List Byte) (typ cls ttl rdl : Nat)
  | root (typ ups t1 zres rdl : Nat)
  deriving DecidableEq, Repr

/-- Body of `for range d.Questions`: the new cursor and the line written. -/
def questionRecord (depth : Nat) (payload tail : Slice) : Outcome (Slice × RRLine) := do
  let (domain, tail) ← extractDomain depth payload tail
  let typ ← Uint16 (← slice tail 0 2)
  let cls ← Uint16 (← slice tail 2 4)
  let tail ← sliceFrom tail 4
  pure (tail, .query domain typ cls)

/-- Body shared by the answer and authority loops and by the first branch of the
additional loop; `mk` is the format string used. -/
def resourceRecord (mk : List Byte → Nat → Nat → Nat → Nat → RRLine) (depth : Nat)
    (payload tail : Slice) : Outcome (Slice × RRLine) := do
  let (domain, tail) ← extractDomain depth payload tail
  let typ ← Uint16 (← slice tail 0 2)
  let cls ← Uint16 (← slice tail 2 4)
  let ttl ← Uint32 (← slice tail 4 8)
  let rdl ← Uint16 (← slice tail 8 10)
  let tail ← sliceFrom tail (10 + rdl)
  pure (tail, mk domain typ cls ttl rdl)

/-- Body of `for range d.AdditionalRRs`. -/
def additionalRecord (depth : Nat) (payload tail : Slice) : Outcome (Slice × RRLine) := do
  if (← index tail 0).val ≠ 0 then
    resourceRecord .additional depth payload tail
  else
    let tail ← sliceFrom tail 1
    let typ ← Uint16 (← slice tail 0 2)
    let ups ← Uint16 (← slice tail 2 4)
    let t1 ← index tail 4
    let zres ← Uint16 (← slice tail 5 7)
    let rdl ← Uint16 (← slice tail 7 9)
    let tail ← sliceFrom tail (9 + rdl)
    pure (tail, .root typ ups t1.val zres rdl)

/-- A `for range n` loop over one section: runs `body` `n` times from cursor `tail`,
appending each line to `sb`. -/
def sectionLoop (body : Slice → Outcome (Slice × RRLine)) :
    Nat → Slice → List RRLine → Outcome (Slice × List RRLine)
  | 0, tail, sb => pure (tail, sb)
  | n + 1, tail, sb => do
    let (tail, line) ← body tail
    sectionLoop body n tail (sb ++ [line])

/-- One `if count > 0 ...` block of `rrecords`. -/
def sectionWalk (text : String) (body : Slice → Outcome (Slice × RRLine))
    (count : Nat) (tail : Slice) (sb : List RRLine) : Outcome (Slice × List RRLine) :=
  if count > 0 then sectionLoop body count tail (sb ++ [.title text]) else pure (tail, sb)

/-- The walk of `(*DNSMessage).rrecords`, returning the final value of the local `tail`
together with the text written. -/
def DNSMessage.rrecordsWalk (depth : Nat) (d : DNSMessage) :
    Outcome (Slice × List RRLine) := do
  let sb : List RRLine := []
  let tail := d.payload
  let (tail, sb) ← sectionWalk "- Queries:\n" (questionRecord depth d.payload) d.Questions tail sb
  let (tail, sb) ←
    sectionWalk "- Answers:\n" (resourceRecord .answer depth d.payload) d.AnswerRRs tail sb
  let (tail, sb) ← sectionWalk "- Authoritative nameservers:\n"
    (resourceRecord .authority depth d.payload) d.AuthorityRRs tail sb
  let (tail, sb) ←
    sectionWalk "- Additional records:\n" (additionalRecord depth d.payload) d.AdditionalRRs tail sb
  pure (tail, sb)

/-- Go `(*DNSMessage).rrecords`: the text written. -/
def DNSMessage.rrecords (depth : Nat) (d : DNSMessage) : Outcome (List RRLine) := do
  let (_, sb) ← d.rrecordsWalk depth
  pure sb

/-! ## icmp.go -/

def headerSizeICMP : Nat := 4

/-- Go `ICMPSegment` (its field `Type` is `Typ` here). -/
structure ICMPSegment where
  Typ : Nat
  Code : Nat
  Checksum : Nat
  Payload : Slice
  deriving DecidableEq, Repr

/-- Go `(*ICMPSegment).Parse`: the receiver after the call and the returned error. -/
def ICMPSegment.Parse (i : ICMPSegment) (data : Slice) :
    Outcome (ICMPSegment × Option HeaderError) :=
  if data.len < headerSizeICMP then
    pure (i, some ⟨"ICMP", headerSizeICMP, data.len⟩)
  else do
    let i := { i with Typ := (← index data 0).val }
    let i := { i with Code := (← index data 1).val }
    let i := { i with Checksum := ← Uint16 (← slice data 2 4) }
    let i := { i with Payload := ← sliceFrom data headerSizeICMP }
    pure (i, none)

/-- Go `(*ICMPSegment).typecode`: the names of the type and of the code. -/
def ICMPSegment.typecode (i : ICMPSegment) : String × String :=
  match i.Typ with
  | 0 => ("Echo Reply", "Echo Reply (Ping)")
  | 3 => ("Destination Unreachable",
    match i.Code with
    | 0 => "Echo Reply (Ping)"
    | 1 => "Destination host unreachable"
    | 2 => "Destination protocol unreachable"
    | 3 => "Destination port unreachable"
    | 4 => "Fragmentation required, and DF flag set"
    | 5 => "Source route failed"
    | 6 => "Destination network unknown"
    | 7 => "Destination host unknown"
    | 8 => "Source host isolated"
    | 9 => "Network administratively prohibited"
    | 10 => "Host administratively prohibited"
    | 11 => "Network unreachable for ToS"
    | 12 => "Host unreachable for ToS"
    | 13 => "Communication administratively prohibited"
    | 14 => "Host Precedence Violation"
    | 15 => "Precedence cutoff in effect"
    | _ => "Unknown")
  | 5 => ("Redirect Message",
    match i.Code with
    | 0 => "Redirect Datagram for the Network"
    | 1 => "Redirect Datagram for the Host"
    | 2 => "Redirect Datagram for the ToS & network"
    | 3 => "Redirect Datagram for the ToS & host"
    | _ => "Unknown")
  | 8 => ("Echo Request", "Echo Request (Ping)")
  | 9 => ("Router Advertisement", "Router Advertisement")
  | 10 => ("Router Solicitation", "Router discovery/selection/solicitation")
  | 11 => ("Time Exceeded",
    match i.Code with
    | 0 => "Time to live (TTL) expired in transit"
    | 1 => "Fragment reassembly time exceeded"
    | _ => "Unknown")
  | 12 => ("Parameter Problem: Bad IP header",
    match i.Code with
    | 0 => "Pointer indicates the error"
    | 1 => "Missing a required option"
    | 2 => "Bad length"
    | _ => "Unknown")
  | 13 => ("Timestamp", "Timestamp")
  | 14 => ("Timestamp Reply", "Timestamp Reply")
  | 42 => ("Extended Echo Request", "Extended Echo Request")
  | 43 => ("Extended Echo Reply",
    match i.Code with
    | 0 => "No Error"
    | 1 => "Malformed Query"
    | 2 => "No Such Interface"
    | 3 => "No Such Table Entry"
    | 4 => "Multiple Interfaces Satisfy Query"
    | _ => "Unknown")
  | _ => ("Unknown", "")

/-- The values formatted by `(*ICMPSegment).payload`, one constructor for each format
string; `count` is the `%d bytes` argument. -/
inductive ICMPPayload where
  | echo (identifier sequenceNumber count : Nat) (data : List Byte)
  | reserved (reserved count : Nat) (data : List Byte)
  | redirect (gatewayAddress : Addr) (count : Nat) (data : List Byte)
  | timestamp (identifier sequenceNumber originate receive transmit : Nat)
  | other (count : Nat) (data : List Byte)
  deriving DecidableEq, Repr

/-- Go `(*ICMPSegment).payload`. -/
def ICMPSegment.payload (i : ICMPSegment) : Outcome ICMPPayload :=
  if i.Typ = 0 ∨ i.Typ = 8 then do
    let identifier ← Uint16 (← slice i.Payload 0 2)
    let sequenceNumber ← Uint16 (← slice i.Payload 2 4)
    let count := (← sliceFrom i.Payload 4).len
    let data := (← sliceFrom i.Payload 4).bytes
    pure (.echo identifier sequenceNumber count data)
  else if i.Typ = 3 ∨ i.Typ = 11 then do
    let reserved ← Uint32 (← slice i.Payload 0 4)
    let count := (← sliceFrom i.Payload 4).len
    let data := (← sliceFrom i.Payload 4).bytes
    pure (.reserved reserved count data)
  else if i.Typ = 5 then do
    let gatewayAddress := (AddrFromSlice (← slice i.Payload 0 4)).1
    let count := (← sliceFrom i.Payload 4).len
    let data := (← sliceFrom i.Payload 4).bytes
    pure (.redirect gatewayAddress count data)
  else if i.Typ = 13 ∨ i.Typ = 14 then do
    let identifier ← Uint16 (← slice i.Payload 0 2)
    let sequenceNumber ← Uint16 (← slice i.Payload 2 4)
    let originate ← Uint32 (← slice i.Payload 4 8)
    let receive ← Uint32 (← slice i.Payload 8 12)
    let transmit ← Uint32 (← slice i.Payload 12 16)
    pure (.timestamp identifier sequenceNumber originate receive transmit)
  else
    pure (.other i.Payload.len i.Payload.bytes)

/-! ## ipv6.go -/

def headerSizeIPv6 : Nat := 40

/-- Go `IPv6Packet`. -/
structure IPv6Packet where
  Version : Nat
  TrafficClass : Nat
  FlowLabel : Nat
  PayloadLength : Nat
  NextHeader : Nat
  HopLimit : Nat
  SrcIP : Addr
  DstIP : Addr
  Payload : Slice
  deriving DecidableEq, Repr

/-- Go `(*IPv6Packet).Parse`: the receiver after the call and the returned error. The
conversions `uint8(·)` keep the low 8 bits. -/
def IPv6Packet.Parse (p : IPv6Packet) (data : Slice) :
    Outcome (IPv6Packet × Option HeaderError) :=
  if data.len < headerSizeIPv6 then
    pure (p, some ⟨"IPv6", headerSizeIPv6, data.len⟩)
  else do
    let versionTrafficFlow ← Uint32 (← slice data 0 4)
    let p := { p with Version := (versionTrafficFlow >>> 28) % 2 ^ 8 }
    let p := { p with TrafficClass := ((versionTrafficFlow >>> 20) &&& 0xFF) % 2 ^ 8 }
    let p := { p with FlowLabel := versionTrafficFlow &&& ((1 <<< 20) - 1) }
    let p := { p with PayloadLength := ← Uint16 (← slice data 4 6) }
    let p := { p with NextHeader := (← index data 6).val }
    let p := { p with HopLimit := (← index data 7).val }
    let p := { p with SrcIP := (AddrFromSlice (← slice data 8 24)).1 }
    let p := { p with DstIP := (AddrFromSlice (← slice data 24 headerSizeIPv6)).1 }
    let p := { p with Payload := ← sliceFrom data headerSizeIPv6 }
    pure (p, none)

/-- Go `(*IPv6Packet).NextLayer`. -/
def IPv6Packet.NextLayer (p : IPv6Packet) : String :=
  match p.NextHeader with
  | 0 => "HOPOPT"
  | 6 => "TCP"
  | 17 => "UDP"
  | 43 => "Route"
  | 44 => "Fragment"
  | 50 => "Encapsulating Security Payload"
  | 51 => "Authentication Header"
  | 58 => "ICMPv6"
  | 59 => "NoNxt"
  | 60 => "Opts"
  | 135 => "Mobility"
  | 139 => "Host Identity Protocol"
  | 140 => "Shim6 Protocol"
  | _ => "Unknown"

/-- The values formatted by `(*IPv6Packet).trafficClass` with
`"%#02x DSCP: %s (%#06b) ECN: %#02b"`. -/
structure TrafficClassText where
  trafficClass : Nat
  dscp : String
  dscpbin : Nat
  ecn : Nat
  deriving DecidableEq, Repr

/-- Go `(*IPv6Packet).trafficClass`. -/
def IPv6Packet.trafficClass (p : IPv6Packet) : TrafficClassText :=
  let dscpbin := p.TrafficClass >>> 2
  let dscp :=
    match dscpbin with
    | 0 => "Standard (DF)"
    | 1 => "Lower-effort (LE)"
    | 48 => "Network control (CS6)"
    | 46 => "Telephony (EF)"
    | 40 => "Signaling (CS5)"
    | 34 | 36 | 38 => "Multimedia conferencing (AF41, AF42, AF43)"
    | 32 => "Real-time interactive (CS4)"
    | 26 | 28 | 30 => "Multimedia streaming (AF31, AF32, AF33)"
    | 24 => "Broadcast video (CS3)"
    | 18 | 20 | 22 => "Low-latency data (AF21, AF22, AF23)"
    | 16 => "OAM (CS2)"
    | 10 | 12 | 14 => "High-throughput data (AF11, AF12, AF13)"
    | _ => "Unknown"
  ⟨p.TrafficClass, dscp, dscpbin, p.TrafficClass &&& 3⟩

/-! ## layers/dns.go: flags and NextLayer -/

/-- Go `(*DNSMessage).NextLayer`: the empty protocol name and the `nil` slice. -/
def DNSMessage.NextLayer (_d : DNSMessage) : String × Option Slice := ("", none)

/-- The values formatted by `(*DNSMessage).flags`: nothing, the query format or the reply
format, with the arguments in the order of the format string. -/
inductive DNSFlagsText where
  | empty
  | query (qrs : String) (qr : Nat) (opcodes : String) (opcode tc rd z na : Nat)
  | reply (qrs : String) (qr : Nat) (opcodes : String) (opcode a tc rd ra z aa na : Nat)
      (rcodes : String) (rcode : Nat)
  deriving DecidableEq, Repr

/-- Go `(*DNSMessage).flags`. -/
def DNSMessage.flags (d : DNSMessage) : DNSFlagsText :=
  let opcode := (d.Flags >>> 11) &&& 15
  let opcodes :=
    match opcode with
    | 0 => "Standard query"
    | 1 => "Inverse query"
    | 2 => "Server status request"
    | 4 => "Notify"
    | 5 => "Update"
    | 6 => "Stateful operation"
    | _ => "Unknown"
  let tc := (d.Flags >>> 9) &&& 1
  let rd := (d.Flags >>> 8) &&& 1
  let z := (d.Flags >>> 6) &&& 1
  let na := (d.Flags >>> 4) &&& 1
  let qr := (d.Flags >>> 15) &&& 1
  match qr with
  | 0 => .query "query" qr opcodes opcode tc rd z na
  | 1 =>
    let a := (d.Flags >>> 10) &&& 1
    let ra := (d.Flags >>> 7) &&& 1
    let aa := (d.Flags >>> 5) &&& 1
    let rcode := d.Flags &&& 15
    let rcodes :=
      match rcode with
      | 0 => "No error"
      | 1 => "Format error"
      | 2 => "Server failed to complete the DNS request"
      | 3 => "Domain name does not exist"
      | 4 => "Function not implemented"
      | 5 => "The server refused to answer for the query"
      | 6 => "Name that should not exist, does exist"
      | 7 => "RRset that should not exist, does exist"
      | 8 => "Server not authoritative for the zone"
      | 9 => "Name not in zone"
      | _ => "Unknown"
    .reply "reply" qr opcodes opcode a tc rd ra z aa na rcodes rcode
  | _ => .empty

/-! ## layers/http.go and layers/snmp.go -/

/-- A piece of formatted text: a string constant or the bytes of a Go string built from
a byte slice. -/
inductive TextPiece where
  | text (s : String)
  | bytes (b : List Byte)
  deriving DecidableEq, Repr

/-- Go `bytesToStr`: the string made of the `len(myBytes)` bytes of the slice. -/
def bytesToStr (myBytes : Slice) : List Byte := myBytes.bytes

/-- Go `HTTPMessage`. -/
structure HTTPMessage where
  payload : List Byte
  deriving DecidableEq, Repr

/-- Go `(*HTTPMessage).Summary`. -/
def HTTPMessage.Summary (_h : HTTPMessage) : String := "HTTP Message:"

/-- Go `(*HTTPMessage).Parse`: the receiver after the call and the returned error. -/
def HTTPMessage.Parse (h : HTTPMessage) (data : Slice) : HTTPMessage × Option HeaderError :=
  ({ h with payload := bytesToStr data }, none)

/-- Go `(*HTTPMessage).NextLayer`. -/
def HTTPMessage.NextLayer (_h : HTTPMessage) : String × Option Slice := ("", none)

/-- Go `(*HTTPMessage).String`: the format is `%s`, a newline, `%s`. -/
def HTTPMessage.String (h : HTTPMessage) : List TextPiece :=
  [.text h.Summary, .text "\n", .bytes h.payload]

/-- Go `SNMPMessage`, a struct without fields. -/
structure SNMPMessage where
  deriving DecidableEq, Repr

/-- Go `(*SNMPMessage).Summary`. -/
def SNMPMessage.Summary (_s : SNMPMessage) : String := "SNMP Message:"

/-- Go `(*SNMPMessage).Parse`: the receiver after the call and the returned error. -/
def SNMPMessage.Parse (s : SNMPMessage) (_data : Slice) : SNMPMessage × Option HeaderError :=
  (s, none)

/-- Go `(*SNMPMessage).NextLayer`. -/
def SNMPMessage.NextLayer (_s : SNMPMessage) : String × Option Slice := ("", none)

/-- Go `(*SNMPMessage).String`: the format is `%s`. -/
def SNMPMessage.String (s : SNMPMessage) : List TextPiece := [.text s.Summary]

/-! ## Values read from a byte list, used to state what the decoders return -/

/-- The byte at position `i`, as a number (0 when the list is too short). -/
def byteAt (l : List Byte) (i : Nat) : Nat := (l.getD i 0).val

/-- The big-endian 16-bit value of the two bytes at positions `i`, `i + 1`. -/
def be16At (l : List Byte) (i : Nat) : Nat := 256 * byteAt l i + byteAt l (i + 1)

/-- The big-endian 32-bit value of the four bytes at positions `i` to `i + 3`. -/
def be32At (l : List Byte) (i : Nat) : Nat :=
  2 ^ 24 * byteAt l i + 2 ^ 16 * byteAt l (i + 1) + 2 ^ 8 * byteAt l (i + 2) + byteAt l (i + 3)

/-! ## Wire encodings used to state the properties of the DNS decoder -/

/-- The length byte written before a label. -/
def lengthByte (label : List Byte) : Byte := ⟨label.length % 256, Nat.mod_lt _ (by decide)⟩

/-- Wire encoding of a run of literal labels: each label preceded by its length byte. -/
def encodeLabels : List (List Byte) → List Byte
  | [] => []
  | label :: labels => lengthByte label :: (label ++ encodeLabels labels)

/-- The name made of each label followed by `"."`, in order. -/
def dottedName : List (List Byte) → List Byte
  | [] => []
  | label :: labels => label ++ [dot] ++ dottedName labels

/-- The two bytes of a compression pointer whose 14-bit value is `p`: the bits `11`, then
`p` on 14 bits, big-endian. -/
def pointerBytes (p : Nat) : List Byte :=
  [⟨(0xC0 + p / 256) % 256, Nat.mod_lt _ (by decide)⟩, ⟨p % 256, Nat.mod_lt _ (by decide)⟩]

/-- The two bytes of a 16-bit value, big-endian. -/
def be16Bytes (v : Nat) : List Byte :=
  [⟨v / 256 % 256, Nat.mod_lt _ (by decide)⟩, ⟨v % 256, Nat.mod_lt _ (by decide)⟩]

/-- The four bytes of a 32-bit value, big-endian. -/
def be32Bytes (v : Nat) : List Byte :=
  [⟨v / 2 ^ 24 % 256, Nat.mod_lt _ (by decide)⟩, ⟨v / 2 ^ 16 % 256, Nat.mod_lt _ (by decide)⟩,
   ⟨v / 256 % 256, Nat.mod_lt _ (by decide)⟩, ⟨v % 256, Nat.mod_lt _ (by decide)⟩]

/-- How a name ends on the wire: the byte `00`, or a compression pointer with 14-bit
value `p`. -/
inductive NameEnd where
  | root
  | pointer (p : Nat)
  deriving DecidableEq, Repr

/-- A name as laid out on the wire: literal labels, then the end of the name. -/
structure WireName where
  labels : List (List Byte)
  ending : NameEnd
  deriving DecidableEq, Repr

/-- The bytes that end a name. -/
def NameEnd.encode : NameEnd → List Byte
  | .root => [0]
  | .pointer p => pointerBytes p

/-- Wire encoding of a name. -/
def WireName.encode (n : WireName) : List Byte := encodeLabels n.labels ++ n.ending.encode

/-- The root name: no label, ended by `00`. -/
def WireName.isRoot (n : WireName) : Bool :=
  n.labels.isEmpty && n.ending == .root

/-- A name is well formed, given the payload offsets `starts` of the names before it: every
label has 1 to 63 bytes, and a pointer has a 14-bit value that is the message offset
(payload offset plus 12) of the start of an earlier name. -/
def WireName.wellFormed (starts : List Nat) (n : WireName) : Bool :=
  n.labels.all (fun l => decide (1 ≤ l.length ∧ l.length ≤ 63)) &&
  match n.ending with
  | .root => true
  | .pointer p => decide (p < 2 ^ 14) && decide (12 ≤ p) && starts.contains (p - 12)

/-- A question on the wire: name, 2-byte type, 2-byte class. -/
structure WireQuestion where
  name : WireName
  typ : Nat
  cls : Nat
  deriving DecidableEq, Repr

/-- A resource record on the wire: name, 2-byte type, 2-byte class, 4-byte TTL, 2-byte
RDATA length, then the RDATA bytes. -/
structure WireRR where
  name : WireName
  typ : Nat
  cls : Nat
  ttl : Nat
  rdata : List Byte
  deriving DecidableEq, Repr

/-- The bytes of a question after its name. -/
def WireQuestion.body (q : WireQuestion) : List Byte := be16Bytes q.typ ++ be16Bytes q.cls

/-- The bytes of a resource record after its name; the declared RDATA length is the
length of the RDATA. -/
def WireRR.body (r : WireRR) : List Byte :=
  be16Bytes r.typ ++ be16Bytes r.cls ++ be32Bytes r.ttl ++ be16Bytes r.rdata.length ++ r.rdata

/-- A DNS message body: the records of the four sections. -/
structure WireMessage where
  questions : List WireQuestion
  answers : List WireRR
  authorities : List WireRR
  additionals : List WireRR
  deriving DecidableEq, Repr

/-- The records of a message in section order, each as its name and the bytes after it. -/
def WireMessage.records (m : WireMessage) : List (WireName × List Byte) :=
  m.questions.map (fun q => (q.name, q.body)) ++ m.answers.map (fun r => (r.name, r.body))
    ++ m.authorities.map (fun r => (r.name, r.body))
    ++ m.additionals.map (fun r => (r.name, r.body))

/-- Concatenation of the encodings of records. -/
def encodeRecords : List (WireName × List Byte) → List Byte
  | [] => []
  | r :: rs => r.1.encode ++ r.2 ++ encodeRecords rs

/-- The payload of a message: the concatenation, in section order, of its records. -/
def WireMessage.encode (m : WireMessage) : List Byte := encodeRecords m.records

/-- Every name of a run of records laid out from payload offset `off` is well formed, given
the offsets `starts` of the names before the run. -/
def namesWellFormed : Nat → List Nat → List (WireName × List Byte) → Bool
  | _, _, [] => true
  | off, starts, r :: rs =>
    r.1.wellFormed starts
      && namesWellFormed (off + (r.1.encode ++ r.2).length) (off :: starts) rs

/-- A well-formed message: every name is a run of labels of 1 to 63 bytes ended by `00`
or by a pointer to the start of an earlier name, every RDATA length fits its 16-bit
field, and no record of the additional section has the root name. -/
def WireMessage.wellFormed (m : WireMessage) : Bool :=
  namesWellFormed 0 [] m.records
    && (m.answers ++ m.authorities ++ m.additionals).all (fun r => decide (r.rdata.length < 2 ^ 16))
    && m.additionals.all (fun r => !r.name.isRoot)

/-- The bytes `07 'example' 03 'com' 00`. -/
def exampleComWire : List Byte := [7, 101, 120, 97, 109, 112, 108, 101, 3, 99, 111, 109, 0]

/-- The text `example.com.`. -/
def exampleComName : List Byte := [101, 120, 97, 109, 112, 108, 101, 46, 99, 111, 109, 46]

/-- A payload that is one compression pointer `C0 0C`: its target, message offset 12, is
the pointer itself. -/
def selfPointerPayload : Slice := ⟨[0xC0, 0x0C], []⟩

/-- A DNS payload (the message after its 12-byte header): the question
`example.com.` type 1 class 1, then an answer whose name is the pointer `C0 0C`, with
type 1, class 1, TTL 60 and the four RDATA bytes `01 02 03 04`. -/
def pointerAnswerPayload : Slice :=
  ⟨exampleComWire ++ [0, 1, 0, 1] ++ [0xC0, 0x0C, 0, 1, 0, 1, 0, 0, 0, 60, 0, 4, 1, 2, 3, 4], []⟩

/-- The ICMP segment `08 00 12 34 00 01 00 01 DE AD BE EF`. -/
def echoRequestSegment : Slice :=
  ⟨[0x08, 0x00, 0x12, 0x34, 0x00, 0x01, 0x00, 0x01, 0xDE, 0xAD, 0xBE, 0xEF], []⟩

/-- An echo request (type 8) cut after three payload bytes. -/
def shortEchoSegment : Slice := ⟨[0x08, 0x00, 0x12, 0x34, 0x00, 0x01, 0x00], []⟩

/-- A record with every field zero, as the Go zero value. -/
def ICMPSegment.zero : ICMPSegment := ⟨0, 0, 0, ⟨[], []⟩⟩

/-- A record with every field zero, as the Go zero value. -/
def IPv6Packet.zero : IPv6Packet := ⟨0, 0, 0, 0, 0, 0, [], [], ⟨[], []⟩⟩

/-- A record with every field zero, as the Go zero value. -/
def DNSMessage.zero : DNSMessage := ⟨0, 0, 0, 0, 0, 0, ⟨[], []⟩⟩

/-- The records of `pointerAnswerPayload` followed by an additional record whose name is
the label `ns` and a pointer to the question name: question `example.com.` (type 1,
class 1), answer named by the pointer `C0 0C` (type 1, class 1, TTL 60, RDATA `01 02 03
04`), no authority record, and the additional record (type 1, class 1, TTL 60, RDATA `05
06 07 08`). -/
def exampleMessage : WireMessage where
  questions := [⟨⟨[[101, 120, 97, 109, 112, 108, 101], [99, 111, 109]], .root⟩, 1, 1⟩]
  answers := [⟨⟨[], .pointer 12⟩, 1, 1, 60, [1, 2, 3, 4]⟩]
  authorities := []
  additionals := [⟨⟨[[110, 115]], .pointer 12⟩, 1, 1, 60, [5, 6, 7, 8]⟩]

/-- The message `exampleMessage` after `Parse`: one question, one answer, no authority
record, one additional record. -/
def exampleDNS : DNSMessage := ⟨0x1234, 0x8180, 1, 1, 0, 1, ⟨exampleMessage.encode, []⟩⟩

/-- A DNS message that is only its 12-byte header, with `Questions = 1`: the counts
declare a record that the buffer does not hold. -/
def headerOnlyMessage : Slice := ⟨[0x12, 0x34, 0x01, 0x00, 0, 1, 0, 0, 0, 0, 0, 0], []⟩

/-- An additional section of two records: the EDNS0 OPT pseudo-record `00 | 00 29 | 10 00
| 00 | 00 | 00 00 | 00 00` (root name, type 41, UDP payload size 4096, extended RCODE 0,
version 0, Z 0, RDATA length 0), then the record named `a.` with type 1, class 1, TTL 60
and no RDATA. -/
def optThenRecord : Slice :=
  ⟨[0x00, 0x00, 0x29, 0x10, 0x00, 0x00, 0x00, 0x00, 0x00, 0x00, 0x00,
    0x01, 0x61, 0x00, 0x00, 0x01, 0x00, 0x01, 0x00, 0x00, 0x00, 0x3C, 0x00, 0x00], []⟩

/-- An IPv6 packet of 48 bytes: first word `6A BC DE F1` (version 6, traffic class `AB`,
flow label `CDEF1`), payload length 8, next header 58, hop limit 64, source address
`2001:db8::1`, destination address `2001:db8::2` and 8 payload bytes. -/
def ipv6Sample : Slice :=
  ⟨[0x6A, 0xBC, 0xDE, 0xF1, 0x00, 0x08, 0x3A, 0x40,
    0x20, 0x01, 0x0D, 0xB8, 0, 0, 0, 0, 0, 0, 0, 0, 0, 0, 0, 1,
    0x20, 0x01, 0x0D, 0xB8, 0, 0, 0, 0, 0, 0, 0, 0, 0, 0, 0, 2,
    0x80, 0x00, 0x12, 0x34, 0x00, 0x01, 0x00, 0x01], []⟩

/-- An IPv6 header of 40 bytes that begins `60 00 00 00`: version 6, traffic class 0, flow
label 0, then payload length 0, next header 59, hop limit 64 and the addresses `::1` and
`::2`. -/
def ipv6Plain : Slice :=
  ⟨[0x60, 0x00, 0x00, 0x00, 0x00, 0x00, 0x3B, 0x40,
    0, 0, 0, 0, 0, 0, 0, 0, 0, 0, 0, 0, 0, 0, 0, 1,
    0, 0, 0, 0, 0, 0, 0, 0, 0, 0, 0, 0, 0, 0, 0, 2], []⟩

/-- A packet record whose traffic class is `B9`: codepoint 46, ECN 1. -/
def telephonyPacket : IPv6Packet := ⟨6, 0xB9, 0, 0, 59, 64, [], [], ⟨[], []⟩⟩

/-- A DNS message of 45 bytes: transaction id `1234`, flags `8180`, one question, one
answer, no authority and no additional record, then the payload `pointerAnswerPayload`. -/
def dnsSample : Slice :=
  ⟨[0x12, 0x34, 0x81, 0x80, 0x00, 0x01, 0x00, 0x01, 0x00, 0x00, 0x00, 0x00]
    ++ pointerAnswerPayload.bytes, []⟩

/-- The header of a standard response: flags `8180` (QR, recursion desired, recursion
available). -/
def replyHeader : DNSMessage := ⟨0x1234, 0x8180, 1, 1, 0, 0, ⟨[], []⟩⟩

/-! ## Pointers met while decoding a name -/

/-- Follows the words of the property on backward pointers: the compression pointer met
while decoding the name segment that starts at `tail`. The loop of `extractDomain` is
walked over the literal labels; when it reaches a pointer whose target offset lies in the
payload, that offset is returned; when it ends at a zero byte or in a panic, there is
none. -/
def pointerTarget (data : Slice) : Nat → Slice → Option Nat
  | 0, _ => none
  | k + 1, tail =>
    match index tail 0 with
    | .ok blen =>
      if blen.val >>> 6 = 0b11 then
        match slice tail 0 2 with
        | .ok b2 =>
          match Uint16 b2 with
          | .ok v =>
            if ((v &&& ((1 <<< 14) - 1)) + 2 ^ 16 - headerSizeDNS) % 2 ^ 16 ≤ data.len then
              some (((v &&& ((1 <<< 14) - 1)) + 2 ^ 16 - headerSizeDNS) % 2 ^ 16)
            else none
          | _ => none
        | _ => none
      else if blen.val = 0 then none
      else
        match slice ⟨tail.bytes.drop 1, tail.spare⟩ 0 blen.val,
            sliceFrom ⟨tail.bytes.drop 1, tail.spare⟩ blen.val with
        | .ok _, .ok tail2 => pointerTarget data k tail2
        | _, _ => none
    | _ => none

/-- The pointer met while decoding the name segment that starts at payload offset `o`. -/
def pointerAt (data : Slice) (o : Nat) : Option Nat :=
  pointerTarget data (data.len - o + 1) ⟨data.bytes.drop o, data.spare⟩

/-- Follows the words of the property on backward pointers, along the chain of nested calls
that starts at payload offset `o`: the pointer met by the call at `o`, if any, targets an
offset strictly smaller than `o`, and the same holds for the call at that target, and so
on, for `fuel` calls. -/
def pointersBackwardFrom (data : Slice) : Nat → Nat → Bool
  | 0, _ => false
  | fuel + 1, o =>
    match pointerAt data o with
    | some o2 => decide (o2 < o) && pointersBackwardFrom data fuel o2
    | none => true

/-- Every compression pointer met while decoding the name at payload offset `o` targets an
offset of the payload strictly smaller than the offset at which the name segment read by
the call starts. A strictly decreasing chain from `o` has at most `o + 1` calls. -/
def pointersBackward (data : Slice) (o : Nat) : Bool :=
  pointersBackwardFrom data (o + 1) o

/-! ## The text written for a well-formed message -/

/-- A record as the walk of `rrecords` meets it: its name, the bytes after the name, and
the line written for the record once its name is decoded. -/
structure WireEntry where
  name : WireName
  body : List Byte
  line : List Byte → RRLine

/-- A question as the walk meets it; the line shows the name, the type and the class. -/
def WireQuestion.entry (q : WireQuestion) : WireEntry :=
  ⟨q.name, q.body, fun nm => .query nm (q.typ % 2 ^ 16) (q.cls % 2 ^ 16)⟩

/-- A resource record as the walk meets it; the line shows the name, the type, the class,
the TTL and the RDATA length, in the format `mk` of its section. -/
def WireRR.entry (mk : List Byte → Nat → Nat → Nat → Nat → RRLine) (r : WireRR) : WireEntry :=
  ⟨r.name, r.body,
    fun nm => mk nm (r.typ % 2 ^ 16) (r.cls % 2 ^ 16) (r.ttl % 2 ^ 32) r.rdata.length⟩

/-- The text of the name that starts at payload offset `o`, in a table of the names laid
out so far (offset and text). -/
def nameAt : List (Nat × List Byte) → Nat → List Byte
  | [], _ => []
  | (o2, nm) :: table, o => if o2 = o then nm else nameAt table o

/-- The text of a name: each label followed by a dot, then, for a name ended by a pointer,
the text of the earlier name that starts at the target of the pointer. -/
def WireName.text (table : List (Nat × List Byte)) (n : WireName) : List Byte :=
  dottedName n.labels ++
    match n.ending with
    | .root => []
    | .pointer p => nameAt table (p - 12)

/-- The lines of a run of records laid out from payload offset `off`, given the table of
the names before the run. -/
def entriesLines : Nat → List (Nat × List Byte) → List WireEntry → List RRLine
  | _, _, [] => []
  | off, table, e :: es =>
    e.line (e.name.text table)
      :: entriesLines (off + (e.name.encode ++ e.body).length)
          ((off, e.name.text table) :: table) es

/-- The payload offset of the first byte after a run of records laid out from `off`. -/
def entriesEnd : Nat → List WireEntry → Nat
  | off, [] => off
  | off, e :: es => entriesEnd (off + (e.name.encode ++ e.body).length) es

/-- The table of names after a run of records laid out from `off`. -/
def entriesTable : Nat → List (Nat × List Byte) → List WireEntry → List (Nat × List Byte)
  | _, table, [] => table
  | off, table, e :: es =>
    entriesTable (off + (e.name.encode ++ e.body).length) ((off, e.name.text table) :: table) es

/-- The lines of one section: its title and one line for each record, or nothing when the
section has no record. -/
def sectionLines (text : String) (off : Nat) (table : List (Nat × List Byte))
    (es : List WireEntry) : List RRLine :=
  if es.length > 0 then .title text :: entriesLines off table es else []

/-- The text of a message: the lines of its four sections, in order. -/
def WireMessage.lines (m : WireMessage) : List RRLine :=
  let qs := m.questions.map WireQuestion.entry
  let an := m.answers.map (WireRR.entry .answer)
  let au := m.authorities.map (WireRR.entry .authority)
  let ad := m.additionals.map (WireRR.entry .additional)
  let o1 := entriesEnd 0 qs
  let t1 := entriesTable 0 [] qs
  let o2 := entriesEnd o1 an
  let t2 := entriesTable o1 t1 an
  let o3 := entriesEnd o2 au
  let t3 := entriesTable o2 t2 au
  sectionLines "- Queries:\n" 0 [] qs ++ sectionLines "- Answers:\n" o1 t1 an
    ++ sectionLines "- Authoritative nameservers:\n" o2 t2 au
    ++ sectionLines "- Additional records:\n" o3 t3 ad

/-! ## Basic facts about the embedding of Go slices -/

@[simp] theorem Outcome.ok_bind {α β : Type} (a : α) (f : α → Outcome β) :
    (Outcome.ok a >>= f) = f a := rfl

@[simp] theorem Outcome.panic_bind {α β : Type} (f : α → Outcome β) :
    (Outcome.panic >>= f) = Outcome.panic := rfl

@[simp] theorem Outcome.exhausted_bind {α β : Type} (f : α → Outcome β) :
    (Outcome.exhausted >>= f) = Outcome.exhausted := rfl

@[simp] theorem Outcome.pure_eq {α : Type} (a : α) : (pure a : Outcome α) = Outcome.ok a := rfl

@[simp] theorem index_nil (sp : List Byte) (i : Nat) : index ⟨[], sp⟩ i = .panic := by
  simp [index]

@[simp] theorem index_cons_zero (b : Byte) (s sp : List Byte) :
    index ⟨b :: s, sp⟩ 0 = .ok b := by
  simp [index]

@[simp] theorem index_cons_succ (b : Byte) (s sp : List Byte) (i : Nat) :
    index ⟨b :: s, sp⟩ (i + 1) = index ⟨s, sp⟩ i := by
  simp [index]

@[simp] theorem sliceFrom_zero (s : Slice) : sliceFrom s 0 = .ok s := by
  simp [sliceFrom]

@[simp] theorem sliceFrom_cons_succ (b : Byte) (s sp : List Byte) (i : Nat) :
    sliceFrom ⟨b :: s, sp⟩ (i + 1) = sliceFrom ⟨s, sp⟩ i := by
  simp [sliceFrom, Slice.len]

theorem sliceFrom_append (l rest sp : List Byte) :
    sliceFrom ⟨l ++ rest, sp⟩ l.length = .ok ⟨rest, sp⟩ := by
  simp [sliceFrom, Slice.len]

theorem slice_append (l rest sp : List Byte) :
    slice ⟨l ++ rest, sp⟩ 0 l.length = .ok ⟨l, rest ++ sp⟩ := by
  simp [slice, Slice.cap, List.append_assoc]
  omega

theorem be16_eq (b0 b1 : Byte) : b1.val ||| (b0.val <<< 8) = 256 * b0.val + b1.val := by
  have h1 : b1.val < 2 ^ 8 := b1.isLt
  rw [Nat.shiftLeft_eq, Nat.lor_comm, Nat.mul_comm, ← Nat.mul_add_lt_is_or h1]

theorem be32_eq (b0 b1 b2 b3 : Byte) :
    b3.val ||| (b2.val <<< 8) ||| (b1.val <<< 16) ||| (b0.val <<< 24)
      = 2 ^ 24 * b0.val + 2 ^ 16 * b1.val + 2 ^ 8 * b2.val + b3.val := by
  have h1 : b1.val < 2 ^ 8 := b1.isLt
  have h2 : b2.val < 2 ^ 8 := b2.isLt
  have h3 : b3.val < 2 ^ 8 := b3.isLt
  have e1 : b3.val ||| (b2.val <<< 8) = 2 ^ 8 * b2.val + b3.val := by
    rw [Nat.shiftLeft_eq, Nat.lor_comm, Nat.mul_comm, ← Nat.mul_add_lt_is_or h3]
  have e2 : (2 ^ 8 * b2.val + b3.val) ||| (b1.val <<< 16)
      = 2 ^ 16 * b1.val + (2 ^ 8 * b2.val + b3.val) := by
    rw [Nat.shiftLeft_eq, Nat.lor_comm, Nat.mul_comm, ← Nat.mul_add_lt_is_or (by omega)]
  have e3 : (2 ^ 16 * b1.val + (2 ^ 8 * b2.val + b3.val)) ||| (b0.val <<< 24)
      = 2 ^ 24 * b0.val + (2 ^ 16 * b1.val + (2 ^ 8 * b2.val + b3.val)) := by
    rw [Nat.shiftLeft_eq, Nat.lor_comm, Nat.mul_comm, ← Nat.mul_add_lt_is_or (by omega)]
  rw [e1, e2, e3]
  omega

theorem Uint16_cons_cons (b0 b1 : Byte) (rest sp : List Byte) :
    Uint16 ⟨b0 :: b1 :: rest, sp⟩ = .ok (256 * b0.val + b1.val) := by
  simp [Uint16, be16_eq]

theorem Uint32_cons (b0 b1 b2 b3 : Byte) (rest sp : List Byte) :
    Uint32 ⟨b0 :: b1 :: b2 :: b3 :: rest, sp⟩
      = .ok (2 ^ 24 * b0.val + 2 ^ 16 * b1.val + 2 ^ 8 * b2.val + b3.val) := by
  simp only [Uint32, index_cons_succ, index_cons_zero, Outcome.ok_bind, Outcome.pure_eq, be32_eq]

@[simp] theorem slice_cons_succ (b : Byte) (s sp : List Byte) (lo hi : Nat) :
    slice ⟨b :: s, sp⟩ (lo + 1) (hi + 1) = slice ⟨s, sp⟩ lo hi := by
  have e : hi + 1 ≤ s.length + 1 + sp.length ↔ hi ≤ s.length + sp.length := by omega
  simp [slice, Slice.cap, e]

theorem slice_zero_four (b0 b1 b2 b3 : Byte) (rest sp : List Byte) :
    slice ⟨b0 :: b1 :: b2 :: b3 :: rest, sp⟩ 0 4 = .ok ⟨[b0, b1, b2, b3], rest ++ sp⟩ := by
  have h : 4 ≤ rest.length + 1 + 1 + 1 + 1 + sp.length := by omega
  simp [slice, Slice.cap, h]

theorem slice_zero_two (b0 b1 : Byte) (rest sp : List Byte) :
    slice ⟨b0 :: b1 :: rest, sp⟩ 0 2 = .ok ⟨[b0, b1], rest ++ sp⟩ := by
  have h : 2 ≤ rest.length + 1 + 1 + sp.length := by omega
  simp [slice, Slice.cap, h]

/-! ## Reading at an offset of a slice that is long enough -/

theorem index_of_lt (s : Slice) (i : Nat) (h : i < s.bytes.length) :
    index s i = .ok (s.bytes.getD i 0) := by
  simp [index, List.getD_eq_getElem?_getD, List.getElem?_eq_getElem h]

theorem slice_of_le (s : Slice) (lo hi : Nat) (h1 : lo ≤ hi) (h2 : hi ≤ s.bytes.length) :
    slice s lo hi = .ok ⟨(s.bytes.drop lo).take (hi - lo), s.bytes.drop hi ++ s.spare⟩ := by
  have hc : lo ≤ hi ∧ hi ≤ s.cap := ⟨h1, by simp only [Slice.cap]; omega⟩
  have hd : (s.bytes ++ s.spare).drop lo = s.bytes.drop lo ++ s.spare :=
    List.drop_append_of_le_length (by omega)
  have hd2 : (s.bytes ++ s.spare).drop hi = s.bytes.drop hi ++ s.spare :=
    List.drop_append_of_le_length h2
  have ht : (s.bytes.drop lo ++ s.spare).take (hi - lo) = (s.bytes.drop lo).take (hi - lo) :=
    List.take_append_of_le_length (by simp only [List.length_drop]; omega)
  simp only [slice, hc, and_self, if_true, hd, hd2, ht]

theorem sliceFrom_of_le (s : Slice) (lo : Nat) (h : lo ≤ s.bytes.length) :
    sliceFrom s lo = .ok ⟨s.bytes.drop lo, s.spare⟩ := by
  simp [sliceFrom, Slice.len, h]

theorem byteAt_take_drop (l : List Byte) (lo n i : Nat) (h : i < n) :
    byteAt ((l.drop lo).take n) i = byteAt l (lo + i) := by
  simp only [byteAt, List.getD_eq_getElem?_getD, List.getElem?_take, h, if_true,
    List.getElem?_drop]

theorem Uint16_of_le (b : Slice) (h : 2 ≤ b.bytes.length) : Uint16 b = .ok (be16At b.bytes 0) := by
  simp only [Uint16, index_of_lt b 1 (by omega), index_of_lt b 0 (by omega), Outcome.ok_bind,
    Outcome.pure_eq, be16_eq, be16At, byteAt]

theorem Uint32_of_le (b : Slice) (h : 4 ≤ b.bytes.length) : Uint32 b = .ok (be32At b.bytes 0) := by
  simp only [Uint32, index_of_lt b 3 (by omega), index_of_lt b 2 (by omega),
    index_of_lt b 1 (by omega), index_of_lt b 0 (by omega), Outcome.ok_bind,
    Outcome.pure_eq, be32_eq, be32At, byteAt]

theorem Uint16_take_drop (l sp : List Byte) (lo : Nat) (h : lo + 2 ≤ l.length) :
    Uint16 ⟨(l.drop lo).take 2, sp⟩ = .ok (be16At l lo) := by
  rw [Uint16_of_le]
  · simp only [be16At, byteAt_take_drop _ _ _ _ (by omega : 0 < 2),
      byteAt_take_drop _ _ _ _ (by omega : 0 + 1 < 2)]
    rfl
  · simp only [List.length_take, List.length_drop]
    omega

theorem Uint32_take_drop (l sp : List Byte) (lo : Nat) (h : lo + 4 ≤ l.length) :
    Uint32 ⟨(l.drop lo).take 4, sp⟩ = .ok (be32At l lo) := by
  rw [Uint32_of_le]
  · simp only [be32At, byteAt_take_drop _ _ _ _ (by omega : 0 < 4),
      byteAt_take_drop _ _ _ _ (by omega : 0 + 1 < 4),
      byteAt_take_drop _ _ _ _ (by omega : 0 + 2 < 4),
      byteAt_take_drop _ _ _ _ (by omega : 0 + 3 < 4)]
    rfl
  · simp only [List.length_take, List.length_drop]
    omega

theorem Uint16_take (l sp : List Byte) (h : 2 ≤ l.length) :
    Uint16 ⟨l.take 2, sp⟩ = .ok (be16At l 0) := by
  have := Uint16_take_drop l sp 0 (by omega)
  rwa [List.drop_zero] at this

theorem Uint32_take (l sp : List Byte) (h : 4 ≤ l.length) :
    Uint32 ⟨l.take 4, sp⟩ = .ok (be32At l 0) := by
  have := Uint32_take_drop l sp 0 (by omega)
  rwa [List.drop_zero] at this

/-! ## Slice operations never use up a call budget -/

theorem Outcome.bind_eq_panic {α β : Type} {x : Outcome α} {f : α → Outcome β}
    (hx : x ≠ .exhausted) (hf : ∀ a, f a = .panic) : (x >>= f) = .panic := by
  cases x with
  | ok a => exact hf a
  | panic => rfl
  | exhausted => exact absurd rfl hx

theorem index_ne_exhausted (s : Slice) (i : Nat) : index s i ≠ .exhausted := by
  unfold index
  split <;> simp

theorem slice_ne_exhausted (s : Slice) (lo hi : Nat) : slice s lo hi ≠ .exhausted := by
  unfold slice
  split <;> simp

theorem sliceFrom_ne_exhausted (s : Slice) (lo : Nat) : sliceFrom s lo ≠ .exhausted := by
  unfold sliceFrom
  split <;> simp

theorem Uint16_ne_exhausted (b : Slice) : Uint16 b ≠ .exhausted := by
  unfold Uint16
  cases h1 : index b 1 with
  | ok x =>
    cases h0 : index b 0 with
    | ok y => simp
    | panic => simp
    | exhausted => exact absurd h0 (index_ne_exhausted b 0)
  | panic => simp
  | exhausted => exact absurd h1 (index_ne_exhausted b 1)

theorem Uint32_ne_exhausted (b : Slice) : Uint32 b ≠ .exhausted := by
  unfold Uint32
  cases h3 : index b 3 with
  | ok x3 =>
    cases h2 : index b 2 with
    | ok x2 =>
      cases h1 : index b 1 with
      | ok x1 =>
        cases h0 : index b 0 with
        | ok x0 => simp
        | panic => simp
        | exhausted => exact absurd h0 (index_ne_exhausted b 0)
      | panic => simp
      | exhausted => exact absurd h1 (index_ne_exhausted b 1)
    | panic => simp
    | exhausted => exact absurd h2 (index_ne_exhausted b 2)
  | panic => simp
  | exhausted => exact absurd h3 (index_ne_exhausted b 3)

theorem sliceFrom_panic (s : Slice) (lo : Nat) (h : s.len < lo) : sliceFrom s lo = .panic := by
  have hn : ¬ (lo ≤ s.len) := by omega
  simp only [sliceFrom, hn, if_false]

theorem slice_panic (s : Slice) (lo hi : Nat) (h : s.cap < hi) : slice s lo hi = .panic := by
  have hn : ¬ (lo ≤ hi ∧ hi ≤ s.cap) := by omega
  simp only [slice, hn, if_false]

theorem slice_of_le_cap (s : Slice) (lo hi : Nat) (h1 : lo ≤ hi) (h2 : hi ≤ s.cap) :
    slice s lo hi
      = .ok ⟨((s.bytes ++ s.spare).drop lo).take (hi - lo), (s.bytes ++ s.spare).drop hi⟩ := by
  have hc : lo ≤ hi ∧ hi ≤ s.cap := ⟨h1, h2⟩
  simp only [slice, hc, and_self, if_true]

/-! ## Parse -/

/-- What `(*ICMPSegment).Parse` stores when the header is complete. -/
theorem ICMPSegment_Parse_of_le (i : ICMPSegment) (data : Slice) (h : 4 ≤ data.bytes.length) :
    i.Parse data = .ok ({
      Typ := byteAt data.bytes 0
      Code := byteAt data.bytes 1
      Checksum := be16At data.bytes 2
      Payload := ⟨data.bytes.drop 4, data.spare⟩ }, none) := by
  have hlt : ¬ (data.len < 4) := by
    simp only [Slice.len]
    omega
  simp only [ICMPSegment.Parse, hlt, if_false, index_of_lt data 0 (by omega),
    index_of_lt data 1 (by omega), slice_of_le data 2 4 (by omega) h, Outcome.ok_bind,
    Nat.reduceSub, Uint16_take_drop data.bytes _ 2 h, headerSizeICMP,
    sliceFrom_of_le data 4 h, Outcome.pure_eq, byteAt]

/-- What `(*DNSMessage).Parse` stores when the header is complete. -/
theorem DNSMessage_Parse_of_le (d : DNSMessage) (data : Slice) (h : 12 ≤ data.bytes.length) :
    d.Parse data = .ok ({
      TransactionID := be16At data.bytes 0
      Flags := be16At data.bytes 2
      Questions := be16At data.bytes 4
      AnswerRRs := be16At data.bytes 6
      AuthorityRRs := be16At data.bytes 8
      AdditionalRRs := be16At data.bytes 10
      payload := ⟨data.bytes.drop 12, data.spare⟩ }, none) := by
  have hlt : ¬ (data.len < 12) := by
    simp only [Slice.len]
    omega
  simp only [DNSMessage.Parse, hlt, if_false, headerSizeDNS,
    slice_of_le data 0 2 (by omega) (by omega), slice_of_le data 2 4 (by omega) (by omega),
    slice_of_le data 4 6 (by omega) (by omega), slice_of_le data 6 8 (by omega) (by omega),
    slice_of_le data 8 10 (by omega) (by omega), slice_of_le data 10 12 (by omega) h,
    Outcome.ok_bind, Nat.reduceSub, Uint16_take_drop data.bytes _ 0 (by omega),
    Uint16_take_drop data.bytes _ 2 (by omega), Uint16_take_drop data.bytes _ 4 (by omega),
    Uint16_take_drop data.bytes _ 6 (by omega), Uint16_take_drop data.bytes _ 8 (by omega),
    Uint16_take_drop data.bytes _ 10 (by omega), sliceFrom_of_le data 12 h, Outcome.pure_eq]

/-- What `(*IPv6Packet).Parse` stores when the header is complete. -/
theorem IPv6Packet_Parse_of_le (p : IPv6Packet) (data : Slice) (h : 40 ≤ data.bytes.length) :
    p.Parse data = .ok ({
      Version := (be32At data.bytes 0 >>> 28) % 2 ^ 8
      TrafficClass := ((be32At data.bytes 0 >>> 20) &&& 0xFF) % 2 ^ 8
      FlowLabel := be32At data.bytes 0 &&& ((1 <<< 20) - 1)
      PayloadLength := be16At data.bytes 4
      NextHeader := byteAt data.bytes 6
      HopLimit := byteAt data.bytes 7
      SrcIP := (data.bytes.drop 8).take 16
      DstIP := (data.bytes.drop 24).take 16
      Payload := ⟨data.bytes.drop 40, data.spare⟩ }, none) := by
  have hlt2 : ¬ (data.bytes.length < 40) := by omega
  have h16a : ((data.bytes.drop 8).take 16).length = 16 := by
    simp only [List.length_take, List.length_drop]
    omega
  have h16b : ((data.bytes.drop 24).take 16).length = 16 := by
    simp only [List.length_take, List.length_drop]
    omega
  simp only [IPv6Packet.Parse, if_false, headerSizeIPv6,
    slice_of_le data 0 4 (by omega) (by omega), slice_of_le data 4 6 (by omega) (by omega),
    slice_of_le data 8 24 (by omega) (by omega), slice_of_le data 24 40 (by omega) h,
    Outcome.ok_bind, Nat.reduceSub, Uint32_take_drop data.bytes _ 0 (by omega),
    Uint16_take_drop data.bytes _ 4 (by omega), index_of_lt data 6 (by omega),
    index_of_lt data 7 (by omega), sliceFrom_of_le data 40 h, Outcome.pure_eq, AddrFromSlice,
    Slice.len, h16a, h16b, or_true, if_true, byteAt, hlt2]

/-! ## The loop of extractDomain -/

/-- The iteration count given to the loop of `extractDomain` is never used up: any two
counts above `len(tail)` give the same result. -/
theorem extractDomainLoop_budget (call : Slice → Outcome (List Byte × Slice)) (data : Slice) :
    ∀ (k k2 : Nat) (domainName : List Byte) (tail : Slice), tail.len < k → tail.len < k2 →
      extractDomainLoop call data k domainName tail
        = extractDomainLoop call data k2 domainName tail := by
  intro k
  induction k with
  | zero => intro k2 _ tail h; omega
  | succ k ih =>
    intro k2 domainName tail h h2
    obtain ⟨k3, rfl⟩ : ∃ k3, k2 = k3 + 1 := ⟨k2 - 1, by omega⟩
    obtain ⟨bytes, sp⟩ := tail
    cases bytes with
    | nil => simp [extractDomainLoop]
    | cons b rest =>
      simp only [extractDomainLoop, index_cons_zero, Outcome.ok_bind]
      split
      · rfl
      · simp only [sliceFrom_cons_succ, sliceFrom_zero, Outcome.ok_bind]
        split
        · rfl
        · cases slice ⟨rest, sp⟩ 0 b.val with
          | ok label =>
            simp only [Outcome.ok_bind, sliceFrom]
            split
            · simp only [Outcome.ok_bind]
              apply ih
              · simp only [Slice.len, List.length_drop, List.length_cons] at *; omega
              · simp only [Slice.len, List.length_drop, List.length_cons] at *; omega
            · rfl
          | panic => rfl
          | exhausted => rfl

theorem extractDomain_succ (depth : Nat) (data : Slice) (bytes sp : List Byte) :
    extractDomain (depth + 1) data ⟨bytes, sp⟩
      = extractDomainLoop (extractDomain depth data) data (bytes.length + 1) [] ⟨bytes, sp⟩ :=
  rfl

/-- One iteration of the loop of `extractDomain` at a zero length byte. -/
theorem extractDomainLoop_zero (call : Slice → Outcome (List Byte × Slice))
    (data : Slice) (k : Nat) (domainName s sp : List Byte) :
    extractDomainLoop call data (k + 1) domainName ⟨(0 : Byte) :: s, sp⟩
      = .ok (domainName, ⟨s, sp⟩) := by
  have h : ¬ ((0 : Nat) >>> 6 = 3) := by decide
  rw [extractDomainLoop]
  simp only [index_cons_zero, Outcome.ok_bind, h, if_false, sliceFrom_cons_succ, sliceFrom_zero,
    if_true, Fin.val_zero, Outcome.pure_eq]

/-- One iteration of the loop of `extractDomain` at a literal label. -/
theorem extractDomainLoop_label (call : Slice → Outcome (List Byte × Slice))
    (data : Slice) (k : Nat) (domainName l rest sp : List Byte) (b : Byte)
    (hb : b.val = l.length) (h1 : 1 ≤ l.length) (h63 : l.length ≤ 63) :
    extractDomainLoop call data (k + 1) domainName ⟨b :: (l ++ rest), sp⟩
      = extractDomainLoop call data k (domainName ++ l ++ [dot]) ⟨rest, sp⟩ := by
  have hs : ¬ (l.length >>> 6 = 3) := by
    rw [Nat.shiftRight_eq_div_pow]
    omega
  have hz : ¬ (l.length = 0) := by omega
  rw [extractDomainLoop]
  simp only [index_cons_zero, Outcome.ok_bind, hb, hs, if_false, hz, sliceFrom_cons_succ,
    sliceFrom_zero, slice_append, sliceFrom_append]

/-- One iteration of the loop of `extractDomain` at a compression pointer. -/
theorem extractDomainLoop_pointer (call : Slice → Outcome (List Byte × Slice))
    (data : Slice) (k : Nat) (domainName s sp : List Byte) (b0 b1 : Byte)
    (h : b0.val >>> 6 = 3) :
    extractDomainLoop call data (k + 1) domainName ⟨b0 :: b1 :: s, sp⟩
      = (sliceFrom data (((256 * b0.val + b1.val) % 2 ^ 14 + 2 ^ 16 - 12) % 2 ^ 16)
          >>= fun target => call target >>= fun r =>
            Outcome.ok (domainName ++ r.1, (⟨s, sp⟩ : Slice))) := by
  have e : (1 <<< 14) - 1 = 2 ^ 14 - 1 := by decide
  rw [extractDomainLoop]
  simp only [index_cons_zero, Outcome.ok_bind]
  rw [if_pos h]
  simp only [slice_zero_two, Outcome.ok_bind, Uint16_cons_cons, headerSizeDNS]
  rw [e, Nat.and_pow_two_sub_one_eq_mod]
  cases sliceFrom data (((256 * b0.val + b1.val) % 2 ^ 14 + 2 ^ 16 - 12) % 2 ^ 16) with
  | ok target =>
    simp only [Outcome.ok_bind]
    cases call target with
    | ok r => simp only [Outcome.ok_bind, sliceFrom_cons_succ, sliceFrom_zero, Outcome.pure_eq]
    | panic => rfl
    | exhausted => rfl
  | panic => rfl
  | exhausted => rfl

theorem pointerBytes_eq (p : Nat) (hp : p < 2 ^ 14) :
    ∃ b0 b1 : Byte, pointerBytes p = [b0, b1] ∧ b0.val >>> 6 = 3
      ∧ (256 * b0.val + b1.val) % 2 ^ 14 = p := by
  refine ⟨_, _, rfl, ?_, ?_⟩
  · simp only [Nat.shiftRight_eq_div_pow]
    omega
  · simp only []
    omega

/-- The loop of `extractDomain` over a run of literal labels. -/
theorem extractDomainLoop_labels (call : Slice → Outcome (List Byte × Slice)) (data : Slice) :
    ∀ (labels : List (List Byte)), (∀ l ∈ labels, 1 ≤ l.length ∧ l.length ≤ 63) →
    ∀ (k : Nat) (domainName rest sp : List Byte), (encodeLabels labels ++ rest).length < k →
      extractDomainLoop call data k domainName ⟨encodeLabels labels ++ rest, sp⟩
        = extractDomainLoop call data (rest.length + 1) (domainName ++ dottedName labels)
            ⟨rest, sp⟩ := by
  intro labels
  induction labels with
  | nil =>
    intro _ k domainName rest sp hk
    simp only [encodeLabels, List.nil_append, dottedName, List.append_nil] at hk ⊢
    exact extractDomainLoop_budget call data _ _ _ _ hk (Nat.lt_succ_self _)
  | cons l ls ih =>
    intro hl k domainName rest sp hk
    have hl1 := hl l (List.mem_cons_self _ _)
    have hls : ∀ x ∈ ls, 1 ≤ x.length ∧ x.length ≤ 63 :=
      fun x hx => hl x (List.mem_cons_of_mem _ hx)
    obtain ⟨k2, rfl⟩ : ∃ k2, k = k2 + 1 := ⟨k - 1, by omega⟩
    have hv : (lengthByte l).val = l.length := by
      simp only [lengthByte]
      omega
    simp only [encodeLabels, List.cons_append, List.append_assoc]
    rw [extractDomainLoop_label call data k2 domainName l _ _ _ hv hl1.1 hl1.2,
      ih hls k2 _ rest sp]
    · simp [dottedName, List.append_assoc]
    · simp only [encodeLabels, List.cons_append, List.length_cons, List.length_append] at hk ⊢
      omega

/-! ## A larger budget of nested calls keeps a result -/

theorem Outcome.bind_mono {α β : Type} {x : Outcome α} {f g : α → Outcome β}
    (h : ∀ a r, f a = .ok r → g a = .ok r) :
    ∀ r, (x >>= f) = .ok r → (x >>= g) = .ok r := by
  intro r hr
  cases x with
  | ok a => exact h a r hr
  | panic => exact absurd hr (by simp)
  | exhausted => exact absurd hr (by simp)

theorem Outcome.bind_mono_left {α β : Type} {x y : Outcome α} {f : α → Outcome β}
    (h : ∀ a, x = .ok a → y = .ok a) :
    ∀ r, (x >>= f) = .ok r → (y >>= f) = .ok r := by
  intro r hr
  cases x with
  | ok a => rw [h a rfl]; exact hr
  | panic => exact absurd hr (by simp)
  | exhausted => exact absurd hr (by simp)

theorem extractDomainLoop_mono (call call2 : Slice → Outcome (List Byte × Slice))
    (hcall : ∀ t r, call t = .ok r → call2 t = .ok r) (data : Slice) :
    ∀ (k : Nat) (domainName : List Byte) (tail : Slice) (r : List Byte × Slice),
      extractDomainLoop call data k domainName tail = .ok r →
      extractDomainLoop call2 data k domainName tail = .ok r := by
  intro k
  induction k with
  | zero =>
    intro domainName tail r h
    simp [extractDomainLoop] at h
  | succ k ih =>
    intro domainName tail
    rw [extractDomainLoop, extractDomainLoop]
    refine Outcome.bind_mono (fun blen => ?_)
    by_cases hb : blen.val >>> 6 = 3
    · rw [if_pos hb, if_pos hb]
      refine Outcome.bind_mono (fun b2 => ?_)
      refine Outcome.bind_mono (fun v => ?_)
      refine Outcome.bind_mono (fun target => ?_)
      exact Outcome.bind_mono_left (hcall target)
    · rw [if_neg hb, if_neg hb]
      refine Outcome.bind_mono (fun tail2 => ?_)
      by_cases hz : blen.val = 0
      · rw [if_pos hz, if_pos hz]
        exact fun r h => h
      · rw [if_neg hz, if_neg hz]
        refine Outcome.bind_mono (fun label => ?_)
        refine Outcome.bind_mono (fun tail3 => ?_)
        exact ih _ _

theorem extractDomain_mono (data : Slice) :
    ∀ (depth : Nat) (tail : Slice) (r : List Byte × Slice),
      extractDomain depth data tail = .ok r → extractDomain (depth + 1) data tail = .ok r := by
  intro depth
  induction depth with
  | zero =>
    intro tail r h
    simp [extractDomain] at h
  | succ depth ih =>
    intro tail r h
    rw [extractDomain] at h ⊢
    exact extractDomainLoop_mono _ _ ih data _ _ _ r h

theorem extractDomain_mono_le (data : Slice) (depth depth2 : Nat) (hle : depth ≤ depth2)
    (tail : Slice) (r : List Byte × Slice) (h : extractDomain depth data tail = .ok r) :
    extractDomain depth2 data tail = .ok r := by
  induction hle with
  | refl => exact h
  | step _ ih => exact extractDomain_mono data _ tail r ih

theorem extractDomain_nil (depth : Nat) (data : Slice) (sp : List Byte)
    (r : List Byte × Slice) : extractDomain depth data ⟨[], sp⟩ ≠ .ok r := by
  cases depth with
  | zero => simp [extractDomain]
  | succ depth => simp [extractDomain, extractDomainLoop, Slice.len]

/-! ## When decoding stops, it stops within a number of hops bounded by the payload -/

theorem Outcome.bind_settled {α β : Type} {x : Outcome α} {f g : α → Outcome β}
    (h : ∀ a, f a ≠ .exhausted → g a = f a) :
    (x >>= f) ≠ .exhausted → (x >>= g) = (x >>= f) := by
  intro hx
  cases x with
  | ok a => exact h a hx
  | panic => rfl
  | exhausted => rfl

theorem Outcome.bind_settled_left {α β : Type} {x y : Outcome α} {f : α → Outcome β}
    (h : x ≠ .exhausted → y = x) :
    (x >>= f) ≠ .exhausted → (y >>= f) = (x >>= f) := by
  intro hx
  cases x with
  | ok a => rw [h (by simp)]
  | panic => rw [h (by simp)]
  | exhausted => exact absurd rfl hx

theorem extractDomainLoop_settled (call call2 : Slice → Outcome (List Byte × Slice))
    (hcall : ∀ t, call t ≠ .exhausted → call2 t = call t) (data : Slice) :
    ∀ (k : Nat) (domainName : List Byte) (tail : Slice),
      extractDomainLoop call data k domainName tail ≠ .exhausted →
      extractDomainLoop call2 data k domainName tail
        = extractDomainLoop call data k domainName tail := by
  intro k
  induction k with
  | zero =>
    intro domainName tail h
    simp [extractDomainLoop] at h
  | succ k ih =>
    intro domainName tail
    rw [extractDomainLoop, extractDomainLoop]
    refine Outcome.bind_settled (fun blen => ?_)
    by_cases hb : blen.val >>> 6 = 3
    · rw [if_pos hb, if_pos hb]
      refine Outcome.bind_settled (fun b2 => ?_)
      refine Outcome.bind_settled (fun v => ?_)
      refine Outcome.bind_settled (fun target => ?_)
      exact Outcome.bind_settled_left (hcall target)
    · rw [if_neg hb, if_neg hb]
      refine Outcome.bind_settled (fun tail2 => ?_)
      by_cases hz : blen.val = 0
      · rw [if_pos hz, if_pos hz]
        exact fun _ => rfl
      · rw [if_neg hz, if_neg hz]
        refine Outcome.bind_settled (fun label => ?_)
        refine Outcome.bind_settled (fun tail3 => ?_)
        exact ih _ _

/-- A result reached with some budget of nested calls is the result with every larger
budget. -/
theorem extractDomain_settled (data : Slice) :
    ∀ (depth : Nat) (tail : Slice), extractDomain depth data tail ≠ .exhausted →
      extractDomain (depth + 1) data tail = extractDomain depth data tail := by
  intro depth
  induction depth with
  | zero =>
    intro tail h
    simp [extractDomain] at h
  | succ depth ih =>
    intro tail h
    rw [extractDomain] at h
    rw [extractDomain, extractDomain]
    exact extractDomainLoop_settled _ _ ih data _ _ _ h

theorem extractDomain_settled_le (data : Slice) (depth depth2 : Nat) (hle : depth ≤ depth2)
    (tail : Slice) (h : extractDomain depth data tail ≠ .exhausted) :
    extractDomain depth2 data tail = extractDomain depth data tail := by
  induction hle with
  | refl => rfl
  | step _ ih =>
    rw [extractDomain_settled data _ tail (by rw [ih]; exact h), ih]

theorem sliceFrom_len_le (s t : Slice) (lo : Nat) (h : sliceFrom s lo = .ok t) :
    t.len ≤ s.len ∧ t.len + lo = s.len := by
  unfold sliceFrom at h
  split at h
  · cases h
    simp only [Slice.len, List.length_drop] at *
    omega
  · cases h

/-- One run of the loop of `extractDomain` either gives a result that does not depend on
the nested call, or hands the bytes at one offset `o ≤ len(data)` to the nested call and
does not return exactly when that call does not. -/
theorem extractDomainLoop_cases (data : Slice) :
    ∀ (k : Nat) (domainName : List Byte) (tail : Slice), tail.len < k →
      (∃ r, r ≠ Outcome.exhausted
        ∧ ∀ call, extractDomainLoop call data k domainName tail = r)
      ∨ (∃ o, o ≤ data.len ∧ ∀ call : Slice → Outcome (List Byte × Slice),
          (extractDomainLoop call data k domainName tail = .exhausted
            ↔ call ⟨data.bytes.drop o, data.spare⟩ = .exhausted)) := by
  intro k
  induction k with
  | zero =>
    intro _ tail h
    omega
  | succ k ih =>
    intro domainName tail hlen
    obtain ⟨bytes, sp⟩ := tail
    cases bytes with
    | nil =>
      exact Or.inl ⟨.panic, by simp, fun call => by simp [extractDomainLoop]⟩
    | cons b rest =>
      by_cases hb : b.val >>> 6 = 3
      · have hpanic : ∀ (x : Outcome (List Byte × Slice)), x = .panic → x ≠ .exhausted := by
          intro x hx
          rw [hx]
          simp
        cases hs : slice ⟨b :: rest, sp⟩ 0 2 with
        | exhausted => exact absurd hs (slice_ne_exhausted _ _ _)
        | panic =>
          refine Or.inl ⟨.panic, by simp, fun call => ?_⟩
          rw [extractDomainLoop]
          simp only [index_cons_zero, Outcome.ok_bind]
          rw [if_pos hb, hs]
          rfl
        | ok b2 =>
          cases hu : Uint16 b2 with
          | exhausted => exact absurd hu (Uint16_ne_exhausted _)
          | panic =>
            refine Or.inl ⟨.panic, by simp, fun call => ?_⟩
            rw [extractDomainLoop]
            simp only [index_cons_zero, Outcome.ok_bind]
            rw [if_pos hb, hs, Outcome.ok_bind, hu]
            rfl
          | ok v =>
            by_cases ho : ((v &&& ((1 <<< 14) - 1)) + 2 ^ 16 - headerSizeDNS) % 2 ^ 16
                ≤ data.len
            · refine Or.inr ⟨_, ho, fun call => ?_⟩
              rw [extractDomainLoop]
              simp only [index_cons_zero, Outcome.ok_bind]
              rw [if_pos hb, hs, Outcome.ok_bind, hu, Outcome.ok_bind]
              simp only [sliceFrom, ho, if_true, Outcome.ok_bind]
              cases call ⟨data.bytes.drop
                (((v &&& ((1 <<< 14) - 1)) + 2 ^ 16 - headerSizeDNS) % 2 ^ 16), data.spare⟩ with
              | ok r =>
                simp only [Outcome.ok_bind]
                split <;> simp
              | panic => simp
              | exhausted => simp
            · refine Or.inl ⟨.panic, by simp, fun call => ?_⟩
              rw [extractDomainLoop]
              simp only [index_cons_zero, Outcome.ok_bind]
              rw [if_pos hb, hs, Outcome.ok_bind, hu, Outcome.ok_bind]
              simp only [sliceFrom, ho, if_false, Outcome.panic_bind]
      · by_cases hz : b.val = 0
        · refine Or.inl ⟨.ok (domainName, ⟨rest, sp⟩), by simp, fun call => ?_⟩
          rw [extractDomainLoop]
          simp only [index_cons_zero, Outcome.ok_bind]
          rw [if_neg hb]
          simp only [sliceFrom_cons_succ, sliceFrom_zero, Outcome.ok_bind]
          rw [if_pos hz]
          rfl
        · have hstep : ∀ call, extractDomainLoop call data (k + 1) domainName ⟨b :: rest, sp⟩
              = (slice ⟨rest, sp⟩ 0 b.val >>= fun label =>
                  sliceFrom ⟨rest, sp⟩ b.val >>= fun tail3 =>
                    extractDomainLoop call data k (domainName ++ label.bytes ++ [dot]) tail3) := by
            intro call
            rw [extractDomainLoop]
            simp only [index_cons_zero, Outcome.ok_bind]
            rw [if_neg hb]
            simp only [sliceFrom_cons_succ, sliceFrom_zero, Outcome.ok_bind]
            rw [if_neg hz]
          cases hs : slice ⟨rest, sp⟩ 0 b.val with
          | exhausted => exact absurd hs (slice_ne_exhausted _ _ _)
          | panic =>
            refine Or.inl ⟨.panic, by simp, fun call => ?_⟩
            rw [hstep, hs]
            rfl
          | ok label =>
            cases hf : sliceFrom ⟨rest, sp⟩ b.val with
            | exhausted => exact absurd hf (sliceFrom_ne_exhausted _ _)
            | panic =>
              refine Or.inl ⟨.panic, by simp, fun call => ?_⟩
              rw [hstep, hs, Outcome.ok_bind, hf]
              rfl
            | ok tail3 =>
              have hl3 : tail3.len < k := by
                have := (sliceFrom_len_le _ _ _ hf).1
                simp only [Slice.len, List.length_cons] at this hlen ⊢
                omega
              rcases ih (domainName ++ label.bytes ++ [dot]) tail3 hl3 with
                ⟨r, hr, hall⟩ | ⟨o, ho, hall⟩
              · refine Or.inl ⟨r, hr, fun call => ?_⟩
                rw [hstep, hs, Outcome.ok_bind, hf, Outcome.ok_bind]
                exact hall call
              · refine Or.inr ⟨o, ho, fun call => ?_⟩
                rw [hstep, hs, Outcome.ok_bind, hf, Outcome.ok_bind]
                exact hall call

theorem extractDomain_cases (data tail : Slice) :
    (∃ r, r ≠ Outcome.exhausted ∧ ∀ h, extractDomain (h + 1) data tail = r)
    ∨ (∃ o, o ≤ data.len ∧ ∀ h, (extractDomain (h + 1) data tail = .exhausted
        ↔ extractDomain h data ⟨data.bytes.drop o, data.spare⟩ = .exhausted)) := by
  rcases extractDomainLoop_cases data (tail.len + 1) [] tail (Nat.lt_add_one _) with
    ⟨r, hr, hall⟩ | ⟨o, ho, hall⟩
  · exact Or.inl ⟨r, hr, fun h => hall _⟩
  · exact Or.inr ⟨o, ho, fun h => hall _⟩

/-- Decoding at offset `o` needs exactly `j + 1` nested calls. -/
theorem extractDomain_rank_step (data : Slice) (o j : Nat)
    (h1 : extractDomain (j + 1) data ⟨data.bytes.drop o, data.spare⟩ = .exhausted)
    (h2 : extractDomain (j + 2) data ⟨data.bytes.drop o, data.spare⟩ ≠ .exhausted) :
    ∃ o2, o2 ≤ data.len
      ∧ extractDomain j data ⟨data.bytes.drop o2, data.spare⟩ = .exhausted
      ∧ extractDomain (j + 1) data ⟨data.bytes.drop o2, data.spare⟩ ≠ .exhausted := by
  rcases extractDomain_cases data ⟨data.bytes.drop o, data.spare⟩ with
    ⟨r, hr, hall⟩ | ⟨o2, ho2, hall⟩
  · rw [hall j] at h1
    exact absurd h1 hr
  · exact ⟨o2, ho2, (hall j).mp h1, fun hc => h2 ((hall (j + 1)).mpr hc)⟩

theorem extractDomain_rank_below (data : Slice) (j : Nat) :
    ∀ (d o : Nat), o ≤ data.len →
      extractDomain j data ⟨data.bytes.drop o, data.spare⟩ = .exhausted →
      extractDomain (j + 1) data ⟨data.bytes.drop o, data.spare⟩ ≠ .exhausted →
      d ≤ j → ∃ o2, o2 ≤ data.len
        ∧ extractDomain (j - d) data ⟨data.bytes.drop o2, data.spare⟩ = .exhausted
        ∧ extractDomain (j - d + 1) data ⟨data.bytes.drop o2, data.spare⟩ ≠ .exhausted := by
  intro d
  induction d with
  | zero =>
    intro o ho h1 h2 _
    exact ⟨o, ho, h1, h2⟩
  | succ d ih =>
    intro o ho h1 h2 hd
    obtain ⟨o1, ho1, h3, h4⟩ := ih o ho h1 h2 (by omega)
    have e : j - d = (j - (d + 1)) + 1 := by omega
    rw [e] at h3 h4
    obtain ⟨o2, ho2, h5, h6⟩ := extractDomain_rank_step data o1 _ h3 h4
    exact ⟨o2, ho2, h5, h6⟩

theorem extractDomain_rank_unique (data tail : Slice) (i j : Nat)
    (hi1 : extractDomain i data tail = .exhausted)
    (hi2 : extractDomain (i + 1) data tail ≠ .exhausted)
    (hj1 : extractDomain j data tail = .exhausted)
    (hj2 : extractDomain (j + 1) data tail ≠ .exhausted) : i = j := by
  by_contra hne
  rcases Nat.lt_or_gt_of_ne hne with hlt | hgt
  · have := extractDomain_settled_le data (i + 1) j (by omega) tail hi2
    rw [hj1] at this
    exact hi2 this.symm
  · have := extractDomain_settled_le data (j + 1) i (by omega) tail hj2
    rw [hi1] at this
    exact hj2 this.symm

/-- The offsets handed from one nested call to the next are pairwise distinct, so a
decoding that stops has used at most `len(data) + 1` nested calls below the first call. -/
theorem extractDomain_rank_le (data : Slice) (o j : Nat) (ho : o ≤ data.len)
    (h1 : extractDomain j data ⟨data.bytes.drop o, data.spare⟩ = .exhausted)
    (h2 : extractDomain (j + 1) data ⟨data.bytes.drop o, data.spare⟩ ≠ .exhausted) :
    j ≤ data.len := by
  have hex : ∀ i : Fin (j + 1), ∃ o2, o2 ≤ data.len
      ∧ extractDomain i.val data ⟨data.bytes.drop o2, data.spare⟩ = .exhausted
      ∧ extractDomain (i.val + 1) data ⟨data.bytes.drop o2, data.spare⟩ ≠ .exhausted := by
    intro i
    have hi := i.isLt
    obtain ⟨o2, ho2, h3, h4⟩ := extractDomain_rank_below data j (j - i.val) o ho h1 h2 (by omega)
    have e : j - (j - i.val) = i.val := by omega
    rw [e] at h3 h4
    exact ⟨o2, ho2, h3, h4⟩
  choose f hf using hex
  have hinj : Function.Injective (fun i : Fin (j + 1) =>
      (⟨f i, Nat.lt_succ_of_le (hf i).1⟩ : Fin (data.len + 1))) := by
    intro a b hab
    have hfab : f a = f b := congrArg Fin.val hab
    have ha := hf a
    have hb := hf b
    rw [hfab] at ha
    exact Fin.ext (extractDomain_rank_unique data _ a.val b.val ha.2.1 ha.2.2 hb.2.1 hb.2.2)
  have hcard := Fintype.card_le_of_injective _ hinj
  simp only [Fintype.card_fin] at hcard
  omega

theorem extractDomain_first_stop (data tail : Slice) :
    ∀ h, extractDomain h data tail ≠ .exhausted →
      ∃ j, j < h ∧ extractDomain j data tail = .exhausted
        ∧ extractDomain (j + 1) data tail ≠ .exhausted := by
  intro h
  induction h with
  | zero =>
    intro hne
    exact absurd rfl hne
  | succ h ih =>
    intro hne
    by_cases hc : extractDomain h data tail = .exhausted
    · exact ⟨h, Nat.lt_add_one _, hc, hne⟩
    · obtain ⟨j, hj, h1, h2⟩ := ih hc
      exact ⟨j, by omega, h1, h2⟩

/-- Whenever `extractDomain` stops with some budget `H` of nested calls, it stops with
the budget `len(data) + 2`, that is after at most `len(data) + 1` pointer hops, with the
same result. -/
theorem extractDomain_stops_within (data tail : Slice) (H : Nat)
    (hH : extractDomain H data tail ≠ .exhausted) :
    extractDomain (data.len + 2) data tail = extractDomain H data tail := by
  have hstop : extractDomain (data.len + 2) data tail ≠ .exhausted := by
    rcases extractDomain_cases data tail with ⟨r, hr, hall⟩ | ⟨o, ho, hall⟩
    · rw [hall]
      exact hr
    · cases H with
      | zero => exact absurd rfl hH
      | succ H =>
        have hg : extractDomain H data ⟨data.bytes.drop o, data.spare⟩ ≠ .exhausted :=
          fun hc => hH ((hall H).mpr hc)
        obtain ⟨j, _, h1, h2⟩ := extractDomain_first_stop data _ H hg
        have hj := extractDomain_rank_le data o j ho h1 h2
        have h3 := extractDomain_settled_le data (j + 1) (data.len + 1) (by omega) _ h2
        intro hc
        rw [(hall (data.len + 1)), h3] at hc
        exact h2 hc
  rcases Nat.le_total H (data.len + 2) with hle | hle
  · exact extractDomain_settled_le data H _ hle tail hH
  · exact (extractDomain_settled_le data _ H hle tail hstop).symm

/-! ## Names on the wire -/

theorem extractDomain_labels_root (depth : Nat) (data : Slice) (labels : List (List Byte))
    (s sp : List Byte) (hl : ∀ l ∈ labels, 1 ≤ l.length ∧ l.length ≤ 63) :
    extractDomain (depth + 1) data ⟨encodeLabels labels ++ (0 : Byte) :: s, sp⟩
      = .ok (dottedName labels, ⟨s, sp⟩) := by
  rw [extractDomain_succ, extractDomainLoop_labels _ _ labels hl _ _ _ _ (Nat.lt_add_one _)]
  simp only [List.length_cons, List.nil_append]
  exact extractDomainLoop_zero _ _ _ _ _ _

theorem extractDomain_labels_pointer (depth : Nat) (data : Slice) (literals : List (List Byte))
    (p : Nat) (s sp n : List Byte) (t : Slice)
    (hl : ∀ l ∈ literals, 1 ≤ l.length ∧ l.length ≤ 63)
    (hp : p < 2 ^ 14) (hlo : 12 ≤ p) (hle : p - 12 ≤ data.len)
    (hn : extractDomain depth data ⟨data.bytes.drop (p - 12), data.spare⟩ = .ok (n, t)) :
    extractDomain (depth + 1) data ⟨encodeLabels literals ++ pointerBytes p ++ s, sp⟩
      = .ok (dottedName literals ++ n, ⟨s, sp⟩) := by
  obtain ⟨b0, b1, hb, hb6, hval⟩ := pointerBytes_eq p hp
  have ho : ((256 * b0.val + b1.val) % 2 ^ 14 + 2 ^ 16 - 12) % 2 ^ 16 = p - 12 := by
    rw [hval]
    omega
  rw [List.append_assoc, extractDomain_succ,
    extractDomainLoop_labels _ _ literals hl _ _ _ _ (Nat.lt_add_one _), hb]
  simp only [List.cons_append, List.nil_append, List.length_cons]
  rw [extractDomainLoop_pointer _ _ _ _ _ _ b0 b1 hb6, ho]
  simp only [sliceFrom, hle, if_true, Outcome.ok_bind, hn]

theorem WireName.wellFormed_labels (starts : List Nat) (n : WireName)
    (h : n.wellFormed starts = true) : ∀ l ∈ n.labels, 1 ≤ l.length ∧ l.length ≤ 63 := by
  simp only [WireName.wellFormed, Bool.and_eq_true, List.all_eq_true, decide_eq_true_eq] at h
  exact h.1

/-- The first byte of a well-formed name other than the root name is not zero. -/
theorem WireName.encode_first (starts : List Nat) (n : WireName)
    (hn : n.wellFormed starts = true) (hr : n.isRoot = false) :
    ∃ b s, n.encode = b :: s ∧ b.val ≠ 0 := by
  have hl := WireName.wellFormed_labels starts n hn
  obtain ⟨labels, ending⟩ := n
  cases labels with
  | cons l ls =>
    refine ⟨lengthByte l, l ++ encodeLabels ls ++ ending.encode, ?_, ?_⟩
    · simp [WireName.encode, encodeLabels, List.append_assoc]
    · have := hl l (List.mem_cons_self _ _)
      simp only [lengthByte]
      omega
  | nil =>
    cases ending with
    | root => simp [WireName.isRoot] at hr
    | pointer p =>
      simp only [WireName.wellFormed, Bool.and_eq_true, decide_eq_true_eq] at hn
      obtain ⟨b0, b1, hb, hb6, _⟩ := pointerBytes_eq p hn.2.1.1
      refine ⟨b0, [b1], ?_, ?_⟩
      · simp [WireName.encode, encodeLabels, NameEnd.encode, hb]
      · intro h0
        rw [h0] at hb6
        exact absurd hb6 (by decide)

/-! ## extractDomain -/

/-- C1 (counterexample). On the payload `C0 0C`, whose only pointer targets its own
position (message offset 12), `extractDomain` has not stopped after `len(message) = 14`
pointer hops, and there is no number of hops after which it has stopped: it neither
returns nor reports a failure. -/
theorem extractDomain_self_pointer_counterexample :
    extractDomain (headerSizeDNS + selfPointerPayload.len + 1) selfPointerPayload
        selfPointerPayload = .exhausted
    ∧ ¬ ∃ h, extractDomain h selfPointerPayload selfPointerPayload ≠ .exhausted := by
  have all : ∀ h, extractDomain h selfPointerPayload selfPointerPayload = .exhausted := by
    intro h
    induction h with
    | zero => rfl
    | succ h ih =>
      have hp : ((192 : Byte).val >>> 6 = 3) := by decide
      show extractDomainLoop (extractDomain h selfPointerPayload) selfPointerPayload 3 []
        ⟨[(192 : Byte), (12 : Byte)], []⟩ = .exhausted
      rw [extractDomainLoop_pointer _ _ 2 [] [] [] 192 12 hp]
      have ht : sliceFrom selfPointerPayload
          (((256 * (192 : Byte).val + (12 : Byte).val) % 2 ^ 14 + 2 ^ 16 - 12) % 2 ^ 16)
          = .ok selfPointerPayload := by decide
      rw [ht, Outcome.ok_bind, ih]
      rfl
  exact ⟨all _, fun ⟨h, hne⟩ => hne (all h)⟩

/-- A compression pointer whose value is its own message offset is followed for ever. -/
theorem extractDomain_self_pointer_unbounded (data : Slice) (rest : List Byte) (off : Nat)
    (hoff : off + 12 < 2 ^ 14) (hptr : data.bytes.drop off = pointerBytes (off + 12) ++ rest) :
    ∀ h, extractDomain h data ⟨data.bytes.drop off, data.spare⟩ = .exhausted := by
  obtain ⟨b0, b1, hb, hhi, hval⟩ := pointerBytes_eq (off + 12) hoff
  have hlen : off ≤ data.len := by
    by_contra hc
    have : data.bytes.drop off = [] := List.drop_eq_nil_of_le (by simp only [Slice.len] at hc; omega)
    rw [this, hb] at hptr
    simp at hptr
  intro h
  induction h with
  | zero => rfl
  | succ h ih =>
    have ho : ((256 * b0.val + b1.val) % 2 ^ 14 + 2 ^ 16 - 12) % 2 ^ 16 = off := by
      rw [hval]
      omega
    rw [extractDomain]
    simp only [hptr, hb, List.cons_append, List.nil_append]
    rw [extractDomainLoop_pointer _ _ _ _ _ _ b0 b1 hhi, ho]
    simp only [sliceFrom, hlen, if_true, Outcome.ok_bind, hptr, hb, List.cons_append,
      List.nil_append] at ih ⊢
    rw [ih]
    rfl

/-- C1 (amended). `extractDomain` has no loop protection and no failure result. Whenever
name decoding stops with some number `H` of nested calls (it returns or panics), it stops
after at most `len(message) = 12 + len(payload)` pointer hops, with the same result. But
when the bytes at payload offset `off` are a compression pointer whose value is `off + 12`,
the message offset of the pointer itself, decoding at that pointer has not stopped after
any number `h` of nested calls. -/
theorem extractDomain_hops (data : Slice) :
    (∀ (tail : Slice) (H : Nat), extractDomain H data tail ≠ .exhausted →
      extractDomain (headerSizeDNS + data.len + 1) data tail = extractDomain H data tail)
    ∧ (∀ (rest : List Byte) (off : Nat), off + 12 < 2 ^ 14 →
      data.bytes.drop off = pointerBytes (off + 12) ++ rest →
      ∀ h, extractDomain h data ⟨data.bytes.drop off, data.spare⟩ = .exhausted) := by
  refine ⟨fun tail H hH => ?_, fun rest off hoff hptr =>
    extractDomain_self_pointer_unbounded data rest off hoff hptr⟩
  have h2 := extractDomain_stops_within data tail H hH
  rw [← h2]
  exact extractDomain_settled_le data (data.len + 2) _ (by simp only [headerSizeDNS]; omega) tail
    (by rw [h2]; exact hH)

/-- C1 (witness): the pointer `C0 0C` of an answer of `pointerAnswerPayload` is decoded
with one hop, hence with every larger number of hops; the payload `C0 0C` at offset 0 is
never decoded. -/
theorem extractDomain_hops_witness :
    (extractDomain 2 pointerAnswerPayload ⟨[0xC0, 0x0C], []⟩ ≠ .exhausted
      ∧ 0 + 12 < 2 ^ 14 ∧ selfPointerPayload.bytes.drop 0 = pointerBytes (0 + 12) ++ [])
    ∧ extractDomain (headerSizeDNS + pointerAnswerPayload.len + 1) pointerAnswerPayload
          ⟨[0xC0, 0x0C], []⟩
        = extractDomain 2 pointerAnswerPayload ⟨[0xC0, 0x0C], []⟩
    ∧ ∀ h, extractDomain h selfPointerPayload
        ⟨selfPointerPayload.bytes.drop 0, selfPointerPayload.spare⟩ = .exhausted :=
  ⟨⟨by decide, by decide, by decide⟩,
    (extractDomain_hops pointerAnswerPayload).1 ⟨[0xC0, 0x0C], []⟩ 2 (by decide),
    (extractDomain_hops selfPointerPayload).2 [] 0 (by decide) (by decide)⟩

/-- C2. Uncompressed name round trip: for labels of 1 to 63 bytes each, `extractDomain`
applied to the labels, each preceded by its length byte, then `00`, then any bytes `s`,
returns the labels each followed by `"."` and the cursor `s`; the record walk then reads
the two big-endian 16-bit fields that follow as the type and the class of the question. -/
theorem extractDomain_uncompressed_roundtrip (depth : Nat) (data : Slice)
    (labels : List (List Byte)) (s sp : List Byte) (t0 t1 c0 c1 : Byte)
    (hl : ∀ l ∈ labels, 1 ≤ l.length ∧ l.length ≤ 63) :
    extractDomain (depth + 1) data ⟨encodeLabels labels ++ (0 : Byte) :: s, sp⟩
        = .ok (dottedName labels, ⟨s, sp⟩)
    ∧ questionRecord (depth + 1) data
          ⟨encodeLabels labels ++ (0 : Byte) :: t0 :: t1 :: c0 :: c1 :: s, sp⟩
        = .ok (⟨s, sp⟩,
            .query (dottedName labels) (256 * t0.val + t1.val) (256 * c0.val + c1.val)) := by
  have key : ∀ s2 : List Byte, extractDomain (depth + 1) data
      ⟨encodeLabels labels ++ (0 : Byte) :: s2, sp⟩ = .ok (dottedName labels, ⟨s2, sp⟩) :=
    fun s2 => extractDomain_labels_root depth data labels s2 sp hl
  refine ⟨key s, ?_⟩
  simp only [questionRecord, key, Outcome.ok_bind, slice_cons_succ, slice_zero_two,
    sliceFrom_cons_succ, sliceFrom_zero, Uint16_cons_cons, Outcome.pure_eq]

/-- C2 (witness): `07 'example' 03 'com' 00` followed by type 1 and class 1. -/
theorem extractDomain_uncompressed_roundtrip_witness :
    (∀ l ∈ [[101, 120, 97, 109, 112, 108, 101], [(99 : Byte), 111, 109]],
        1 ≤ l.length ∧ l.length ≤ 63)
    ∧ extractDomain 1 ⟨[], []⟩ ⟨exampleComWire, []⟩ = .ok (exampleComName, ⟨[], []⟩)
    ∧ questionRecord 1 ⟨[], []⟩ ⟨exampleComWire ++ [0, 1, 0, 1], []⟩
        = .ok (⟨[], []⟩, .query exampleComName 1 1) :=
  ⟨by decide,
    extractDomain_uncompressed_roundtrip 0 ⟨[], []⟩
      [[101, 120, 97, 109, 112, 108, 101], [99, 111, 109]] [] [] 0 1 0 1 (by decide)⟩

/-- C3. Compression pointer semantics: when the cursor holds literal labels of 1 to 63
bytes each and then a two-byte pointer whose 14-bit value `p` is a message offset inside
the payload (`12 ≤ p < 12 + len(payload)`), and decoding at payload offset `p - 12`
yields the name `n`, then `extractDomain` returns the labels, each followed by `"."`,
concatenated with `n`, and the cursor `s` that follows the two pointer bytes, whatever the
cursor `t` reached by the decoding of the pointed-to name. -/
theorem extractDomain_pointer (depth : Nat) (data : Slice) (literals : List (List Byte))
    (p : Nat) (s sp n : List Byte) (t : Slice)
    (hl : ∀ l ∈ literals, 1 ≤ l.length ∧ l.length ≤ 63)
    (hp : p < 2 ^ 14) (hlo : 12 ≤ p) (hhi : p < 12 + data.len)
    (hn : extractDomain depth data ⟨data.bytes.drop (p - 12), data.spare⟩ = .ok (n, t)) :
    extractDomain (depth + 1) data ⟨encodeLabels literals ++ pointerBytes p ++ s, sp⟩
      = .ok (dottedName literals ++ n, ⟨s, sp⟩) :=
  extractDomain_labels_pointer depth data literals p s sp n t hl hp hlo
    (by simp only [Slice.len] at hhi ⊢; omega) hn

/-- C3 (witness): an answer name that is the single pointer `C0 0C` decodes to the name
of the first question, `example.com.`, and leaves the cursor two bytes further, on the
type field of the answer. -/
theorem extractDomain_pointer_witness :
    ((∀ l ∈ ([] : List (List Byte)), 1 ≤ l.length ∧ l.length ≤ 63) ∧ 12 < 2 ^ 14 ∧ 12 ≤ 12
      ∧ 12 < 12 + pointerAnswerPayload.len
      ∧ extractDomain 1 pointerAnswerPayload
          ⟨pointerAnswerPayload.bytes.drop (12 - 12), pointerAnswerPayload.spare⟩
          = .ok (exampleComName, ⟨pointerAnswerPayload.bytes.drop 13, []⟩))
    ∧ extractDomain 2 pointerAnswerPayload
          ⟨[0xC0, 0x0C] ++ [0, 1, 0, 1, 0, 0, 0, 60, 0, 4, 1, 2, 3, 4], []⟩
        = .ok (exampleComName, ⟨[0, 1, 0, 1, 0, 0, 0, 60, 0, 4, 1, 2, 3, 4], []⟩) :=
  ⟨⟨by decide, by decide, by decide, by decide, by decide⟩,
    extractDomain_pointer 1 pointerAnswerPayload [] 12
      [0, 1, 0, 1, 0, 0, 0, 60, 0, 4, 1, 2, 3, 4] [] exampleComName
      ⟨pointerAnswerPayload.bytes.drop 13, []⟩
      (by decide) (by decide) (by decide) (by decide) (by decide)⟩

/-! ## Truncated headers -/

/-- C7. Truncated headers are rejected before anything is read: `ICMPSegment.Parse`,
`IPv6Packet.Parse` and `DNSMessage.Parse` return an error exactly when `len(data)` is
below 4, 40 and 12; in that case the receiver is returned unchanged and the result
depends on `data` through its length only; otherwise no error is returned, the run does
not panic and every stored field is read from the bytes of `data` below its length. -/
theorem Parse_truncated_header (i : ICMPSegment) (p : IPv6Packet) (d : DNSMessage)
    (data : Slice) :
    (data.len < 4 → i.Parse data = .ok (i, some ⟨"ICMP", 4, data.len⟩))
    ∧ (4 ≤ data.len → i.Parse data = .ok ({
        Typ := byteAt data.bytes 0
        Code := byteAt data.bytes 1
        Checksum := be16At data.bytes 2
        Payload := ⟨data.bytes.drop 4, data.spare⟩ }, none))
    ∧ (data.len < 40 → p.Parse data = .ok (p, some ⟨"IPv6", 40, data.len⟩))
    ∧ (40 ≤ data.len → p.Parse data = .ok ({
        Version := (be32At data.bytes 0 >>> 28) % 2 ^ 8
        TrafficClass := ((be32At data.bytes 0 >>> 20) &&& 0xFF) % 2 ^ 8
        FlowLabel := be32At data.bytes 0 &&& ((1 <<< 20) - 1)
        PayloadLength := be16At data.bytes 4
        NextHeader := byteAt data.bytes 6
        HopLimit := byteAt data.bytes 7
        SrcIP := (data.bytes.drop 8).take 16
        DstIP := (data.bytes.drop 24).take 16
        Payload := ⟨data.bytes.drop 40, data.spare⟩ }, none))
    ∧ (data.len < 12 → d.Parse data = .ok (d, some ⟨"DNS", 12, data.len⟩))
    ∧ (12 ≤ data.len → d.Parse data = .ok ({
        TransactionID := be16At data.bytes 0
        Flags := be16At data.bytes 2
        Questions := be16At data.bytes 4
        AnswerRRs := be16At data.bytes 6
        AuthorityRRs := be16At data.bytes 8
        AdditionalRRs := be16At data.bytes 10
        payload := ⟨data.bytes.drop 12, data.spare⟩ }, none)) := by
  refine ⟨?_, ?_, ?_, ?_, ?_, ?_⟩
  · intro h
    simp only [ICMPSegment.Parse, headerSizeICMP, h, if_true, Outcome.pure_eq]
  · intro h
    exact ICMPSegment_Parse_of_le i data h
  · intro h
    simp only [IPv6Packet.Parse, headerSizeIPv6, h, if_true, Outcome.pure_eq]
  · intro h
    exact IPv6Packet_Parse_of_le p data h
  · intro h
    simp only [DNSMessage.Parse, headerSizeDNS, h, if_true, Outcome.pure_eq]
  · intro h
    exact DNSMessage_Parse_of_le d data h

/-- C7 (witness): a buffer of three bytes is rejected by the three decoders, with the
receiver unchanged. -/
theorem Parse_truncated_header_witness :
    ((⟨[8, 0, 0], []⟩ : Slice).len < 4 ∧ (⟨[8, 0, 0], []⟩ : Slice).len < 40
      ∧ (⟨[8, 0, 0], []⟩ : Slice).len < 12)
    ∧ ICMPSegment.zero.Parse ⟨[8, 0, 0], []⟩ = .ok (ICMPSegment.zero, some ⟨"ICMP", 4, 3⟩)
    ∧ IPv6Packet.zero.Parse ⟨[8, 0, 0], []⟩ = .ok (IPv6Packet.zero, some ⟨"IPv6", 40, 3⟩)
    ∧ DNSMessage.zero.Parse ⟨[8, 0, 0], []⟩ = .ok (DNSMessage.zero, some ⟨"DNS", 12, 3⟩) :=
  ⟨⟨by decide, by decide, by decide⟩,
    (Parse_truncated_header ICMPSegment.zero IPv6Packet.zero DNSMessage.zero
      ⟨[8, 0, 0], []⟩).1 (by decide),
    (Parse_truncated_header ICMPSegment.zero IPv6Packet.zero DNSMessage.zero
      ⟨[8, 0, 0], []⟩).2.2.1 (by decide),
    (Parse_truncated_header ICMPSegment.zero IPv6Packet.zero DNSMessage.zero
      ⟨[8, 0, 0], []⟩).2.2.2.2.1 (by decide)⟩

/-! ## ICMP -/

theorem ICMPSegment.typecode_echo_request (r : ICMPSegment) (h : r.Typ = 8) :
    r.typecode = ("Echo Request", "Echo Request (Ping)") := by
  obtain ⟨t, c, k, p⟩ := r
  simp only at h
  subst h
  rfl

/-- C9. For every `data` of at least 4 bytes, `ICMPSegment.Parse` returns no error and
sets `Type = data[0]`, `Code = data[1]`, `Checksum = 256 * data[2] + data[3]` and
`Payload = data[4:]`, of length `len(data) - 4`, whose `j`-th byte is `data[4 + j]`; a
segment of type 8 is named `Echo Request` by `typecode`. -/
theorem ICMPSegment_Parse_fields (i : ICMPSegment) (data : Slice)
    (h : 4 ≤ data.bytes.length) :
    ∃ r : ICMPSegment, i.Parse data = .ok (r, none)
      ∧ r.Typ = (data.bytes[0]).val
      ∧ r.Code = (data.bytes[1]).val
      ∧ r.Checksum = 256 * (data.bytes[2]).val + (data.bytes[3]).val
      ∧ r.Payload = ⟨data.bytes.drop 4, data.spare⟩
      ∧ r.Payload.len = data.len - 4
      ∧ (∀ j, r.Payload.bytes[j]? = data.bytes[4 + j]?)
      ∧ (r.Typ = 8 → r.typecode.1 = "Echo Request") := by
  refine ⟨_, ICMPSegment_Parse_of_le i data h, ?_, ?_, ?_, rfl, ?_, ?_, ?_⟩
  · simp only [byteAt, List.getD_eq_getElem?_getD, List.getElem?_eq_getElem (by omega : 0 < data.bytes.length),
      Option.getD_some]
  · simp only [byteAt, List.getD_eq_getElem?_getD, List.getElem?_eq_getElem (by omega : 1 < data.bytes.length),
      Option.getD_some]
  · simp only [be16At, byteAt, List.getD_eq_getElem?_getD,
      List.getElem?_eq_getElem (by omega : 2 < data.bytes.length),
      List.getElem?_eq_getElem (by omega : 2 + 1 < data.bytes.length), Option.getD_some]
  · simp only [Slice.len, List.length_drop]
  · intro j
    simp only [List.getElem?_drop]
  · intro h8
    rw [ICMPSegment.typecode_echo_request _ h8]

/-- C9 (witness): `08 00 12 34 00 01 00 01 DE AD BE EF` gives type 8, named
`Echo Request`, code 0, checksum `0x1234` and a payload of 8 bytes. -/
theorem ICMPSegment_Parse_fields_witness :
    4 ≤ echoRequestSegment.bytes.length
    ∧ ∃ r : ICMPSegment, ICMPSegment.zero.Parse echoRequestSegment = .ok (r, none)
      ∧ r.Typ = 8 ∧ r.Code = 0 ∧ r.Checksum = 0x1234
      ∧ r.Payload = ⟨[0x00, 0x01, 0x00, 0x01, 0xDE, 0xAD, 0xBE, 0xEF], []⟩
      ∧ r.Payload.len = 8
      ∧ (∀ j, r.Payload.bytes[j]? = echoRequestSegment.bytes[4 + j]?)
      ∧ (r.Typ = 8 → r.typecode.1 = "Echo Request") :=
  ⟨by decide, ICMPSegment_Parse_fields ICMPSegment.zero echoRequestSegment (by decide)⟩

/-- C10. ICMP payload interpretation by type, for a payload `p` long enough for the type:
types 0 and 8 give the big-endian 16-bit identifier `p[0:2]` and sequence number `p[2:4]`
and the data `p[4:]` with byte count `len(p) - 4`; types 3 and 11 give the big-endian
32-bit field `p[0:4]` and the data `p[4:]`; type 5 gives the gateway address `p[0:4]` and
the data `p[4:]`; types 13 and 14 give identifier, sequence number and the three
big-endian 32-bit timestamps `p[4:8]`, `p[8:12]`, `p[12:16]`. -/
theorem ICMPSegment_payload_fields (i : ICMPSegment) :
    ((i.Typ = 0 ∨ i.Typ = 8) → 4 ≤ i.Payload.len →
      i.payload = .ok (.echo (be16At i.Payload.bytes 0) (be16At i.Payload.bytes 2)
        (i.Payload.len - 4) (i.Payload.bytes.drop 4)))
    ∧ ((i.Typ = 3 ∨ i.Typ = 11) → 4 ≤ i.Payload.len →
      i.payload = .ok (.reserved (be32At i.Payload.bytes 0)
        (i.Payload.len - 4) (i.Payload.bytes.drop 4)))
    ∧ (i.Typ = 5 → 4 ≤ i.Payload.len →
      i.payload = .ok (.redirect (i.Payload.bytes.take 4)
        (i.Payload.len - 4) (i.Payload.bytes.drop 4)))
    ∧ ((i.Typ = 13 ∨ i.Typ = 14) → 16 ≤ i.Payload.len →
      i.payload = .ok (.timestamp (be16At i.Payload.bytes 0) (be16At i.Payload.bytes 2)
        (be32At i.Payload.bytes 4) (be32At i.Payload.bytes 8) (be32At i.Payload.bytes 12))) := by
  refine ⟨?_, ?_, ?_, ?_⟩
  · intro ht h
    have hb : 4 ≤ i.Payload.bytes.length := h
    rw [ICMPSegment.payload, if_pos ht]
    simp only [slice_of_le i.Payload 0 2 (by omega) (by omega),
      slice_of_le i.Payload 2 4 (by omega) (by omega), Outcome.ok_bind, Nat.reduceSub,
      Uint16_take_drop i.Payload.bytes _ 2 (by omega), sliceFrom_of_le i.Payload 4 hb,
      Outcome.pure_eq, Slice.len, List.length_drop, List.drop_zero,
      Uint16_take i.Payload.bytes _ (by omega)]
  · intro ht h
    have hb : 4 ≤ i.Payload.bytes.length := h
    have hn : ¬ (i.Typ = 0 ∨ i.Typ = 8) := by omega
    rw [ICMPSegment.payload, if_neg hn, if_pos ht]
    simp only [slice_of_le i.Payload 0 4 (by omega) (by omega), Outcome.ok_bind, Nat.reduceSub,
      sliceFrom_of_le i.Payload 4 hb, Outcome.pure_eq, Slice.len, List.length_drop,
      List.drop_zero, Uint32_take i.Payload.bytes _ hb]
  · intro ht h
    have hb : 4 ≤ i.Payload.bytes.length := h
    have hn : ¬ (i.Typ = 0 ∨ i.Typ = 8) := by omega
    have hn2 : ¬ (i.Typ = 3 ∨ i.Typ = 11) := by omega
    have h4 : (i.Payload.bytes.take 4).length = 4 := by
      simp only [List.length_take]
      omega
    rw [ICMPSegment.payload, if_neg hn, if_neg hn2, if_pos ht]
    simp only [slice_of_le i.Payload 0 4 (by omega) (by omega), Outcome.ok_bind, Nat.reduceSub,
      sliceFrom_of_le i.Payload 4 hb, Outcome.pure_eq, Slice.len, List.length_drop,
      AddrFromSlice, List.drop_zero, h4, true_or, if_true]
  · intro ht h
    have hb : 16 ≤ i.Payload.bytes.length := h
    have hn : ¬ (i.Typ = 0 ∨ i.Typ = 8) := by omega
    have hn2 : ¬ (i.Typ = 3 ∨ i.Typ = 11) := by omega
    have hn3 : ¬ (i.Typ = 5) := by omega
    rw [ICMPSegment.payload, if_neg hn, if_neg hn2, if_neg hn3, if_pos ht]
    simp only [slice_of_le i.Payload 0 2 (by omega) (by omega),
      slice_of_le i.Payload 2 4 (by omega) (by omega),
      slice_of_le i.Payload 4 8 (by omega) (by omega),
      slice_of_le i.Payload 8 12 (by omega) (by omega),
      slice_of_le i.Payload 12 16 (by omega) (by omega), Outcome.ok_bind, Nat.reduceSub,
      Uint16_take_drop i.Payload.bytes _ 2 (by omega),
      Uint32_take_drop i.Payload.bytes _ 4 (by omega),
      Uint32_take_drop i.Payload.bytes _ 8 (by omega),
      Uint32_take_drop i.Payload.bytes _ 12 (by omega), Outcome.pure_eq, List.drop_zero,
      Uint16_take i.Payload.bytes _ (by omega)]

/-- C10 (witness): the payload `00 01 00 01 DE AD BE EF` with type 8 gives identifier 1,
sequence number 1 and the 4 data bytes `DE AD BE EF`. -/
theorem ICMPSegment_payload_fields_witness :
    (((⟨8, 0, 0x1234, ⟨[0x00, 0x01, 0x00, 0x01, 0xDE, 0xAD, 0xBE, 0xEF], []⟩⟩ : ICMPSegment).Typ = 0
        ∨ (⟨8, 0, 0x1234, ⟨[0x00, 0x01, 0x00, 0x01, 0xDE, 0xAD, 0xBE, 0xEF], []⟩⟩ : ICMPSegment).Typ = 8)
      ∧ 4 ≤ (⟨[0x00, 0x01, 0x00, 0x01, 0xDE, 0xAD, 0xBE, 0xEF], []⟩ : Slice).len)
    ∧ ICMPSegment.payload ⟨8, 0, 0x1234, ⟨[0x00, 0x01, 0x00, 0x01, 0xDE, 0xAD, 0xBE, 0xEF], []⟩⟩
        = .ok (.echo 1 1 4 [0xDE, 0xAD, 0xBE, 0xEF]) :=
  ⟨⟨by decide, by decide⟩,
    (ICMPSegment_payload_fields
      ⟨8, 0, 0x1234, ⟨[0x00, 0x01, 0x00, 0x01, 0xDE, 0xAD, 0xBE, 0xEF], []⟩⟩).1
      (by decide) (by decide)⟩

theorem ICMPSegment.payload_short (r : ICMPSegment) :
    ((r.Typ = 0 ∨ r.Typ = 8 ∨ r.Typ = 3 ∨ r.Typ = 11 ∨ r.Typ = 5) → r.Payload.len < 4 →
        r.payload = .panic)
    ∧ ((r.Typ = 13 ∨ r.Typ = 14) → r.Payload.len < 16 →
        (r.Payload.cap < 16 → r.payload = .panic)
        ∧ (16 ≤ r.Payload.cap → r.payload = .ok (.timestamp
            (be16At (r.Payload.bytes ++ r.Payload.spare) 0)
            (be16At (r.Payload.bytes ++ r.Payload.spare) 2)
            (be32At (r.Payload.bytes ++ r.Payload.spare) 4)
            (be32At (r.Payload.bytes ++ r.Payload.spare) 8)
            (be32At (r.Payload.bytes ++ r.Payload.spare) 12)))) := by
  refine ⟨?_, ?_⟩
  · intro ht hlen
    have hp : sliceFrom r.Payload 4 = .panic := sliceFrom_panic _ _ hlen
    by_cases h1 : r.Typ = 0 ∨ r.Typ = 8
    · rw [ICMPSegment.payload, if_pos h1]
      refine Outcome.bind_eq_panic (slice_ne_exhausted _ _ _) (fun b => ?_)
      refine Outcome.bind_eq_panic (Uint16_ne_exhausted _) (fun identifier => ?_)
      refine Outcome.bind_eq_panic (slice_ne_exhausted _ _ _) (fun b2 => ?_)
      refine Outcome.bind_eq_panic (Uint16_ne_exhausted _) (fun sequenceNumber => ?_)
      rw [hp]
      rfl
    · by_cases h2 : r.Typ = 3 ∨ r.Typ = 11
      · rw [ICMPSegment.payload, if_neg h1, if_pos h2]
        refine Outcome.bind_eq_panic (slice_ne_exhausted _ _ _) (fun b => ?_)
        refine Outcome.bind_eq_panic (Uint32_ne_exhausted _) (fun reserved => ?_)
        rw [hp]
        rfl
      · have h3 : r.Typ = 5 := by omega
        rw [ICMPSegment.payload, if_neg h1, if_neg h2, if_pos h3]
        refine Outcome.bind_eq_panic (slice_ne_exhausted _ _ _) (fun b => ?_)
        rw [hp]
        rfl
  · intro ht _
    have h1 : ¬ (r.Typ = 0 ∨ r.Typ = 8) := by omega
    have h2 : ¬ (r.Typ = 3 ∨ r.Typ = 11) := by omega
    have h3 : ¬ (r.Typ = 5) := by omega
    refine ⟨fun hcap => ?_, fun hcap => ?_⟩
    · rw [ICMPSegment.payload, if_neg h1, if_neg h2, if_neg h3, if_pos ht]
      refine Outcome.bind_eq_panic (slice_ne_exhausted _ _ _) (fun b => ?_)
      refine Outcome.bind_eq_panic (Uint16_ne_exhausted _) (fun identifier => ?_)
      refine Outcome.bind_eq_panic (slice_ne_exhausted _ _ _) (fun b2 => ?_)
      refine Outcome.bind_eq_panic (Uint16_ne_exhausted _) (fun sequenceNumber => ?_)
      refine Outcome.bind_eq_panic (slice_ne_exhausted _ _ _) (fun b3 => ?_)
      refine Outcome.bind_eq_panic (Uint32_ne_exhausted _) (fun originate => ?_)
      refine Outcome.bind_eq_panic (slice_ne_exhausted _ _ _) (fun b4 => ?_)
      refine Outcome.bind_eq_panic (Uint32_ne_exhausted _) (fun receive => ?_)
      rw [slice_panic _ 12 16 hcap]
      rfl
    · have hl : 16 ≤ (r.Payload.bytes ++ r.Payload.spare).length := by
        simp only [Slice.cap] at hcap
        simp only [List.length_append]
        exact hcap
      rw [ICMPSegment.payload, if_neg h1, if_neg h2, if_neg h3, if_pos ht]
      simp only [slice_of_le_cap r.Payload 0 2 (by omega) (by omega),
        slice_of_le_cap r.Payload 2 4 (by omega) (by omega),
        slice_of_le_cap r.Payload 4 8 (by omega) (by omega),
        slice_of_le_cap r.Payload 8 12 (by omega) (by omega),
        slice_of_le_cap r.Payload 12 16 (by omega) (by omega), Outcome.ok_bind, Nat.reduceSub,
        Uint16_take_drop (r.Payload.bytes ++ r.Payload.spare) _ 2 (by omega),
        Uint32_take_drop (r.Payload.bytes ++ r.Payload.spare) _ 4 (by omega),
        Uint32_take_drop (r.Payload.bytes ++ r.Payload.spare) _ 8 (by omega),
        Uint32_take_drop (r.Payload.bytes ++ r.Payload.spare) _ 12 (by omega), Outcome.pure_eq,
        List.drop_zero, Uint16_take (r.Payload.bytes ++ r.Payload.spare) _ (by omega)]

/-- C8 (counterexample). For the echo request `08 00 12 34 00 01 00`, whose payload of 3
bytes is shorter than the 4-byte fixed part, `Parse` returns no error and `payload` does
not return a decode error: it panics. -/
theorem ICMPSegment_short_payload_counterexample :
    ICMPSegment.zero.Parse shortEchoSegment
        = .ok (⟨8, 0, 0x1234, ⟨[0x00, 0x01, 0x00], []⟩⟩, none)
    ∧ ICMPSegment.payload ⟨8, 0, 0x1234, ⟨[0x00, 0x01, 0x00], []⟩⟩ = .panic := by
  decide

/-- C8 (amended). For every segment of at least 4 bytes `Parse` returns no error, whatever
the type and the payload length, and `payload` has no error result. When the payload is
shorter than 4 bytes, types 0, 8, 3, 11 and 5 end in a run-time panic. When it is shorter
than 16 bytes, types 13 and 14 end in a run-time panic if the capacity of the payload
slice is below 16, and otherwise format an identifier, a sequence number and timestamps
read from the backing array past the end of the payload. -/
theorem ICMPSegment_short_payload (i : ICMPSegment) (data : Slice) (h : 4 ≤ data.len) :
    ∃ r : ICMPSegment, i.Parse data = .ok (r, none)
      ∧ r.Typ = byteAt data.bytes 0
      ∧ r.Payload = ⟨data.bytes.drop 4, data.spare⟩
      ∧ ((r.Typ = 0 ∨ r.Typ = 8 ∨ r.Typ = 3 ∨ r.Typ = 11 ∨ r.Typ = 5) → r.Payload.len < 4 →
          r.payload = .panic)
      ∧ ((r.Typ = 13 ∨ r.Typ = 14) → r.Payload.len < 16 →
          (r.Payload.cap < 16 → r.payload = .panic)
          ∧ (16 ≤ r.Payload.cap → r.payload = .ok (.timestamp
              (be16At (r.Payload.bytes ++ r.Payload.spare) 0)
              (be16At (r.Payload.bytes ++ r.Payload.spare) 2)
              (be32At (r.Payload.bytes ++ r.Payload.spare) 4)
              (be32At (r.Payload.bytes ++ r.Payload.spare) 8)
              (be32At (r.Payload.bytes ++ r.Payload.spare) 12)))) := by
  exact ⟨_, ICMPSegment_Parse_of_le i data h, rfl, rfl,
    (ICMPSegment.payload_short _).1, (ICMPSegment.payload_short _).2⟩

/-- C8 (witness): an echo request with a payload of three bytes. -/
theorem ICMPSegment_short_payload_witness :
    4 ≤ shortEchoSegment.len
    ∧ ∃ r : ICMPSegment, ICMPSegment.zero.Parse shortEchoSegment = .ok (r, none)
      ∧ r.Typ = byteAt shortEchoSegment.bytes 0
      ∧ r.Payload = ⟨shortEchoSegment.bytes.drop 4, shortEchoSegment.spare⟩
      ∧ ((r.Typ = 0 ∨ r.Typ = 8 ∨ r.Typ = 3 ∨ r.Typ = 11 ∨ r.Typ = 5) → r.Payload.len < 4 →
          r.payload = .panic)
      ∧ ((r.Typ = 13 ∨ r.Typ = 14) → r.Payload.len < 16 →
          (r.Payload.cap < 16 → r.payload = .panic)
          ∧ (16 ≤ r.Payload.cap → r.payload = .ok (.timestamp
              (be16At (r.Payload.bytes ++ r.Payload.spare) 0)
              (be16At (r.Payload.bytes ++ r.Payload.spare) 2)
              (be32At (r.Payload.bytes ++ r.Payload.spare) 4)
              (be32At (r.Payload.bytes ++ r.Payload.spare) 8)
              (be32At (r.Payload.bytes ++ r.Payload.spare) 12)))) :=
  ⟨by decide, ICMPSegment_short_payload ICMPSegment.zero shortEchoSegment (by decide)⟩

/-! ## The record walk on a well-formed message -/

theorem Uint16_be16Bytes (v : Nat) (rest sp : List Byte) :
    Uint16 ⟨be16Bytes v ++ rest, sp⟩ = .ok (v % 2 ^ 16) := by
  simp only [be16Bytes, List.cons_append, List.nil_append, Uint16_cons_cons]
  congr 1
  omega

theorem questionRecord_of_name (depth : Nat) (data tail : Slice) (nm rest sp : List Byte)
    (typ cls : Nat)
    (h : extractDomain depth data tail
      = .ok (nm, ⟨be16Bytes typ ++ be16Bytes cls ++ rest, sp⟩)) :
    questionRecord depth data tail
      = .ok (⟨rest, sp⟩, .query nm (typ % 2 ^ 16) (cls % 2 ^ 16)) := by
  have e1 : ∀ (v : Nat) (r : List Byte),
      Uint16 ⟨[(⟨v / 256 % 256, Nat.mod_lt _ (by decide)⟩ : Byte),
        ⟨v % 256, Nat.mod_lt _ (by decide)⟩], r⟩ = .ok (v % 2 ^ 16) :=
    fun v r => Uint16_be16Bytes v [] r
  simp only [questionRecord, h, Outcome.ok_bind, be16Bytes, List.cons_append, List.nil_append,
    slice_cons_succ, slice_zero_two, sliceFrom_cons_succ, sliceFrom_zero, e1, Outcome.pure_eq]

theorem additionalRecord_of_nonzero (depth : Nat) (data : Slice) (b : Byte) (s sp : List Byte)
    (hb : b.val ≠ 0) :
    additionalRecord depth data ⟨b :: s, sp⟩
      = resourceRecord .additional depth data ⟨b :: s, sp⟩ := by
  simp only [additionalRecord, index_cons_zero, Outcome.ok_bind, ne_eq, hb, not_false_eq_true,
    if_true]

theorem WireMessage.wellFormed_iff (m : WireMessage) (h : m.wellFormed = true) :
    namesWellFormed 0 [] m.records = true
    ∧ (∀ r ∈ m.answers, r.rdata.length < 2 ^ 16)
    ∧ (∀ r ∈ m.authorities, r.rdata.length < 2 ^ 16)
    ∧ (∀ r ∈ m.additionals, r.rdata.length < 2 ^ 16)
    ∧ (∀ r ∈ m.additionals, r.name.isRoot = false) := by
  simp only [WireMessage.wellFormed, Bool.and_eq_true, List.all_eq_true, decide_eq_true_eq,
    List.mem_append, Bool.not_eq_true'] at h
  obtain ⟨⟨h1, h2⟩, h3⟩ := h
  exact ⟨h1, fun r hr => h2 r (Or.inl (Or.inl hr)), fun r hr => h2 r (Or.inl (Or.inr hr)),
    fun r hr => h2 r (Or.inr hr), h3⟩

/-! ### The lines written on a well-formed message -/

theorem Uint32_be32Bytes (v : Nat) (rest sp : List Byte) :
    Uint32 ⟨be32Bytes v ++ rest, sp⟩ = .ok (v % 2 ^ 32) := by
  simp only [be32Bytes, List.cons_append, List.nil_append, Uint32_cons]
  congr 1
  omega

/-- A resource record whose name decodes: the cursor moves past its RDATA, and the line
shows the fields read at their places after the name. -/
theorem resourceRecord_line (mk : List Byte → Nat → Nat → Nat → Nat → RRLine) (depth : Nat)
    (data tail : Slice) (nm rest sp rdata : List Byte) (typ cls ttl : Nat)
    (hlen : rdata.length < 2 ^ 16)
    (h : extractDomain depth data tail = .ok (nm, ⟨be16Bytes typ ++ be16Bytes cls
      ++ be32Bytes ttl ++ be16Bytes rdata.length ++ rdata ++ rest, sp⟩)) :
    resourceRecord mk depth data tail
      = .ok (⟨rest, sp⟩, mk nm (typ % 2 ^ 16) (cls % 2 ^ 16) (ttl % 2 ^ 32) rdata.length) := by
  have e1 : ∀ (v : Nat) (r : List Byte),
      Uint16 ⟨[(⟨v / 256 % 256, Nat.mod_lt _ (by decide)⟩ : Byte),
        ⟨v % 256, Nat.mod_lt _ (by decide)⟩], r⟩ = .ok (v % 2 ^ 16) :=
    fun v r => Uint16_be16Bytes v [] r
  have e5 : ∀ (v : Nat) (r : List Byte),
      Uint32 ⟨[(⟨v / 2 ^ 24 % 256, Nat.mod_lt _ (by decide)⟩ : Byte),
        ⟨v / 2 ^ 16 % 256, Nat.mod_lt _ (by decide)⟩,
        ⟨v / 256 % 256, Nat.mod_lt _ (by decide)⟩,
        ⟨v % 256, Nat.mod_lt _ (by decide)⟩], r⟩ = .ok (v % 2 ^ 32) :=
    fun v r => Uint32_be32Bytes v [] r
  have e2 : rdata.length % 2 ^ 16 = rdata.length := Nat.mod_eq_of_lt hlen
  have e3 : sliceFrom ⟨rdata ++ rest, sp⟩ rdata.length = .ok ⟨rest, sp⟩ :=
    sliceFrom_append rdata rest sp
  have e4 : ∀ (l : List Byte) (n : Nat), sliceFrom ⟨l, sp⟩ (10 + n) = sliceFrom ⟨l, sp⟩ (n + 10) :=
    fun l n => by rw [Nat.add_comm]
  simp only [resourceRecord, h, Outcome.ok_bind, be16Bytes, be32Bytes, List.cons_append,
    List.nil_append, List.append_assoc, slice_cons_succ, slice_zero_two, slice_zero_four,
    e1, e5, e2, e4, sliceFrom_cons_succ, e3, Outcome.pure_eq]

theorem nameAt_mem (table : List (Nat × List Byte)) (o : Nat) (h : o ∈ table.map Prod.fst) :
    (o, nameAt table o) ∈ table := by
  induction table with
  | nil => simp at h
  | cons t table ih =>
    obtain ⟨o2, nm⟩ := t
    by_cases he : o2 = o
    · subst he
      simp [nameAt]
    · have hm : o ∈ table.map Prod.fst := by
        simp only [List.map_cons, List.mem_cons] at h
        rcases h with h | h
        · exact absurd h.symm he
        · exact h
      simp only [nameAt, he, if_false]
      exact List.mem_cons_of_mem _ (ih hm)

/-- A well-formed name decodes to its text, and leaves the cursor on the byte after the
name, as soon as the earlier names decode to the texts of the table. -/
theorem extractDomain_wireName_text (depth : Nat) (data : Slice)
    (table : List (Nat × List Byte)) (n : WireName) (rest sp : List Byte)
    (hn : n.wellFormed (table.map Prod.fst) = true)
    (hdec : ∀ t ∈ table, ∃ tl,
      extractDomain depth data ⟨data.bytes.drop t.1, data.spare⟩ = .ok (t.2, tl)) :
    extractDomain (depth + 1) data ⟨n.encode ++ rest, sp⟩ = .ok (n.text table, ⟨rest, sp⟩) := by
  have hl := WireName.wellFormed_labels _ n hn
  obtain ⟨labels, ending⟩ := n
  cases ending with
  | root =>
    simp only [WireName.encode, NameEnd.encode, List.append_assoc, List.cons_append,
      List.nil_append, WireName.text, List.append_nil]
    exact extractDomain_labels_root depth data labels rest sp hl
  | pointer p =>
    simp only [WireName.wellFormed, Bool.and_eq_true, decide_eq_true_eq] at hn
    obtain ⟨_, ⟨hp, hlo⟩, hc⟩ := hn
    have hmem : p - 12 ∈ table.map Prod.fst := List.elem_iff.mp hc
    obtain ⟨tl, hr⟩ := hdec _ (nameAt_mem table _ hmem)
    have hle : p - 12 ≤ data.len := by
      by_contra hc
      have hnil : data.bytes.drop (p - 12) = [] :=
        List.drop_eq_nil_of_le (by simp only [Slice.len] at hc; omega)
      simp only [] at hr
      rw [hnil] at hr
      exact extractDomain_nil _ _ _ _ hr
    exact extractDomain_labels_pointer depth data labels p rest sp _ tl hl hp hlo hle hr

/-- The loop over one section of a well-formed message. `es` are the records of the
section, `more` those of the later sections, `table` the names already walked, each with
its offset and its text; `body` walks one record of this section as soon as its name
decodes. The loop ends on the first byte after the section and has written one line for
each record. -/
theorem sectionLoop_entries (body : Slice → Outcome (Slice × RRLine)) (depth : Nat)
    (data : Slice) (more : List (WireName × List Byte)) (rest : List Byte) :
    ∀ (es : List WireEntry) (off : Nat) (table : List (Nat × List Byte)) (sb : List RRLine),
      (∀ e ∈ es, ∀ starts2, e.name.wellFormed starts2 = true → ∀ rest2 nm,
        extractDomain (depth + 1) data ⟨e.name.encode ++ (e.body ++ rest2), data.spare⟩
          = .ok (nm, ⟨e.body ++ rest2, data.spare⟩) →
        body ⟨e.name.encode ++ (e.body ++ rest2), data.spare⟩
          = .ok (⟨rest2, data.spare⟩, e.line nm)) →
      namesWellFormed off (table.map Prod.fst)
        (es.map (fun e => (e.name, e.body)) ++ more) = true →
      data.bytes.drop off = encodeRecords (es.map (fun e => (e.name, e.body)) ++ more) ++ rest →
      table.length + es.length ≤ depth + 1 →
      (∀ t ∈ table, ∃ tl,
        extractDomain table.length data ⟨data.bytes.drop t.1, data.spare⟩ = .ok (t.2, tl)) →
      sectionLoop body es.length ⟨data.bytes.drop off, data.spare⟩ sb
          = .ok (⟨data.bytes.drop (entriesEnd off es), data.spare⟩,
              sb ++ entriesLines off table es)
        ∧ namesWellFormed (entriesEnd off es) ((entriesTable off table es).map Prod.fst) more
          = true
        ∧ data.bytes.drop (entriesEnd off es) = encodeRecords more ++ rest
        ∧ (entriesTable off table es).length = table.length + es.length
        ∧ (∀ t ∈ entriesTable off table es, ∃ tl,
          extractDomain (entriesTable off table es).length data
            ⟨data.bytes.drop t.1, data.spare⟩ = .ok (t.2, tl)) := by
  intro es
  induction es with
  | nil =>
    intro off table sb _ hwf hdrop _ hdec
    refine ⟨?_, hwf, hdrop, rfl, hdec⟩
    simp only [List.length_nil, sectionLoop, entriesEnd, entriesLines, List.append_nil,
      Outcome.pure_eq]
  | cons e es ih =>
    intro off table sb hbody hwf hdrop hlen hdec
    have hwf : e.name.wellFormed (table.map Prod.fst) = true
        ∧ namesWellFormed (off + (e.name.encode ++ e.body).length) (off :: table.map Prod.fst)
          (es.map (fun e => (e.name, e.body)) ++ more) = true := by
      have hwf2 : namesWellFormed off (table.map Prod.fst)
          ((e.name, e.body) :: (es.map (fun e => (e.name, e.body)) ++ more)) = true := hwf
      rw [namesWellFormed, Bool.and_eq_true] at hwf2
      exact hwf2
    have hdrop : data.bytes.drop off = e.name.encode
        ++ (e.body ++ (encodeRecords (es.map (fun e => (e.name, e.body)) ++ more) ++ rest)) := by
      have hd : data.bytes.drop off
          = encodeRecords ((e.name, e.body) :: (es.map (fun e => (e.name, e.body)) ++ more))
            ++ rest := hdrop
      rw [encodeRecords, List.append_assoc, List.append_assoc] at hd
      exact hd
    simp only [List.length_cons] at hlen
    -- the name of this record decodes with the budget of the walk
    have hdecD : ∀ t ∈ table, ∃ tl,
        extractDomain depth data ⟨data.bytes.drop t.1, data.spare⟩ = .ok (t.2, tl) := by
      intro t ht
      obtain ⟨tl, hr⟩ := hdec t ht
      exact ⟨tl, extractDomain_mono_le data _ _ (by omega) _ _ hr⟩
    have hnm := extractDomain_wireName_text depth data table e.name
      (e.body ++ (encodeRecords (es.map (fun e => (e.name, e.body)) ++ more) ++ rest))
      data.spare hwf.1 hdecD
    have hline := hbody e (List.mem_cons_self _ _) _ hwf.1 _ _ hnm
    -- and with the budget that counts the names walked so far
    have hnm2 := extractDomain_wireName_text table.length data table e.name
      (e.body ++ (encodeRecords (es.map (fun e => (e.name, e.body)) ++ more) ++ rest))
      data.spare hwf.1 hdec
    have hdec2 : ∀ t ∈ (off, e.name.text table) :: table, ∃ tl,
        extractDomain ((off, e.name.text table) :: table).length data
          ⟨data.bytes.drop t.1, data.spare⟩ = .ok (t.2, tl) := by
      intro t ht
      rcases List.mem_cons.mp ht with rfl | ht
      · refine ⟨⟨e.body
          ++ (encodeRecords (es.map (fun e => (e.name, e.body)) ++ more) ++ rest), data.spare⟩, ?_⟩
        show extractDomain (table.length + 1) data ⟨data.bytes.drop off, data.spare⟩
          = .ok (e.name.text table, ⟨e.body
            ++ (encodeRecords (es.map (fun e => (e.name, e.body)) ++ more) ++ rest), data.spare⟩)
        rw [hdrop]
        exact hnm2
      · obtain ⟨tl, hr⟩ := hdec t ht
        exact ⟨tl, extractDomain_mono data _ _ _ hr⟩
    have hdrop2 : data.bytes.drop (off + (e.name.encode ++ e.body).length)
        = encodeRecords (es.map (fun e => (e.name, e.body)) ++ more) ++ rest := by
      rw [← List.drop_drop, hdrop, ← List.append_assoc, List.drop_left]
    obtain ⟨hloop, hwf2, hd2, hl2, hdec3⟩ :=
      ih (off + (e.name.encode ++ e.body).length) ((off, e.name.text table) :: table)
        (sb ++ [e.line (e.name.text table)])
        (fun r hr => hbody r (List.mem_cons_of_mem _ hr)) hwf.2 hdrop2
        (by simp only [List.length_cons]; omega) hdec2
    refine ⟨?_, hwf2, hd2, ?_, hdec3⟩
    · simp only [List.length_cons, sectionLoop]
      rw [hdrop, hline, Outcome.ok_bind]
      simp only []
      rw [← hdrop2, hloop]
      simp only [entriesEnd, entriesLines, List.append_assoc, List.singleton_append]
    · have hl3 : (entriesTable off table (e :: es)).length
          = ((off, e.name.text table) :: table).length + es.length := hl2
      rw [hl3]
      simp only [List.length_cons]
      omega

theorem questionRecord_entry (depth : Nat) (data : Slice) (qs : List WireQuestion) :
    ∀ e ∈ qs.map WireQuestion.entry, ∀ starts2 : List Nat,
      e.name.wellFormed starts2 = true → ∀ rest2 nm,
      extractDomain (depth + 1) data ⟨e.name.encode ++ (e.body ++ rest2), data.spare⟩
        = .ok (nm, ⟨e.body ++ rest2, data.spare⟩) →
      questionRecord (depth + 1) data ⟨e.name.encode ++ (e.body ++ rest2), data.spare⟩
        = .ok (⟨rest2, data.spare⟩, e.line nm) := by
  intro e he starts2 _ rest2 nm h
  obtain ⟨q, _, rfl⟩ := List.mem_map.mp he
  exact questionRecord_of_name _ _ _ nm rest2 _ q.typ q.cls h

theorem resourceRecord_entry (mk : List Byte → Nat → Nat → Nat → Nat → RRLine) (depth : Nat)
    (data : Slice) (rs : List WireRR) (hlen : ∀ r ∈ rs, r.rdata.length < 2 ^ 16) :
    ∀ e ∈ rs.map (WireRR.entry mk), ∀ starts2 : List Nat,
      e.name.wellFormed starts2 = true → ∀ rest2 nm,
      extractDomain (depth + 1) data ⟨e.name.encode ++ (e.body ++ rest2), data.spare⟩
        = .ok (nm, ⟨e.body ++ rest2, data.spare⟩) →
      resourceRecord mk (depth + 1) data ⟨e.name.encode ++ (e.body ++ rest2), data.spare⟩
        = .ok (⟨rest2, data.spare⟩, e.line nm) := by
  intro e he starts2 _ rest2 nm h
  obtain ⟨r, hr, rfl⟩ := List.mem_map.mp he
  exact resourceRecord_line mk _ _ _ nm rest2 _ r.rdata r.typ r.cls r.ttl (hlen r hr) h

theorem additionalRecord_entry (depth : Nat) (data : Slice) (rs : List WireRR)
    (hlen : ∀ r ∈ rs, r.rdata.length < 2 ^ 16) (hroot : ∀ r ∈ rs, r.name.isRoot = false) :
    ∀ e ∈ rs.map (WireRR.entry .additional), ∀ starts2 : List Nat,
      e.name.wellFormed starts2 = true → ∀ rest2 nm,
      extractDomain (depth + 1) data ⟨e.name.encode ++ (e.body ++ rest2), data.spare⟩
        = .ok (nm, ⟨e.body ++ rest2, data.spare⟩) →
      additionalRecord (depth + 1) data ⟨e.name.encode ++ (e.body ++ rest2), data.spare⟩
        = .ok (⟨rest2, data.spare⟩, e.line nm) := by
  intro e he starts2 hwf rest2 nm h
  obtain ⟨r, hr, rfl⟩ := List.mem_map.mp he
  have hwf2 : r.name.wellFormed starts2 = true := hwf
  obtain ⟨b, s, hb, hb0⟩ := WireName.encode_first starts2 r.name hwf2 (hroot r hr)
  have hres : resourceRecord .additional (depth + 1) data
      ⟨r.name.encode ++ (r.body ++ rest2), data.spare⟩
        = .ok (⟨rest2, data.spare⟩, (WireRR.entry .additional r).line nm) :=
    resourceRecord_line .additional _ _ _ nm rest2 _ r.rdata r.typ r.cls r.ttl (hlen r hr) h
  show additionalRecord (depth + 1) data ⟨r.name.encode ++ (r.body ++ rest2), data.spare⟩
    = .ok (⟨rest2, data.spare⟩, (WireRR.entry .additional r).line nm)
  rw [hb, List.cons_append] at hres ⊢
  rw [additionalRecord_of_nonzero _ _ b _ _ hb0]
  exact hres

/-- One `if count > 0` block of `rrecords` on a well-formed message. -/
theorem sectionWalk_entries (text : String) (body : Slice → Outcome (Slice × RRLine))
    (depth : Nat) (data : Slice) (more : List (WireName × List Byte)) (rest : List Byte)
    (es : List WireEntry) (off : Nat) (table : List (Nat × List Byte)) (sb : List RRLine)
    (hbody : ∀ e ∈ es, ∀ starts2, e.name.wellFormed starts2 = true → ∀ rest2 nm,
      extractDomain (depth + 1) data ⟨e.name.encode ++ (e.body ++ rest2), data.spare⟩
        = .ok (nm, ⟨e.body ++ rest2, data.spare⟩) →
      body ⟨e.name.encode ++ (e.body ++ rest2), data.spare⟩
        = .ok (⟨rest2, data.spare⟩, e.line nm))
    (hwf : namesWellFormed off (table.map Prod.fst)
      (es.map (fun e => (e.name, e.body)) ++ more) = true)
    (hdrop : data.bytes.drop off
      = encodeRecords (es.map (fun e => (e.name, e.body)) ++ more) ++ rest)
    (hlen : table.length + es.length ≤ depth + 1)
    (hdec : ∀ t ∈ table, ∃ tl,
      extractDomain table.length data ⟨data.bytes.drop t.1, data.spare⟩ = .ok (t.2, tl)) :
    sectionWalk text body es.length ⟨data.bytes.drop off, data.spare⟩ sb
        = .ok (⟨data.bytes.drop (entriesEnd off es), data.spare⟩,
            sb ++ sectionLines text off table es)
      ∧ namesWellFormed (entriesEnd off es) ((entriesTable off table es).map Prod.fst) more
        = true
      ∧ data.bytes.drop (entriesEnd off es) = encodeRecords more ++ rest
      ∧ (entriesTable off table es).length = table.length + es.length
      ∧ (∀ t ∈ entriesTable off table es, ∃ tl,
        extractDomain (entriesTable off table es).length data
          ⟨data.bytes.drop t.1, data.spare⟩ = .ok (t.2, tl)) := by
  by_cases hc : es.length > 0
  · obtain ⟨h1, h2⟩ := sectionLoop_entries body depth data more rest es off table
      (sb ++ [.title text]) hbody hwf hdrop hlen hdec
    refine ⟨?_, h2⟩
    rw [sectionWalk, if_pos hc, h1, sectionLines, if_pos hc]
    simp only [List.append_assoc, List.singleton_append]
  · have hnil : es = [] := List.length_eq_zero.mp (by omega)
    subst hnil
    refine ⟨?_, hwf, hdrop, rfl, hdec⟩
    rw [sectionWalk, if_neg hc, sectionLines, if_neg hc]
    simp only [entriesEnd, List.append_nil, Outcome.pure_eq]

/-- C4. For every well-formed DNS message the record walk of `rrecords` over the four
sections ends with an empty tail: the cursor equals the payload length. The payload is
the concatenation, in section order, of the question records and the resource records;
every name is a run of labels of 1 to 63 bytes ended by `00` or by a pointer to the start
of an earlier name, every record declares its RDATA length, and no additional record has
the root name. On the way the walk reads every record by its layout: it writes the lines
`m.lines`, that is, for each section with a record, its title and one line for each
record, with the text of the name (labels, then the text of the earlier name a pointer
targets), the type, the class and, for a resource record, the TTL and the RDATA length.
`rrecords` returns these lines. The walk returns as soon as its budget of nested calls is
at least the number of records. -/
theorem rrecordsWalk_wellFormed (m : WireMessage) (d : DNSMessage) (sp : List Byte)
    (depth : Nat) (hwf : m.wellFormed = true) (hp : d.payload = ⟨m.encode, sp⟩)
    (hq : d.Questions = m.questions.length) (ha : d.AnswerRRs = m.answers.length)
    (hn : d.AuthorityRRs = m.authorities.length)
    (hr : d.AdditionalRRs = m.additionals.length) (hd : m.records.length ≤ depth) :
    d.rrecordsWalk depth = .ok (⟨[], sp⟩, m.lines)
    ∧ d.rrecords depth = .ok m.lines := by
  have hwalk : d.rrecordsWalk depth = .ok (⟨[], sp⟩, m.lines) := by
    obtain ⟨hnames, hlenA, hlenN, hlenR, hroot⟩ := WireMessage.wellFormed_iff m hwf
    cases depth with
    | zero =>
      have h0 : m.records.length = 0 := by omega
      simp only [WireMessage.records, List.length_append, List.length_map] at h0
      have e1 : m.questions = [] := List.length_eq_zero.mp (by omega)
      have e2 : m.answers = [] := List.length_eq_zero.mp (by omega)
      have e3 : m.authorities = [] := List.length_eq_zero.mp (by omega)
      have e4 : m.additionals = [] := List.length_eq_zero.mp (by omega)
      have e5 : m.encode = [] := by
        simp [WireMessage.encode, WireMessage.records, e1, e2, e3, e4, encodeRecords]
      simp [DNSMessage.rrecordsWalk, sectionWalk, hq, ha, hn, hr, e1, e2, e3, e4, hp, e5,
        WireMessage.lines, sectionLines]
    | succ depth =>
      have hsp : d.payload.spare = sp := by rw [hp]
      have hbytes : d.payload.bytes = m.encode := by rw [hp]
      have hcount : m.records.length = m.questions.length + m.answers.length
          + m.authorities.length + m.additionals.length := by
        simp only [WireMessage.records, List.length_append, List.length_map]
      have eq1 : ∀ qs : List WireQuestion,
          (qs.map WireQuestion.entry).map (fun e => (e.name, e.body))
            = qs.map (fun q => (q.name, q.body)) := by
        intro qs
        rw [List.map_map]
        rfl
      have eq2 : ∀ (mk : List Byte → Nat → Nat → Nat → Nat → RRLine) (rs : List WireRR),
          (rs.map (WireRR.entry mk)).map (fun e => (e.name, e.body))
            = rs.map (fun r => (r.name, r.body)) := by
        intro mk rs
        rw [List.map_map]
        rfl
      have hrec : m.records
          = (m.questions.map WireQuestion.entry).map (fun e => (e.name, e.body))
          ++ ((m.answers.map (WireRR.entry .answer)).map (fun e => (e.name, e.body))
            ++ ((m.authorities.map (WireRR.entry .authority)).map (fun e => (e.name, e.body))
              ++ ((m.additionals.map (WireRR.entry .additional)).map
                  (fun e => (e.name, e.body)) ++ []))) := by
        rw [eq1, eq2, eq2, eq2]
        simp only [WireMessage.records, List.append_assoc, List.append_nil]
      rw [hrec] at hnames
      have hdrop0 : d.payload.bytes.drop 0
          = encodeRecords ((m.questions.map WireQuestion.entry).map (fun e => (e.name, e.body))
          ++ ((m.answers.map (WireRR.entry .answer)).map (fun e => (e.name, e.body))
            ++ ((m.authorities.map (WireRR.entry .authority)).map (fun e => (e.name, e.body))
              ++ ((m.additionals.map (WireRR.entry .additional)).map
                  (fun e => (e.name, e.body)) ++ [])))) ++ [] := by
        rw [List.drop_zero, hbytes, WireMessage.encode, hrec]
        simp only [List.append_nil]
      obtain ⟨hw1, hn1, hd1, hl1, hdec1⟩ :=
        sectionWalk_entries "- Queries:\n" (questionRecord (depth + 1) d.payload) depth
          d.payload _ [] (m.questions.map WireQuestion.entry) 0 [] []
          (questionRecord_entry depth d.payload m.questions) hnames hdrop0
          (by simp only [List.length_map, List.length_nil]; omega)
          (fun t ht => absurd ht (List.not_mem_nil t))
      obtain ⟨hw2, hn2, hd2, hl2, hdec2⟩ :=
        sectionWalk_entries "- Answers:\n" (resourceRecord .answer (depth + 1) d.payload) depth
          d.payload _ [] (m.answers.map (WireRR.entry .answer)) _ _ _
          (resourceRecord_entry .answer depth d.payload m.answers hlenA) hn1 hd1
          (by simp only [List.length_map, List.length_nil] at hl1 ⊢; omega) hdec1
      obtain ⟨hw3, hn3, hd3, hl3, hdec3⟩ :=
        sectionWalk_entries "- Authoritative nameservers:\n"
          (resourceRecord .authority (depth + 1) d.payload) depth
          d.payload _ [] (m.authorities.map (WireRR.entry .authority)) _ _ _
          (resourceRecord_entry .authority depth d.payload m.authorities hlenN) hn2 hd2
          (by simp only [List.length_map, List.length_nil] at hl1 hl2 ⊢; omega) hdec2
      obtain ⟨hw4, _, hd4, _, _⟩ :=
        sectionWalk_entries "- Additional records:\n" (additionalRecord (depth + 1) d.payload)
          depth d.payload [] [] (m.additionals.map (WireRR.entry .additional)) _ _ _
          (additionalRecord_entry depth d.payload m.additionals hlenR hroot) hn3 hd3
          (by simp only [List.length_map, List.length_nil] at hl1 hl2 hl3 ⊢; omega) hdec3
      simp only [List.length_map] at hw1 hw2 hw3 hw4
      have hw0 : sectionWalk "- Queries:\n" (questionRecord (depth + 1) d.payload)
          m.questions.length d.payload []
          = .ok (⟨d.payload.bytes.drop (entriesEnd 0 (m.questions.map WireQuestion.entry)),
              d.payload.spare⟩,
            [] ++ sectionLines "- Queries:\n" 0 [] (m.questions.map WireQuestion.entry)) := hw1
      rw [DNSMessage.rrecordsWalk, hq, ha, hn, hr]
      simp only []
      rw [hw0, Outcome.ok_bind]
      simp only []
      rw [hw2, Outcome.ok_bind]
      simp only []
      rw [hw3, Outcome.ok_bind]
      simp only []
      rw [hw4, Outcome.ok_bind]
      simp only [encodeRecords, List.append_nil] at hd4
      simp only [hd4, hsp, Outcome.pure_eq, List.nil_append, WireMessage.lines]
  refine ⟨hwalk, ?_⟩
  rw [DNSMessage.rrecords, hwalk]
  rfl

/-- C4 (witness): the message `exampleMessage`, whose last two names end with a pointer to
the question name. The walk ends with an empty tail and writes three titles and three
lines; the names of the answer and of the additional record are completed through the
pointer. -/
theorem rrecordsWalk_wellFormed_witness :
    (exampleMessage.wellFormed = true ∧ exampleDNS.payload = ⟨exampleMessage.encode, []⟩
      ∧ exampleDNS.Questions = exampleMessage.questions.length
      ∧ exampleDNS.AnswerRRs = exampleMessage.answers.length
      ∧ exampleDNS.AuthorityRRs = exampleMessage.authorities.length
      ∧ exampleDNS.AdditionalRRs = exampleMessage.additionals.length
      ∧ exampleMessage.records.length ≤ 3)
    ∧ (exampleDNS.rrecordsWalk 3 = .ok (⟨[], []⟩, exampleMessage.lines)
      ∧ exampleDNS.rrecords 3 = .ok exampleMessage.lines)
    ∧ exampleMessage.lines
      = [.title "- Queries:\n", .query exampleComName 1 1,
         .title "- Answers:\n", .answer exampleComName 1 1 60 4,
         .title "- Additional records:\n",
         .additional ([110, 115, 46] ++ exampleComName) 1 1 60 4] :=
  ⟨⟨by decide, rfl, rfl, rfl, rfl, rfl, by decide⟩,
    rrecordsWalk_wellFormed exampleMessage exampleDNS [] 3 (by decide) rfl rfl rfl rfl rfl
      (by decide), by decide⟩

/-! ## The record walk on a message that overruns its buffer -/

theorem extractDomain_empty (depth : Nat) (data : Slice) (sp : List Byte) :
    extractDomain (depth + 1) data ⟨[], sp⟩ = .panic := by
  simp [extractDomain, extractDomainLoop, Slice.len]

theorem questionRecord_short (depth : Nat) (payload tail t : Slice) (nm : List Byte)
    (h : extractDomain depth payload tail = .ok (nm, t)) (hlen : t.len < 4) :
    questionRecord depth payload tail = .panic := by
  rw [questionRecord, h, Outcome.ok_bind]
  simp only []
  refine Outcome.bind_eq_panic (slice_ne_exhausted _ _ _) (fun b => ?_)
  refine Outcome.bind_eq_panic (Uint16_ne_exhausted _) (fun typ => ?_)
  refine Outcome.bind_eq_panic (slice_ne_exhausted _ _ _) (fun b2 => ?_)
  refine Outcome.bind_eq_panic (Uint16_ne_exhausted _) (fun cls => ?_)
  rw [sliceFrom_panic _ _ hlen]
  rfl

theorem resourceRecord_short (mk : List Byte → Nat → Nat → Nat → Nat → RRLine) (depth : Nat)
    (payload tail t : Slice) (nm : List Byte)
    (h : extractDomain depth payload tail = .ok (nm, t))
    (hlen : t.len < 10 + be16At t.bytes 8) :
    resourceRecord mk depth payload tail = .panic := by
  rw [resourceRecord, h, Outcome.ok_bind]
  simp only []
  refine Outcome.bind_eq_panic (slice_ne_exhausted _ _ _) (fun b => ?_)
  refine Outcome.bind_eq_panic (Uint16_ne_exhausted _) (fun typ => ?_)
  refine Outcome.bind_eq_panic (slice_ne_exhausted _ _ _) (fun b2 => ?_)
  refine Outcome.bind_eq_panic (Uint16_ne_exhausted _) (fun cls => ?_)
  refine Outcome.bind_eq_panic (slice_ne_exhausted _ _ _) (fun b3 => ?_)
  refine Outcome.bind_eq_panic (Uint32_ne_exhausted _) (fun ttl => ?_)
  by_cases h10 : 10 ≤ t.bytes.length
  · have e : (10 : Nat) - 8 = 2 := rfl
    rw [slice_of_le t 8 10 (by omega) h10, Outcome.ok_bind, e,
      Uint16_take_drop t.bytes _ 8 h10, Outcome.ok_bind, sliceFrom_panic _ _ hlen]
    rfl
  · refine Outcome.bind_eq_panic (slice_ne_exhausted _ _ _) (fun b4 => ?_)
    refine Outcome.bind_eq_panic (Uint16_ne_exhausted _) (fun rdl => ?_)
    rw [sliceFrom_panic _ _ (by simp only [Slice.len]; omega)]
    rfl

theorem additionalRecord_root_short (depth : Nat) (payload : Slice) (r sp : List Byte)
    (hlen : r.length < 9 + be16At r 7) :
    additionalRecord depth payload ⟨(0 : Byte) :: r, sp⟩ = .panic := by
  have h0 : ¬ ((0 : Byte).val ≠ 0) := by decide
  rw [additionalRecord]
  simp only [index_cons_zero, Outcome.ok_bind]
  rw [if_neg h0]
  simp only [sliceFrom_cons_succ, sliceFrom_zero, Outcome.ok_bind]
  refine Outcome.bind_eq_panic (slice_ne_exhausted _ _ _) (fun b => ?_)
  refine Outcome.bind_eq_panic (Uint16_ne_exhausted _) (fun typ => ?_)
  refine Outcome.bind_eq_panic (slice_ne_exhausted _ _ _) (fun b2 => ?_)
  refine Outcome.bind_eq_panic (Uint16_ne_exhausted _) (fun ups => ?_)
  refine Outcome.bind_eq_panic (index_ne_exhausted _ _) (fun t1 => ?_)
  refine Outcome.bind_eq_panic (slice_ne_exhausted _ _ _) (fun b3 => ?_)
  refine Outcome.bind_eq_panic (Uint16_ne_exhausted _) (fun zres => ?_)
  by_cases h9 : 9 ≤ r.length
  · have e : (9 : Nat) - 7 = 2 := rfl
    rw [slice_of_le ⟨r, sp⟩ 7 9 (by omega) h9, Outcome.ok_bind, e,
      Uint16_take_drop r _ 7 h9, Outcome.ok_bind,
      sliceFrom_panic _ _ (by simp only [Slice.len]; omega)]
    rfl
  · refine Outcome.bind_eq_panic (slice_ne_exhausted _ _ _) (fun b4 => ?_)
    refine Outcome.bind_eq_panic (Uint16_ne_exhausted _) (fun rdl => ?_)
    rw [sliceFrom_panic _ _ (by simp only [Slice.len]; omega)]
    rfl

theorem extractDomain_pointer_outside (depth : Nat) (payload : Slice)
    (labels : List (List Byte)) (p : Nat) (s sp : List Byte)
    (hl : ∀ l ∈ labels, 1 ≤ l.length ∧ l.length ≤ 63) (hp : p < 2 ^ 14)
    (hout : payload.len ≤ (p + 2 ^ 16 - 12) % 2 ^ 16) :
    extractDomain (depth + 2) payload ⟨encodeLabels labels ++ pointerBytes p ++ s, sp⟩
      = .panic := by
  obtain ⟨b0, b1, hb, hb6, hval⟩ := pointerBytes_eq p hp
  rw [List.append_assoc, extractDomain_succ,
    extractDomainLoop_labels _ _ labels hl _ _ _ _ (Nat.lt_add_one _), hb]
  simp only [List.cons_append, List.nil_append, List.length_cons]
  rw [extractDomainLoop_pointer _ _ _ _ _ _ b0 b1 hb6, hval]
  by_cases heq : payload.len = (p + 2 ^ 16 - 12) % 2 ^ 16
  · have hd : payload.bytes.drop ((p + 2 ^ 16 - 12) % 2 ^ 16) = [] :=
      List.drop_eq_nil_of_le (by simp only [Slice.len] at heq; omega)
    rw [sliceFrom_of_le _ _ (by simp only [Slice.len] at heq; omega), Outcome.ok_bind, hd,
      extractDomain_empty]
    rfl
  · rw [sliceFrom_panic _ _ (by omega)]
    rfl

theorem sectionLoop_panic (body : Slice → Outcome (Slice × RRLine)) (n : Nat) (tail : Slice)
    (sb : List RRLine) (h : body tail = .panic) : sectionLoop body (n + 1) tail sb = .panic := by
  rw [sectionLoop, h]
  rfl

/-- C5 (counterexample). The message that is only a 12-byte header with `Questions = 1`
declares a record that the buffer does not hold: `Parse` returns no error, and the record
walk reports no decode failure but panics on the out-of-range access `tail[0]`. -/
theorem rrecords_overrun_counterexample :
    DNSMessage.zero.Parse headerOnlyMessage
        = .ok (⟨0x1234, 0x0100, 1, 0, 0, 0, ⟨[], []⟩⟩, none)
    ∧ ∀ depth, DNSMessage.rrecords (depth + 1) ⟨0x1234, 0x0100, 1, 0, 0, 0, ⟨[], []⟩⟩
        = .panic := by
  refine ⟨by decide, fun depth => ?_⟩
  simp [DNSMessage.rrecords, DNSMessage.rrecordsWalk, sectionWalk, sectionLoop, questionRecord,
    extractDomain_empty]

/-- C5 (amended). Decoding a DNS message reports no decode failure for an overrun. `Parse`
returns no error for every message of at least 12 bytes, whatever its counts, and the
record walk has no failure result. With the cursor `tail` on a record still to be read,
the walk ends in a run-time panic (index or slice bounds out of range) when no byte is
left, when the buffer ends before the fixed fields of the record or before the end of its
declared RDATA, and when the name holds a compression pointer that resolves to an offset
at or past the end of the buffer; a panic of a record ends the loop over its section. -/
theorem rrecords_overrun (d : DNSMessage) (data payload tail : Slice) (depth n : Nat)
    (mk : List Byte → Nat → Nat → Nat → Nat → RRLine) (sb : List RRLine) :
    (12 ≤ data.len → ∃ d2, d.Parse data = .ok (d2, none)
      ∧ d2.payload = ⟨data.bytes.drop 12, data.spare⟩)
    ∧ (tail.len = 0 → questionRecord (depth + 1) payload tail = .panic
        ∧ resourceRecord mk (depth + 1) payload tail = .panic
        ∧ additionalRecord (depth + 1) payload tail = .panic)
    ∧ (∀ nm t, extractDomain depth payload tail = .ok (nm, t) →
        (t.len < 4 → questionRecord depth payload tail = .panic)
        ∧ (t.len < 10 + be16At t.bytes 8 → resourceRecord mk depth payload tail = .panic))
    ∧ (∀ r sp, tail = ⟨(0 : Byte) :: r, sp⟩ → r.length < 9 + be16At r 7 →
        additionalRecord depth payload tail = .panic)
    ∧ (∀ (b : Byte) r sp, tail = ⟨b :: r, sp⟩ → b.val ≠ 0 →
        additionalRecord depth payload tail = resourceRecord .additional depth payload tail)
    ∧ (∀ labels p s sp, tail = ⟨encodeLabels labels ++ pointerBytes p ++ s, sp⟩ →
        (∀ l ∈ labels, 1 ≤ l.length ∧ l.length ≤ 63) → p < 2 ^ 14 →
        payload.len ≤ (p + 2 ^ 16 - 12) % 2 ^ 16 →
        extractDomain (depth + 2) payload tail = .panic
        ∧ questionRecord (depth + 2) payload tail = .panic
        ∧ resourceRecord mk (depth + 2) payload tail = .panic)
    ∧ (∀ body : Slice → Outcome (Slice × RRLine), body tail = .panic →
        sectionLoop body (n + 1) tail sb = .panic) := by
  refine ⟨?_, ?_, ?_, ?_, ?_, ?_, ?_⟩
  · intro h
    exact ⟨_, DNSMessage_Parse_of_le d data h, rfl⟩
  · intro h
    obtain ⟨bytes, sp⟩ := tail
    have hb : bytes = [] := List.length_eq_zero.mp h
    subst hb
    refine ⟨?_, ?_, ?_⟩
    · simp [questionRecord, extractDomain_empty]
    · simp [resourceRecord, extractDomain_empty]
    · simp [additionalRecord]
  · intro nm t h
    exact ⟨questionRecord_short depth payload tail t nm h,
      resourceRecord_short mk depth payload tail t nm h⟩
  · intro r sp ht hlen
    rw [ht]
    exact additionalRecord_root_short depth payload r sp hlen
  · intro b r sp ht hb
    rw [ht]
    exact additionalRecord_of_nonzero depth payload b r sp hb
  · intro labels p s sp ht hl hp hout
    have hpanic := extractDomain_pointer_outside depth payload labels p s sp hl hp hout
    rw [ht]
    refine ⟨hpanic, ?_, ?_⟩
    · rw [questionRecord, hpanic]
      rfl
    · rw [resourceRecord, hpanic]
      rfl
  · intro body h
    exact sectionLoop_panic body n tail sb h

/-- C5 (witness): the header-only message with `Questions = 1`. `Parse` returns no error,
and with the cursor on the empty payload each kind of record panics. -/
theorem rrecords_overrun_witness :
    (12 ≤ headerOnlyMessage.len ∧ (⟨[], []⟩ : Slice).len = 0)
    ∧ (∃ d2, DNSMessage.zero.Parse headerOnlyMessage = .ok (d2, none)
      ∧ d2.payload = ⟨headerOnlyMessage.bytes.drop 12, headerOnlyMessage.spare⟩)
    ∧ (questionRecord 1 ⟨[], []⟩ ⟨[], []⟩ = .panic
        ∧ resourceRecord .answer 1 ⟨[], []⟩ ⟨[], []⟩ = .panic
        ∧ additionalRecord 1 ⟨[], []⟩ ⟨[], []⟩ = .panic) :=
  ⟨⟨by decide, by decide⟩,
    (rrecords_overrun DNSMessage.zero headerOnlyMessage ⟨[], []⟩ ⟨[], []⟩ 0 0 .answer []).1
      (by decide),
    (rrecords_overrun DNSMessage.zero headerOnlyMessage ⟨[], []⟩ ⟨[], []⟩ 0 0 .answer []).2.1
      (by decide)⟩

/-- C6 (failing input). On an additional section that holds the 11-byte EDNS0 OPT record
followed by the record `a.`, the loop body takes the OPT branch and leaves the cursor on
the last byte of the OPT record, its low RDATA-length byte, one byte before the record
`a.`; the next iteration then reads that byte as another root name and formats the bytes
of the record `a.` as a second OPT record. -/
theorem additionalRecord_opt_cursor :
    additionalRecord 1 optThenRecord optThenRecord
        = .ok (⟨optThenRecord.bytes.drop 10, []⟩, .root 41 4096 0 0 0)
    ∧ sectionLoop (additionalRecord 1 optThenRecord) 2 optThenRecord []
        = .ok (⟨[0x00, 0x3C, 0x00, 0x00], []⟩, [.root 41 4096 0 0 0, .root 353 0 1 1 0]) := by
  decide

/-! ## ICMP: types without a structured payload, and the code table -/

/-- C11. Unknown ICMP types never fail: for a segment whose type is none of 0, 3, 5, 8, 11,
13, 14 and for every payload, `payload` reads no byte of the payload and returns the
whole payload as data of length `len(Payload)`; in particular it returns on the empty
payload, whatever lies behind it in the buffer; and `typecode` returns a pair of names. -/
theorem ICMPSegment_unknown_type (i : ICMPSegment)
    (h : i.Typ ≠ 0 ∧ i.Typ ≠ 3 ∧ i.Typ ≠ 5 ∧ i.Typ ≠ 8 ∧ i.Typ ≠ 11 ∧ i.Typ ≠ 13
      ∧ i.Typ ≠ 14) :
    i.payload = .ok (.other i.Payload.len i.Payload.bytes)
    ∧ (∀ sp, ICMPSegment.payload { i with Payload := ⟨[], sp⟩ } = .ok (.other 0 []))
    ∧ ∃ mtype code, i.typecode = (mtype, code) := by
  have h1 : ¬ (i.Typ = 0 ∨ i.Typ = 8) := by omega
  have h2 : ¬ (i.Typ = 3 ∨ i.Typ = 11) := by omega
  have h3 : ¬ (i.Typ = 5) := by omega
  have h4 : ¬ (i.Typ = 13 ∨ i.Typ = 14) := by omega
  refine ⟨?_, fun sp => ?_, ⟨i.typecode.1, i.typecode.2, rfl⟩⟩
  · rw [ICMPSegment.payload, if_neg h1, if_neg h2, if_neg h3, if_neg h4]
    rfl
  · rw [ICMPSegment.payload, if_neg h1, if_neg h2, if_neg h3, if_neg h4]
    rfl

/-- C11 (witness): a router advertisement (type 9) with an empty payload. -/
theorem ICMPSegment_unknown_type_witness :
    ((9 : Nat) ≠ 0 ∧ (9 : Nat) ≠ 3 ∧ (9 : Nat) ≠ 5 ∧ (9 : Nat) ≠ 8 ∧ (9 : Nat) ≠ 11
      ∧ (9 : Nat) ≠ 13 ∧ (9 : Nat) ≠ 14)
    ∧ ICMPSegment.payload ⟨9, 0, 0, ⟨[], []⟩⟩ = .ok (.other 0 [])
    ∧ (∀ sp, ICMPSegment.payload ⟨9, 0, 0, ⟨[], sp⟩⟩ = .ok (.other 0 []))
    ∧ ∃ mtype code, ICMPSegment.typecode ⟨9, 0, 0, ⟨[], []⟩⟩ = (mtype, code) :=
  ⟨by decide, ICMPSegment_unknown_type ⟨9, 0, 0, ⟨[], []⟩⟩ (by decide)⟩

/-- C12 (failing input). For type 1, which has no entry in the table, `typecode` names the
type `Unknown` and returns the empty string as the description of every code, while an
unmapped code of a type of the table, such as code 16 of type 3, is described as
`Unknown`. -/
theorem typecode_unknown_type :
    (∀ (code checksum : Nat) (payload : Slice),
      ICMPSegment.typecode ⟨1, code, checksum, payload⟩ = ("Unknown", ""))
    ∧ (∀ (checksum : Nat) (payload : Slice),
      ICMPSegment.typecode ⟨3, 16, checksum, payload⟩ = ("Destination Unreachable", "Unknown")) :=
  ⟨fun _ _ _ => rfl, fun _ _ => rfl⟩

/-! ## IPv6 -/

theorem byteAt_lt (l : List Byte) (i : Nat) : byteAt l i < 256 := (l.getD i 0).isLt

theorem be32At_lt (l : List Byte) (i : Nat) : be32At l i < 2 ^ 32 := by
  have h0 := byteAt_lt l i
  have h1 := byteAt_lt l (i + 1)
  have h2 := byteAt_lt l (i + 2)
  have h3 := byteAt_lt l (i + 3)
  simp only [be32At]
  omega

theorem byteAt_eq_getElem (l : List Byte) (i : Nat) (h : i < l.length) :
    byteAt l i = (l[i]).val := by
  simp only [byteAt, List.getD_eq_getElem?_getD, List.getElem?_eq_getElem h, Option.getD_some]

/-- C13. IPv6 first-word unpacking is a lossless bit partition: for every `data` of at
least 40 bytes, with `w` the big-endian 32-bit value of `data[0:4]`, `Parse` sets
`Version` to the top 4 bits of `w`, `TrafficClass` to the next 8 bits and `FlowLabel` to
the low 20 bits, so that `Version < 16`, `FlowLabel < 2^20` and
`Version * 2^28 + TrafficClass * 2^20 + FlowLabel = w`. -/
theorem IPv6Packet_first_word (p : IPv6Packet) (data : Slice) (h : 40 ≤ data.bytes.length) :
    ∃ r : IPv6Packet, p.Parse data = .ok (r, none)
      ∧ be32At data.bytes 0 = 2 ^ 24 * (data.bytes[0]).val + 2 ^ 16 * (data.bytes[1]).val
          + 2 ^ 8 * (data.bytes[2]).val + (data.bytes[3]).val
      ∧ r.Version = be32At data.bytes 0 / 2 ^ 28
      ∧ r.TrafficClass = be32At data.bytes 0 / 2 ^ 20 % 2 ^ 8
      ∧ r.FlowLabel = be32At data.bytes 0 % 2 ^ 20
      ∧ r.Version < 16 ∧ r.TrafficClass < 2 ^ 8 ∧ r.FlowLabel < 2 ^ 20
      ∧ r.Version * 2 ^ 28 + r.TrafficClass * 2 ^ 20 + r.FlowLabel = be32At data.bytes 0 := by
  have hw := be32At_lt data.bytes 0
  have e1 : (be32At data.bytes 0 >>> 28) % 2 ^ 8 = be32At data.bytes 0 / 2 ^ 28 := by
    rw [Nat.shiftRight_eq_div_pow]
    omega
  have e2 : ((be32At data.bytes 0 >>> 20) &&& 0xFF) % 2 ^ 8
      = be32At data.bytes 0 / 2 ^ 20 % 2 ^ 8 := by
    have e : (0xFF : Nat) = 2 ^ 8 - 1 := by decide
    rw [Nat.shiftRight_eq_div_pow, e, Nat.and_pow_two_sub_one_eq_mod, Nat.mod_mod]
  have e3 : be32At data.bytes 0 &&& ((1 <<< 20) - 1) = be32At data.bytes 0 % 2 ^ 20 := by
    have e : (1 <<< 20) - 1 = 2 ^ 20 - 1 := by decide
    rw [e, Nat.and_pow_two_sub_one_eq_mod]
  refine ⟨_, IPv6Packet_Parse_of_le p data h, ?_, e1, e2, e3, ?_, ?_, ?_, ?_⟩
  · simp only [be32At, byteAt_eq_getElem data.bytes 0 (by omega),
      byteAt_eq_getElem data.bytes (0 + 1) (by omega),
      byteAt_eq_getElem data.bytes (0 + 2) (by omega),
      byteAt_eq_getElem data.bytes (0 + 3) (by omega)]
  · simp only [e1]
    omega
  · simp only [e2]
    omega
  · simp only [e3]
    omega
  · simp only [e1, e2, e3]
    omega

/-- C13 (witness): the first word `6A BC DE F1` gives version 6, traffic class `AB` and
flow label `CDEF1`. -/
theorem IPv6Packet_first_word_witness :
    40 ≤ ipv6Sample.bytes.length
    ∧ ∃ r : IPv6Packet, IPv6Packet.zero.Parse ipv6Sample = .ok (r, none)
      ∧ be32At ipv6Sample.bytes 0 = 0x6ABCDEF1
      ∧ r.Version = 6 ∧ r.TrafficClass = 0xAB ∧ r.FlowLabel = 0xCDEF1
      ∧ r.Version < 16 ∧ r.TrafficClass < 2 ^ 8 ∧ r.FlowLabel < 2 ^ 20
      ∧ r.Version * 2 ^ 28 + r.TrafficClass * 2 ^ 20 + r.FlowLabel = 0x6ABCDEF1 :=
  ⟨by decide, IPv6Packet_first_word IPv6Packet.zero ipv6Sample (by decide)⟩

/-- C14. For every `data` of at least 40 bytes, `IPv6Packet.Parse` sets `PayloadLength`
to the big-endian 16-bit value of `data[4:6]`, `NextHeader = data[6]`, `HopLimit =
data[7]`, `SrcIP` to the 16 bytes `data[8:24]`, `DstIP` to the 16 bytes `data[24:40]` and
`Payload` to the view `data[40:]`, of length `len(data) - 40`; the payload is the same for
every buffer with the same bytes from offset 40 on, whatever its header and its
`PayloadLength` field. -/
theorem IPv6Packet_Parse_fields (p : IPv6Packet) (data : Slice) (h : 40 ≤ data.bytes.length) :
    ∃ r : IPv6Packet, p.Parse data = .ok (r, none)
      ∧ r.PayloadLength = 256 * (data.bytes[4]).val + (data.bytes[5]).val
      ∧ r.NextHeader = (data.bytes[6]).val
      ∧ r.HopLimit = (data.bytes[7]).val
      ∧ r.SrcIP = (data.bytes.drop 8).take 16 ∧ r.SrcIP.length = 16
      ∧ r.DstIP = (data.bytes.drop 24).take 16 ∧ r.DstIP.length = 16
      ∧ r.Payload = ⟨data.bytes.drop 40, data.spare⟩
      ∧ r.Payload.len = data.len - 40
      ∧ (∀ j, r.Payload.bytes[j]? = data.bytes[40 + j]?)
      ∧ (∀ (p2 : IPv6Packet) (data2 : Slice), 40 ≤ data2.bytes.length →
          data2.bytes.drop 40 = data.bytes.drop 40 → data2.spare = data.spare →
          ∃ r2 : IPv6Packet, p2.Parse data2 = .ok (r2, none) ∧ r2.Payload = r.Payload) := by
  refine ⟨_, IPv6Packet_Parse_of_le p data h, ?_, ?_, ?_, rfl, ?_, rfl, ?_, rfl, ?_, ?_, ?_⟩
  · simp only [be16At, byteAt_eq_getElem data.bytes 4 (by omega),
      byteAt_eq_getElem data.bytes (4 + 1) (by omega)]
  · exact byteAt_eq_getElem data.bytes 6 (by omega)
  · exact byteAt_eq_getElem data.bytes 7 (by omega)
  · simp only [List.length_take, List.length_drop]
    omega
  · simp only [List.length_take, List.length_drop]
    omega
  · simp only [Slice.len, List.length_drop]
  · intro j
    simp only [List.getElem?_drop]
  · intro p2 data2 h2 hd hs
    refine ⟨_, IPv6Packet_Parse_of_le p2 data2 h2, ?_⟩
    simp only [hd, hs]

/-- C14 (witness): the packet `ipv6Sample`, whose `PayloadLength` field is 8. -/
theorem IPv6Packet_Parse_fields_witness :
    40 ≤ ipv6Sample.bytes.length
    ∧ ∃ r : IPv6Packet, IPv6Packet.zero.Parse ipv6Sample = .ok (r, none)
      ∧ r.PayloadLength = 8
      ∧ r.NextHeader = 58
      ∧ r.HopLimit = 64
      ∧ r.SrcIP = [0x20, 0x01, 0x0D, 0xB8, 0, 0, 0, 0, 0, 0, 0, 0, 0, 0, 0, 1]
      ∧ r.SrcIP.length = 16
      ∧ r.DstIP = [0x20, 0x01, 0x0D, 0xB8, 0, 0, 0, 0, 0, 0, 0, 0, 0, 0, 0, 2]
      ∧ r.DstIP.length = 16
      ∧ r.Payload = ⟨[0x80, 0x00, 0x12, 0x34, 0x00, 0x01, 0x00, 0x01], []⟩
      ∧ r.Payload.len = 8
      ∧ (∀ j, r.Payload.bytes[j]? = ipv6Sample.bytes[40 + j]?)
      ∧ (∀ (p2 : IPv6Packet) (data2 : Slice), 40 ≤ data2.bytes.length →
          data2.bytes.drop 40 = ipv6Sample.bytes.drop 40 → data2.spare = ipv6Sample.spare →
          ∃ r2 : IPv6Packet, p2.Parse data2 = .ok (r2, none) ∧ r2.Payload = r.Payload) :=
  ⟨by decide, IPv6Packet_Parse_fields IPv6Packet.zero ipv6Sample (by decide)⟩

/-- C15. `IPv6Packet.NextLayer` selects the next protocol by code: it returns `TCP`
exactly when `NextHeader = 6`, `UDP` exactly when `NextHeader = 17`, `ICMPv6` exactly when
`NextHeader = 58`, and `Unknown` for every value outside its table; it returns a name for
every value. -/
theorem IPv6Packet_NextLayer (p : IPv6Packet) :
    (p.NextLayer = "TCP" ↔ p.NextHeader = 6)
    ∧ (p.NextLayer = "UDP" ↔ p.NextHeader = 17)
    ∧ (p.NextLayer = "ICMPv6" ↔ p.NextHeader = 58)
    ∧ (p.NextHeader ∉ [0, 6, 17, 43, 44, 50, 51, 58, 59, 60, 135, 139, 140] →
        p.NextLayer = "Unknown")
    ∧ ∃ proto, p.NextLayer = proto := by
  refine ⟨?_, ?_, ?_, ?_, ⟨_, rfl⟩⟩
  · unfold IPv6Packet.NextLayer
    split <;> simp_all
  · unfold IPv6Packet.NextLayer
    split <;> simp_all
  · unfold IPv6Packet.NextLayer
    split <;> simp_all
  · intro h
    simp only [List.mem_cons, List.mem_singleton, not_or, List.not_mem_nil, or_false] at h
    unfold IPv6Packet.NextLayer
    split <;> simp_all

/-- C15 (witness): next header 200 is outside the table; next header 6 is TCP. -/
theorem IPv6Packet_NextLayer_witness :
    (200 ∉ [0, 6, 17, 43, 44, 50, 51, 58, 59, 60, 135, 139, 140])
    ∧ IPv6Packet.NextLayer ⟨6, 0, 0, 0, 200, 64, [], [], ⟨[], []⟩⟩ = "Unknown"
    ∧ IPv6Packet.NextLayer ⟨6, 0, 0, 0, 6, 64, [], [], ⟨[], []⟩⟩ = "TCP" :=
  ⟨by decide,
    (IPv6Packet_NextLayer ⟨6, 0, 0, 0, 200, 64, [], [], ⟨[], []⟩⟩).2.2.2.1 (by decide),
    (IPv6Packet_NextLayer ⟨6, 0, 0, 0, 6, 64, [], [], ⟨[], []⟩⟩).1.mpr rfl⟩

theorem shiftRight_two (n : Nat) : n >>> 2 = n / 4 := by
  rw [Nat.shiftRight_eq_div_pow]

theorem and_three (n : Nat) : n &&& 3 = n % 4 := by
  have e : (3 : Nat) = 2 ^ 2 - 1 := by decide
  rw [e, Nat.and_pow_two_sub_one_eq_mod]

theorem byteAt_take (l : List Byte) (n i : Nat) (h : i < n) :
    byteAt (l.take n) i = byteAt l i := by
  have := byteAt_take_drop l 0 n i h
  rwa [List.drop_zero, Nat.zero_add] at this

theorem IPv6Packet.trafficClass_dscp (p : IPv6Packet) :
    p.trafficClass.dscp = (IPv6Packet.trafficClass
      ⟨0, 4 * (p.TrafficClass / 4), 0, 0, 0, 0, [], [], ⟨[], []⟩⟩).dscp := by
  have e : 4 * (p.TrafficClass / 4) / 4 = p.TrafficClass / 4 := by omega
  simp only [IPv6Packet.trafficClass, shiftRight_two, e]

/-- C16. Traffic-class rendering splits the byte into a 6-bit DSCP codepoint and a 2-bit
ECN field: `trafficClass` uses `dscp = TrafficClass / 4`, below 64, and `ecn =
TrafficClass mod 4`, with `TrafficClass = 4 * dscp + ecn`; the class name depends on the
codepoint alone and is `Unknown` for every codepoint outside the table. For every buffer
of at least 40 bytes that begins `60 00 00 00`, `Parse` gives version 6, traffic class 0
and flow label 0, rendered as DSCP `Standard (DF)` with ECN 0. -/
theorem IPv6Packet_trafficClass (p : IPv6Packet) (htc : p.TrafficClass < 256) :
    (p.trafficClass.trafficClass = p.TrafficClass
      ∧ p.trafficClass.dscpbin = p.TrafficClass / 4
      ∧ p.trafficClass.ecn = p.TrafficClass % 4
      ∧ p.trafficClass.dscpbin < 64
      ∧ p.TrafficClass = 4 * p.trafficClass.dscpbin + p.trafficClass.ecn)
    ∧ (∀ q : IPv6Packet, q.TrafficClass / 4 = p.TrafficClass / 4 →
        q.trafficClass.dscp = p.trafficClass.dscp)
    ∧ (p.TrafficClass / 4 ∉ [0, 1, 48, 46, 40, 34, 36, 38, 32, 26, 28, 30, 24, 18, 20, 22, 16,
          10, 12, 14] → p.trafficClass.dscp = "Unknown")
    ∧ (∀ (p0 : IPv6Packet) (data : Slice), 40 ≤ data.bytes.length →
        data.bytes.take 4 = [0x60, 0x00, 0x00, 0x00] →
        ∃ r : IPv6Packet, p0.Parse data = .ok (r, none) ∧ r.Version = 6 ∧ r.TrafficClass = 0
          ∧ r.FlowLabel = 0 ∧ r.trafficClass.dscp = "Standard (DF)"
          ∧ r.trafficClass.ecn = 0) := by
  refine ⟨⟨rfl, ?_, ?_, ?_, ?_⟩, ?_, ?_, ?_⟩
  · simp only [IPv6Packet.trafficClass, shiftRight_two]
  · simp only [IPv6Packet.trafficClass, and_three]
  · simp only [IPv6Packet.trafficClass, shiftRight_two]
    omega
  · simp only [IPv6Packet.trafficClass, shiftRight_two, and_three]
    omega
  · intro q hq
    rw [IPv6Packet.trafficClass_dscp q, IPv6Packet.trafficClass_dscp p, hq]
  · intro h
    simp only [List.mem_cons, List.mem_singleton, not_or, List.not_mem_nil, or_false] at h
    simp only [IPv6Packet.trafficClass, shiftRight_two]
    split <;> simp_all
  · intro p0 data h40 h4
    have hw : be32At data.bytes 0 = 0x60000000 := by
      simp only [be32At]
      rw [← byteAt_take data.bytes 4 0 (by omega), ← byteAt_take data.bytes 4 (0 + 1) (by omega),
        ← byteAt_take data.bytes 4 (0 + 2) (by omega),
        ← byteAt_take data.bytes 4 (0 + 3) (by omega), h4]
      decide
    refine ⟨_, IPv6Packet_Parse_of_le p0 data h40, ?_, ?_, ?_, ?_, ?_⟩
    · simp only [hw]
      decide
    · simp only [hw]
      decide
    · simp only [hw]
      decide
    · simp only [IPv6Packet.trafficClass, hw]
    · simp only [IPv6Packet.trafficClass, hw]
      decide

/-- C16 (witness): the traffic class `B9` is codepoint 46 with ECN 1, and the header
`ipv6Plain` begins `60 00 00 00`. -/
theorem IPv6Packet_trafficClass_witness :
    (telephonyPacket.TrafficClass < 256 ∧ 40 ≤ ipv6Plain.bytes.length
      ∧ ipv6Plain.bytes.take 4 = [0x60, 0x00, 0x00, 0x00])
    ∧ (telephonyPacket.trafficClass.trafficClass = 0xB9
      ∧ telephonyPacket.trafficClass.dscpbin = 46
      ∧ telephonyPacket.trafficClass.ecn = 1
      ∧ telephonyPacket.trafficClass.dscpbin < 64
      ∧ telephonyPacket.TrafficClass
          = 4 * telephonyPacket.trafficClass.dscpbin + telephonyPacket.trafficClass.ecn)
    ∧ ∃ r : IPv6Packet, IPv6Packet.zero.Parse ipv6Plain = .ok (r, none) ∧ r.Version = 6
        ∧ r.TrafficClass = 0 ∧ r.FlowLabel = 0 ∧ r.trafficClass.dscp = "Standard (DF)"
        ∧ r.trafficClass.ecn = 0 :=
  ⟨⟨by decide, by decide, by decide⟩,
    (IPv6Packet_trafficClass telephonyPacket (by decide)).1,
    (IPv6Packet_trafficClass telephonyPacket (by decide)).2.2.2 IPv6Packet.zero ipv6Plain
      (by decide) (by decide)⟩

/-! ## DNS header -/

theorem be16Bytes_pair (a b : Byte) : be16Bytes (256 * a.val + b.val) = [a, b] := by
  have ha := a.isLt
  have hb := b.isLt
  simp only [be16Bytes, List.cons.injEq, and_true]
  constructor
  · apply Fin.ext
    simp only []
    omega
  · apply Fin.ext
    simp only []
    omega

theorem be16Bytes_be16At (l : List Byte) (i : Nat) (h : i + 2 ≤ l.length) :
    be16Bytes (be16At l i) ++ l.drop (i + 2) = l.drop i := by
  have h0 : i < l.length := by omega
  have h1 : i + 1 < l.length := by omega
  rw [List.drop_eq_getElem_cons h0, List.drop_eq_getElem_cons h1]
  simp only [be16At, byteAt_eq_getElem l i h0, byteAt_eq_getElem l (i + 1) h1, be16Bytes_pair,
    List.cons_append, List.nil_append]

/-- C17. For every `data` of at least 12 bytes, `DNSMessage.Parse` sets `TransactionID`,
`Flags`, `Questions`, `AnswerRRs`, `AuthorityRRs` and `AdditionalRRs` to the big-endian
16-bit values at byte offsets 0, 2, 4, 6, 8 and 10, and the payload to the view
`data[12:]`, of length `len(data) - 12`; the six fields written big-endian in that order,
followed by the payload, are the bytes of `data`. -/
theorem DNSMessage_Parse_fields (d : DNSMessage) (data : Slice) (h : 12 ≤ data.bytes.length) :
    ∃ r : DNSMessage, d.Parse data = .ok (r, none)
      ∧ r.TransactionID = 256 * (data.bytes[0]).val + (data.bytes[1]).val
      ∧ r.Flags = 256 * (data.bytes[2]).val + (data.bytes[3]).val
      ∧ r.Questions = 256 * (data.bytes[4]).val + (data.bytes[5]).val
      ∧ r.AnswerRRs = 256 * (data.bytes[6]).val + (data.bytes[7]).val
      ∧ r.AuthorityRRs = 256 * (data.bytes[8]).val + (data.bytes[9]).val
      ∧ r.AdditionalRRs = 256 * (data.bytes[10]).val + (data.bytes[11]).val
      ∧ r.payload = ⟨data.bytes.drop 12, data.spare⟩
      ∧ r.payload.len = data.len - 12
      ∧ be16Bytes r.TransactionID ++ (be16Bytes r.Flags ++ (be16Bytes r.Questions
          ++ (be16Bytes r.AnswerRRs ++ (be16Bytes r.AuthorityRRs
          ++ (be16Bytes r.AdditionalRRs ++ r.payload.bytes))))) = data.bytes := by
  refine ⟨_, DNSMessage_Parse_of_le d data h, ?_, ?_, ?_, ?_, ?_, ?_, rfl, ?_, ?_⟩
  · simp only [be16At, byteAt_eq_getElem data.bytes 0 (by omega),
      byteAt_eq_getElem data.bytes (0 + 1) (by omega)]
  · simp only [be16At, byteAt_eq_getElem data.bytes 2 (by omega),
      byteAt_eq_getElem data.bytes (2 + 1) (by omega)]
  · simp only [be16At, byteAt_eq_getElem data.bytes 4 (by omega),
      byteAt_eq_getElem data.bytes (4 + 1) (by omega)]
  · simp only [be16At, byteAt_eq_getElem data.bytes 6 (by omega),
      byteAt_eq_getElem data.bytes (6 + 1) (by omega)]
  · simp only [be16At, byteAt_eq_getElem data.bytes 8 (by omega),
      byteAt_eq_getElem data.bytes (8 + 1) (by omega)]
  · simp only [be16At, byteAt_eq_getElem data.bytes 10 (by omega),
      byteAt_eq_getElem data.bytes (10 + 1) (by omega)]
  · simp only [Slice.len, List.length_drop]
  · simp only []
    rw [be16Bytes_be16At data.bytes 10 (by omega), be16Bytes_be16At data.bytes 8 (by omega),
      be16Bytes_be16At data.bytes 6 (by omega), be16Bytes_be16At data.bytes 4 (by omega),
      be16Bytes_be16At data.bytes 2 (by omega), be16Bytes_be16At data.bytes 0 (by omega),
      List.drop_zero]

/-- C17 (witness): the message `dnsSample`. -/
theorem DNSMessage_Parse_fields_witness :
    12 ≤ dnsSample.bytes.length
    ∧ ∃ r : DNSMessage, DNSMessage.zero.Parse dnsSample = .ok (r, none)
      ∧ r.TransactionID = 0x1234
      ∧ r.Flags = 0x8180
      ∧ r.Questions = 1
      ∧ r.AnswerRRs = 1
      ∧ r.AuthorityRRs = 0
      ∧ r.AdditionalRRs = 0
      ∧ r.payload = pointerAnswerPayload
      ∧ r.payload.len = 33
      ∧ be16Bytes r.TransactionID ++ (be16Bytes r.Flags ++ (be16Bytes r.Questions
          ++ (be16Bytes r.AnswerRRs ++ (be16Bytes r.AuthorityRRs
          ++ (be16Bytes r.AdditionalRRs ++ r.payload.bytes))))) = dnsSample.bytes :=
  ⟨by decide, DNSMessage_Parse_fields DNSMessage.zero dnsSample (by decide)⟩

theorem and_fifteen (n : Nat) : n &&& 15 = n % 16 := by
  have e : (15 : Nat) = 2 ^ 4 - 1 := by decide
  rw [e, Nat.and_pow_two_sub_one_eq_mod]

/-- C18. DNS flag unpacking uses fixed bit positions that do not overlap and cover the
16-bit word: QR is bit 15, the opcode bits 14 to 11, authoritative bit 10, truncated bit
9, recursion desired bit 8, recursion available bit 7, reserved bit 6, answer
authenticated bit 5, non-authenticated data bit 4 and the reply code bits 3 to 0. For
every `Flags` with `QR = 1`, `flags` uses the reply format and its ten values recombine to
`Flags`; with `QR = 0` it uses the query format with QR, opcode and the bits 9, 8, 6, 4. -/
theorem DNSMessage_flags_bits (d : DNSMessage) (hF : d.Flags < 2 ^ 16) :
    (d.Flags / 2 ^ 15 % 2 = 1 →
      ∃ (opcodes rcodes : String) (opcode a tc rd ra z aa na rcode : Nat),
        d.flags = .reply "reply" 1 opcodes opcode a tc rd ra z aa na rcodes rcode
        ∧ opcode = d.Flags / 2 ^ 11 % 16 ∧ a = d.Flags / 2 ^ 10 % 2
        ∧ tc = d.Flags / 2 ^ 9 % 2 ∧ rd = d.Flags / 2 ^ 8 % 2 ∧ ra = d.Flags / 2 ^ 7 % 2
        ∧ z = d.Flags / 2 ^ 6 % 2 ∧ aa = d.Flags / 2 ^ 5 % 2 ∧ na = d.Flags / 2 ^ 4 % 2
        ∧ rcode = d.Flags % 16
        ∧ opcode < 16 ∧ rcode < 16
        ∧ a ≤ 1 ∧ tc ≤ 1 ∧ rd ≤ 1 ∧ ra ≤ 1 ∧ z ≤ 1 ∧ aa ≤ 1 ∧ na ≤ 1
        ∧ d.Flags = 1 * 2 ^ 15 + opcode * 2 ^ 11 + a * 2 ^ 10 + tc * 2 ^ 9 + rd * 2 ^ 8
            + ra * 2 ^ 7 + z * 2 ^ 6 + aa * 2 ^ 5 + na * 2 ^ 4 + rcode)
    ∧ (d.Flags / 2 ^ 15 % 2 = 0 →
      ∃ opcodes : String, d.flags = .query "query" 0 opcodes (d.Flags / 2 ^ 11 % 16)
        (d.Flags / 2 ^ 9 % 2) (d.Flags / 2 ^ 8 % 2) (d.Flags / 2 ^ 6 % 2)
        (d.Flags / 2 ^ 4 % 2)) := by
  constructor
  · intro hqr
    have key : ∃ opcodes rcodes : String, d.flags = .reply "reply" 1 opcodes
        (d.Flags / 2 ^ 11 % 16) (d.Flags / 2 ^ 10 % 2) (d.Flags / 2 ^ 9 % 2)
        (d.Flags / 2 ^ 8 % 2) (d.Flags / 2 ^ 7 % 2) (d.Flags / 2 ^ 6 % 2)
        (d.Flags / 2 ^ 5 % 2) (d.Flags / 2 ^ 4 % 2) rcodes (d.Flags % 16) := by
      simp only [DNSMessage.flags, Nat.shiftRight_eq_div_pow, Nat.and_one_is_mod, and_fifteen, hqr]
      exact ⟨_, _, rfl⟩
    obtain ⟨opcodes, rcodes, hfl⟩ := key
    refine ⟨opcodes, rcodes, _, _, _, _, _, _, _, _, _, hfl, rfl, rfl, rfl, rfl, rfl, rfl, rfl,
      rfl, rfl, ?_, ?_, ?_, ?_, ?_, ?_, ?_, ?_, ?_, ?_⟩
    all_goals omega
  · intro hqr
    simp only [DNSMessage.flags, Nat.shiftRight_eq_div_pow, Nat.and_one_is_mod, and_fifteen, hqr]
    exact ⟨_, rfl⟩

/-- C18 (witness): the flags `8180` are rendered as a reply with opcode 0, recursion
desired 1, recursion available 1 and reply code 0. -/
theorem DNSMessage_flags_bits_witness :
    (replyHeader.Flags < 2 ^ 16 ∧ replyHeader.Flags / 2 ^ 15 % 2 = 1)
    ∧ replyHeader.flags = .reply "reply" 1 "Standard query" 0 0 0 1 1 0 0 0 "No error" 0
    ∧ ∃ (opcodes rcodes : String) (opcode a tc rd ra z aa na rcode : Nat),
        replyHeader.flags = .reply "reply" 1 opcodes opcode a tc rd ra z aa na rcodes rcode
        ∧ opcode = replyHeader.Flags / 2 ^ 11 % 16 ∧ a = replyHeader.Flags / 2 ^ 10 % 2
        ∧ tc = replyHeader.Flags / 2 ^ 9 % 2 ∧ rd = replyHeader.Flags / 2 ^ 8 % 2
        ∧ ra = replyHeader.Flags / 2 ^ 7 % 2 ∧ z = replyHeader.Flags / 2 ^ 6 % 2
        ∧ aa = replyHeader.Flags / 2 ^ 5 % 2 ∧ na = replyHeader.Flags / 2 ^ 4 % 2
        ∧ rcode = replyHeader.Flags % 16
        ∧ opcode < 16 ∧ rcode < 16
        ∧ a ≤ 1 ∧ tc ≤ 1 ∧ rd ≤ 1 ∧ ra ≤ 1 ∧ z ≤ 1 ∧ aa ≤ 1 ∧ na ≤ 1
        ∧ replyHeader.Flags = 1 * 2 ^ 15 + opcode * 2 ^ 11 + a * 2 ^ 10 + tc * 2 ^ 9
            + rd * 2 ^ 8 + ra * 2 ^ 7 + z * 2 ^ 6 + aa * 2 ^ 5 + na * 2 ^ 4 + rcode :=
  ⟨⟨by decide, by decide⟩, by decide,
    (DNSMessage_flags_bits replyHeader (by decide)).1 (by decide)⟩

/-! ## Reuse of the records -/

/-- C19. Each `Parse` call is independent of the previous contents of the record: for
`data` long enough to parse, `ICMPSegment.Parse`, `IPv6Packet.Parse` and
`DNSMessage.Parse` give the same result from any two prior states of the record, and
parsing the same `data` again into the resulting record gives that record again. -/
theorem Parse_independent (data : Slice) :
    (4 ≤ data.len → ∀ s1 s2 : ICMPSegment, s1.Parse data = s2.Parse data
      ∧ ∃ r : ICMPSegment, s1.Parse data = .ok (r, none) ∧ r.Parse data = .ok (r, none))
    ∧ (40 ≤ data.len → ∀ s1 s2 : IPv6Packet, s1.Parse data = s2.Parse data
      ∧ ∃ r : IPv6Packet, s1.Parse data = .ok (r, none) ∧ r.Parse data = .ok (r, none))
    ∧ (12 ≤ data.len → ∀ s1 s2 : DNSMessage, s1.Parse data = s2.Parse data
      ∧ ∃ r : DNSMessage, s1.Parse data = .ok (r, none) ∧ r.Parse data = .ok (r, none)) := by
  refine ⟨fun h s1 s2 => ?_, fun h s1 s2 => ?_, fun h s1 s2 => ?_⟩
  · exact ⟨by rw [ICMPSegment_Parse_of_le s1 data h, ICMPSegment_Parse_of_le s2 data h],
      _, ICMPSegment_Parse_of_le s1 data h, ICMPSegment_Parse_of_le _ data h⟩
  · exact ⟨by rw [IPv6Packet_Parse_of_le s1 data h, IPv6Packet_Parse_of_le s2 data h],
      _, IPv6Packet_Parse_of_le s1 data h, IPv6Packet_Parse_of_le _ data h⟩
  · exact ⟨by rw [DNSMessage_Parse_of_le s1 data h, DNSMessage_Parse_of_le s2 data h],
      _, DNSMessage_Parse_of_le s1 data h, DNSMessage_Parse_of_le _ data h⟩

/-- C19 (witness): the 48 bytes of `ipv6Sample` are long enough for the three decoders;
parsed into the zero record or into a record left by `echoRequestSegment`, `ipv6Plain` or
`dnsSample`, they give the same record. -/
theorem Parse_independent_witness :
    (4 ≤ ipv6Sample.len ∧ 40 ≤ ipv6Sample.len ∧ 12 ≤ ipv6Sample.len)
    ∧ (ICMPSegment.zero.Parse ipv6Sample
        = ICMPSegment.Parse ⟨8, 0, 0x1234, ⟨[0, 1, 0, 1], []⟩⟩ ipv6Sample
      ∧ ∃ r : ICMPSegment, ICMPSegment.zero.Parse ipv6Sample = .ok (r, none)
        ∧ r.Parse ipv6Sample = .ok (r, none))
    ∧ (IPv6Packet.zero.Parse ipv6Sample = telephonyPacket.Parse ipv6Sample
      ∧ ∃ r : IPv6Packet, IPv6Packet.zero.Parse ipv6Sample = .ok (r, none)
        ∧ r.Parse ipv6Sample = .ok (r, none))
    ∧ (DNSMessage.zero.Parse ipv6Sample = replyHeader.Parse ipv6Sample
      ∧ ∃ r : DNSMessage, DNSMessage.zero.Parse ipv6Sample = .ok (r, none)
        ∧ r.Parse ipv6Sample = .ok (r, none)) :=
  ⟨⟨by decide, by decide, by decide⟩,
    (Parse_independent ipv6Sample).1 (by decide) _ _,
    (Parse_independent ipv6Sample).2.1 (by decide) _ _,
    (Parse_independent ipv6Sample).2.2 (by decide) _ _⟩

/-! ## HTTP and SNMP -/

/-- C20. HTTP and SNMP are pass-through terminal decoders: for every byte buffer,
`HTTPMessage.Parse` and `SNMPMessage.Parse` return no error; `HTTPMessage.String` is the
summary `HTTP Message:`, a newline and the bytes of the buffer, unmodified;
`SNMPMessage.String` is the line `SNMP Message:` whatever the buffer; and `NextLayer` of
both, and of `DNSMessage`, returns the empty protocol name and no payload. -/
theorem terminal_decoders (h : HTTPMessage) (s : SNMPMessage) (d : DNSMessage) (data : Slice) :
    (h.Parse data).2 = none
    ∧ (s.Parse data).2 = none
    ∧ (h.Parse data).1.String = [.text "HTTP Message:", .text "\n", .bytes data.bytes]
    ∧ (s.Parse data).1.String = [.text "SNMP Message:"]
    ∧ h.NextLayer = ("", none)
    ∧ s.NextLayer = ("", none)
    ∧ d.NextLayer = ("", none) :=
  ⟨rfl, rfl, rfl, rfl, rfl, rfl, rfl⟩


/-! ## Backward pointers -/

/-- The loop of `extractDomain` and the scan `pointerTarget` agree: when the scan finds no
pointer, the loop gives a result that does not depend on the nested call; when it finds
the target `o2`, the target lies in the payload and the loop has not returned exactly when
the nested call on the payload from `o2` has not. -/
theorem extractDomainLoop_pointerTarget (data : Slice) :
    ∀ (k : Nat) (domainName : List Byte) (tail : Slice), tail.len < k →
      (pointerTarget data k tail = none →
        ∃ r, r ≠ Outcome.exhausted ∧ ∀ call, extractDomainLoop call data k domainName tail = r)
      ∧ (∀ o2, pointerTarget data k tail = some o2 →
          o2 ≤ data.len ∧ ∀ call : Slice → Outcome (List Byte × Slice),
            (extractDomainLoop call data k domainName tail = .exhausted
              ↔ call ⟨data.bytes.drop o2, data.spare⟩ = .exhausted)) := by
  intro k
  induction k with
  | zero =>
    intro _ tail h
    omega
  | succ k ih =>
    intro domainName tail hlen
    obtain ⟨bytes, sp⟩ := tail
    cases bytes with
    | nil =>
      refine ⟨fun _ => ⟨.panic, by simp, fun call => by simp [extractDomainLoop]⟩, ?_⟩
      intro o2 h
      simp [pointerTarget] at h
    | cons b rest =>
      by_cases hb : b.val >>> 6 = 3
      · cases hs : slice ⟨b :: rest, sp⟩ 0 2 with
        | exhausted => exact absurd hs (slice_ne_exhausted _ _ _)
        | panic =>
          refine ⟨fun _ => ⟨.panic, by simp, fun call => ?_⟩, ?_⟩
          · rw [extractDomainLoop]
            simp only [index_cons_zero, Outcome.ok_bind]
            rw [if_pos hb, hs]
            rfl
          · intro o2 h
            rw [pointerTarget] at h
            simp only [index_cons_zero] at h
            rw [if_pos hb, hs] at h
            simp at h
        | ok b2 =>
          cases hu : Uint16 b2 with
          | exhausted => exact absurd hu (Uint16_ne_exhausted _)
          | panic =>
            refine ⟨fun _ => ⟨.panic, by simp, fun call => ?_⟩, ?_⟩
            · rw [extractDomainLoop]
              simp only [index_cons_zero, Outcome.ok_bind]
              rw [if_pos hb, hs, Outcome.ok_bind, hu]
              rfl
            · intro o2 h
              rw [pointerTarget] at h
              simp only [index_cons_zero] at h
              rw [if_pos hb, hs] at h
              simp only [hu] at h
              simp at h
          | ok v =>
            by_cases ho : ((v &&& ((1 <<< 14) - 1)) + 2 ^ 16 - headerSizeDNS) % 2 ^ 16
                ≤ data.len
            · have hpt : pointerTarget data (k + 1) ⟨b :: rest, sp⟩
                  = some (((v &&& ((1 <<< 14) - 1)) + 2 ^ 16 - headerSizeDNS) % 2 ^ 16) := by
                rw [pointerTarget]
                simp only [index_cons_zero]
                rw [if_pos hb, hs]
                simp only [hu]
                rw [if_pos ho]
              refine ⟨fun h => ?_, ?_⟩
              · rw [hpt] at h
                simp at h
              · intro o2 h
                rw [hpt] at h
                have he := Option.some.inj h
                subst he
                refine ⟨ho, fun call => ?_⟩
                rw [extractDomainLoop]
                simp only [index_cons_zero, Outcome.ok_bind]
                rw [if_pos hb, hs, Outcome.ok_bind, hu, Outcome.ok_bind]
                simp only [sliceFrom, ho, if_true, Outcome.ok_bind]
                cases call ⟨data.bytes.drop
                  (((v &&& ((1 <<< 14) - 1)) + 2 ^ 16 - headerSizeDNS) % 2 ^ 16), data.spare⟩ with
                | ok r =>
                  simp only [Outcome.ok_bind]
                  split <;> simp
                | panic => simp
                | exhausted => simp
            · refine ⟨fun _ => ⟨.panic, by simp, fun call => ?_⟩, ?_⟩
              · rw [extractDomainLoop]
                simp only [index_cons_zero, Outcome.ok_bind]
                rw [if_pos hb, hs, Outcome.ok_bind, hu, Outcome.ok_bind]
                simp only [sliceFrom, ho, if_false, Outcome.panic_bind]
              · intro o2 h
                rw [pointerTarget] at h
                simp only [index_cons_zero] at h
                rw [if_pos hb, hs] at h
                simp only [hu] at h
                rw [if_neg ho] at h
                simp at h
      · by_cases hz : b.val = 0
        · refine ⟨fun _ => ⟨.ok (domainName, ⟨rest, sp⟩), by simp, fun call => ?_⟩, ?_⟩
          · rw [extractDomainLoop]
            simp only [index_cons_zero, Outcome.ok_bind]
            rw [if_neg hb]
            simp only [sliceFrom_cons_succ, sliceFrom_zero, Outcome.ok_bind]
            rw [if_pos hz]
            rfl
          · intro o2 h
            rw [pointerTarget] at h
            simp only [index_cons_zero] at h
            rw [if_neg hb, if_pos hz] at h
            simp at h
        · have hstep : ∀ call, extractDomainLoop call data (k + 1) domainName ⟨b :: rest, sp⟩
              = (slice ⟨rest, sp⟩ 0 b.val >>= fun label =>
                  sliceFrom ⟨rest, sp⟩ b.val >>= fun tail3 =>
                    extractDomainLoop call data k (domainName ++ label.bytes ++ [dot]) tail3) := by
            intro call
            rw [extractDomainLoop]
            simp only [index_cons_zero, Outcome.ok_bind]
            rw [if_neg hb]
            simp only [sliceFrom_cons_succ, sliceFrom_zero, Outcome.ok_bind]
            rw [if_neg hz]
          have hscan : pointerTarget data (k + 1) ⟨b :: rest, sp⟩
              = match slice ⟨rest, sp⟩ 0 b.val, sliceFrom ⟨rest, sp⟩ b.val with
                | .ok _, .ok tail2 => pointerTarget data k tail2
                | _, _ => none := by
            rw [pointerTarget]
            simp only [index_cons_zero]
            rw [if_neg hb, if_neg hz]
            rfl
          cases hs : slice ⟨rest, sp⟩ 0 b.val with
          | exhausted => exact absurd hs (slice_ne_exhausted _ _ _)
          | panic =>
            refine ⟨fun _ => ⟨.panic, by simp, fun call => ?_⟩, ?_⟩
            · rw [hstep, hs]
              rfl
            · intro o2 h
              rw [hscan, hs] at h
              simp at h
          | ok label =>
            cases hf : sliceFrom ⟨rest, sp⟩ b.val with
            | exhausted => exact absurd hf (sliceFrom_ne_exhausted _ _)
            | panic =>
              refine ⟨fun _ => ⟨.panic, by simp, fun call => ?_⟩, ?_⟩
              · rw [hstep, hs, Outcome.ok_bind, hf]
                rfl
              · intro o2 h
                rw [hscan, hs, hf] at h
                simp at h
            | ok tail3 =>
              have hl3 : tail3.len < k := by
                have := (sliceFrom_len_le _ _ _ hf).1
                simp only [Slice.len, List.length_cons] at this hlen ⊢
                omega
              have hscan3 : pointerTarget data (k + 1) ⟨b :: rest, sp⟩
                  = pointerTarget data k tail3 := by
                rw [hscan, hs, hf]
              obtain ⟨ih1, ih2⟩ := ih (domainName ++ label.bytes ++ [dot]) tail3 hl3
              refine ⟨fun h => ?_, ?_⟩
              · obtain ⟨r, hr, hall⟩ := ih1 (by rw [← hscan3]; exact h)
                refine ⟨r, hr, fun call => ?_⟩
                rw [hstep, hs, Outcome.ok_bind, hf, Outcome.ok_bind]
                exact hall call
              · intro o2 h
                obtain ⟨ho, hall⟩ := ih2 o2 (by rw [← hscan3]; exact h)
                refine ⟨ho, fun call => ?_⟩
                rw [hstep, hs, Outcome.ok_bind, hf, Outcome.ok_bind]
                exact hall call

/-- Decoding the name segment that starts at payload offset `o`: without a pointer met, the
result does not depend on the budget of nested calls; with the pointer target `o2`, the
call has not returned exactly when the nested call at `o2` has not. -/
theorem extractDomain_pointerAt (data : Slice) (o : Nat) :
    (pointerAt data o = none →
      ∃ r, r ≠ Outcome.exhausted
        ∧ ∀ h, extractDomain (h + 1) data ⟨data.bytes.drop o, data.spare⟩ = r)
    ∧ (∀ o2, pointerAt data o = some o2 →
        o2 ≤ data.len ∧ ∀ h,
          (extractDomain (h + 1) data ⟨data.bytes.drop o, data.spare⟩ = .exhausted
            ↔ extractDomain h data ⟨data.bytes.drop o2, data.spare⟩ = .exhausted)) := by
  have hk : (data.bytes.drop o).length + 1 = data.len - o + 1 := by
    simp only [List.length_drop, Slice.len]
  have hlt : (⟨data.bytes.drop o, data.spare⟩ : Slice).len < data.len - o + 1 := by
    simp only [Slice.len, List.length_drop]
    omega
  obtain ⟨h1, h2⟩ := extractDomainLoop_pointerTarget data (data.len - o + 1) []
    ⟨data.bytes.drop o, data.spare⟩ hlt
  refine ⟨fun hn => ?_, fun o2 hs => ?_⟩
  · obtain ⟨r, hr, hall⟩ := h1 hn
    refine ⟨r, hr, fun h => ?_⟩
    rw [extractDomain_succ, hk]
    exact hall _
  · obtain ⟨ho, hall⟩ := h2 o2 hs
    refine ⟨ho, fun h => ?_⟩
    rw [extractDomain_succ, hk]
    exact hall _

/-- A chain of backward pointers from `o` ends: the call at `o` returns within `o + 1`
nested calls. -/
theorem extractDomain_backward_stop (data : Slice) :
    ∀ (fuel o : Nat), o ≤ data.len → pointersBackwardFrom data fuel o = true →
      extractDomain (o + 1) data ⟨data.bytes.drop o, data.spare⟩ ≠ .exhausted := by
  intro fuel
  induction fuel with
  | zero =>
    intro o _ h
    simp [pointersBackwardFrom] at h
  | succ fuel ih =>
    intro o ho h
    obtain ⟨h1, h2⟩ := extractDomain_pointerAt data o
    rw [pointersBackwardFrom] at h
    cases hp : pointerAt data o with
    | none =>
      obtain ⟨r, hr, hall⟩ := h1 hp
      rw [hall]
      exact hr
    | some o2 =>
      rw [hp] at h
      simp only [Bool.and_eq_true, decide_eq_true_eq] at h
      obtain ⟨ho2, hall⟩ := h2 o2 hp
      have hin := ih o2 ho2 h.2
      intro hc
      have hex := (hall o).mp hc
      rw [extractDomain_settled_le data (o2 + 1) o h.1 _ hin] at hex
      exact hin hex

/-- C21. `extractDomain` terminates on every payload in which each compression pointer met
while decoding targets an offset of the payload strictly smaller than the offset at which
the name segment read by the call starts (`pointersBackward`). For a call whose cursor is
at payload offset `o`: a budget of `o + 1` calls, that is at most `o` pointer hops, is
enough for the call to return a name or to panic; a larger budget gives the same result;
and the nested call made for a pointer met starts at an offset `o2 < o`. -/
theorem extractDomain_backward_terminates (data : Slice) (o : Nat) (ho : o ≤ data.len)
    (hback : pointersBackward data o = true) :
    extractDomain (o + 1) data ⟨data.bytes.drop o, data.spare⟩ ≠ .exhausted
    ∧ (∀ depth, o + 1 ≤ depth →
        extractDomain depth data ⟨data.bytes.drop o, data.spare⟩
          = extractDomain (o + 1) data ⟨data.bytes.drop o, data.spare⟩)
    ∧ (∀ o2, pointerAt data o = some o2 →
        o2 < o ∧ ∀ depth,
          (extractDomain (depth + 1) data ⟨data.bytes.drop o, data.spare⟩ = .exhausted
            ↔ extractDomain depth data ⟨data.bytes.drop o2, data.spare⟩ = .exhausted)) := by
  have hstop := extractDomain_backward_stop data (o + 1) o ho hback
  refine ⟨hstop, fun depth hd => extractDomain_settled_le data _ _ hd _ hstop,
    fun o2 hp => ⟨?_, ((extractDomain_pointerAt data o).2 o2 hp).2⟩⟩
  unfold pointersBackward at hback
  rw [pointersBackwardFrom, hp] at hback
  simp only [Bool.and_eq_true, decide_eq_true_eq] at hback
  exact hback.1

/-- C21 (witness): in `pointerAnswerPayload` the name of the answer, at offset 17, is the
pointer `C0 0C`, which targets offset 0, where a name without pointer starts; decoding at
offset 17 returns within 18 calls. -/
theorem extractDomain_backward_terminates_witness :
    17 ≤ pointerAnswerPayload.len
    ∧ pointersBackward pointerAnswerPayload 17 = true
    ∧ (extractDomain (17 + 1) pointerAnswerPayload
          ⟨pointerAnswerPayload.bytes.drop 17, pointerAnswerPayload.spare⟩ ≠ .exhausted
      ∧ (∀ depth, 17 + 1 ≤ depth →
          extractDomain depth pointerAnswerPayload
              ⟨pointerAnswerPayload.bytes.drop 17, pointerAnswerPayload.spare⟩
            = extractDomain (17 + 1) pointerAnswerPayload
              ⟨pointerAnswerPayload.bytes.drop 17, pointerAnswerPayload.spare⟩)
      ∧ (∀ o2, pointerAt pointerAnswerPayload 17 = some o2 →
          o2 < 17 ∧ ∀ depth,
            (extractDomain (depth + 1) pointerAnswerPayload
                ⟨pointerAnswerPayload.bytes.drop 17, pointerAnswerPayload.spare⟩ = .exhausted
              ↔ extractDomain depth pointerAnswerPayload
                ⟨pointerAnswerPayload.bytes.drop o2, pointerAnswerPayload.spare⟩
                  = .exhausted))) :=
  ⟨by decide, by decide,
    extractDomain_backward_terminates pointerAnswerPayload 17 (by decide) (by decide)⟩

/-! ## The offset of a pointer -/

/-- C22. The offset of a pointer is computed in 16-bit unsigned arithmetic. For a pointer
whose 14-bit value is `p`, `extractDomain` slices the payload at `(p - 12) mod 2^16` and
decodes the target from there. For `12 ≤ p` the offset is `p - 12`. For `p < 12`, a pointer
into the message header, it is `p + 65524`, and for every payload shorter than
`p + 65524` bytes the slice expression, and with it the call, panics. -/
theorem extractDomain_pointer_offset (depth : Nat) (payload : Slice) (p : Nat)
    (s sp : List Byte) (hp : p < 2 ^ 14) :
    extractDomain (depth + 1) payload ⟨pointerBytes p ++ s, sp⟩
      = (sliceFrom payload ((p + 2 ^ 16 - 12) % 2 ^ 16) >>= fun target =>
          extractDomain depth payload target >>= fun r =>
            Outcome.ok (r.1, (⟨s, sp⟩ : Slice)))
    ∧ (((p + 2 ^ 16 - 12) % 2 ^ 16 : Nat) : Int) = ((p : Int) - 12) % 2 ^ 16
    ∧ (12 ≤ p → (p + 2 ^ 16 - 12) % 2 ^ 16 = p - 12)
    ∧ (p < 12 → (p + 2 ^ 16 - 12) % 2 ^ 16 = p + 65524
        ∧ (payload.len < p + 65524 →
            sliceFrom payload (p + 65524) = .panic
            ∧ extractDomain (depth + 1) payload ⟨pointerBytes p ++ s, sp⟩ = .panic)) := by
  obtain ⟨b0, b1, hb, hb6, hval⟩ := pointerBytes_eq p hp
  have hstep : extractDomain (depth + 1) payload ⟨pointerBytes p ++ s, sp⟩
      = (sliceFrom payload ((p + 2 ^ 16 - 12) % 2 ^ 16) >>= fun target =>
          extractDomain depth payload target >>= fun r =>
            Outcome.ok (r.1, (⟨s, sp⟩ : Slice))) := by
    rw [extractDomain_succ, hb]
    simp only [List.cons_append, List.nil_append, List.length_cons]
    rw [extractDomainLoop_pointer _ _ _ _ _ _ b0 b1 hb6, hval]
    simp only [List.nil_append]
  have hpow : (2 : Nat) ^ 14 = 16384 := by decide
  rw [hpow] at hp
  refine ⟨hstep, ?_, fun h12 => ?_, fun h12 => ⟨?_, fun hlen => ?_⟩⟩
  · have e : (2 : Nat) ^ 16 = 65536 := by decide
    have e2 : (2 : Int) ^ 16 = 65536 := by decide
    rw [e, e2]
    omega
  · omega
  · omega
  · have ho : (p + 2 ^ 16 - 12) % 2 ^ 16 = p + 65524 := by omega
    have hpanic := sliceFrom_panic payload (p + 65524) hlen
    refine ⟨hpanic, ?_⟩
    rw [hstep, ho, hpanic]
    rfl

/-- C22 (witness): the pointer `C0 05` has the value 5, inside the header; on the 33 bytes
of `pointerAnswerPayload` the offset is 65529 and the call panics. -/
theorem extractDomain_pointer_offset_witness :
    5 < 2 ^ 14
    ∧ extractDomain (0 + 1) pointerAnswerPayload ⟨pointerBytes 5 ++ [], []⟩
      = (sliceFrom pointerAnswerPayload ((5 + 2 ^ 16 - 12) % 2 ^ 16) >>= fun target =>
          extractDomain 0 pointerAnswerPayload target >>= fun r =>
            Outcome.ok (r.1, (⟨[], []⟩ : Slice)))
    ∧ (((5 + 2 ^ 16 - 12) % 2 ^ 16 : Nat) : Int) = ((5 : Nat) - 12 : Int) % 2 ^ 16
    ∧ (12 ≤ 5 → (5 + 2 ^ 16 - 12) % 2 ^ 16 = 5 - 12)
    ∧ (5 < 12 → (5 + 2 ^ 16 - 12) % 2 ^ 16 = 5 + 65524
        ∧ (pointerAnswerPayload.len < 5 + 65524 →
            sliceFrom pointerAnswerPayload (5 + 65524) = .panic
            ∧ extractDomain (0 + 1) pointerAnswerPayload ⟨pointerBytes 5 ++ [], []⟩
              = .panic)) :=
  ⟨by decide, extractDomain_pointer_offset 0 pointerAnswerPayload 5 [] [] (by decide)⟩

/-! ## Code descriptions of ICMP -/

/-- C23 (failing input). The description of code 0 of type 3 (Destination Unreachable) is
the Echo Reply text of type 0: `typecode` returns `Echo Reply (Ping)` as the code
description of both, so a code description that is neither `Unknown` nor empty does not
identify the type. -/
theorem typecode_echo_reply_shared (code checksum checksum2 : Nat) (payload payload2 : Slice) :
    ICMPSegment.typecode ⟨3, 0, checksum, payload⟩
      = ("Destination Unreachable", "Echo Reply (Ping)")
    ∧ ICMPSegment.typecode ⟨0, code, checksum2, payload2⟩ = ("Echo Reply", "Echo Reply (Ping)")
    ∧ ¬ (∀ a b : ICMPSegment, a.typecode.2 = b.typecode.2 → a.typecode.2 ≠ "Unknown" →
          a.typecode.2 ≠ "" → a.Typ = b.Typ) := by
  refine ⟨rfl, rfl, fun h => ?_⟩
  have := h ⟨3, 0, 0, ⟨[], []⟩⟩ ⟨0, 0, 0, ⟨[], []⟩⟩ rfl (by decide) (by decide)
  exact absurd this (by decide)

end Mshark
